import Mathlib

/-!
# Editor core of the dotfiles repository: buffer, history, commands

A shallow embedding of the Go editor sources kept under `Cursor/User/History`.
The sources are several revisions of the same package:

* `5315dbe/2P2Z.go`: the structured-record revision (undo stack of `Action`),
* `5315dbe/3IWz.go`: the snapshot revision (undo stack of `Change`),
* `652bc183/y2WU.go`: the command handler,
* `-60f29191/6k4e.go`: completion.

Conventions of the embedding:

* a Go `string` is a list of bytes, `len` and indexing count bytes;
* a Go `int` is an `Int`; every integer computed below is a length, an index or a
  neighbour of one, so no 64-bit wrap-around is involved;
* a method on `*Editor` is a function from the state to `Option` of the new state,
  where `none` stands for a run-time panic (index or slice bound out of range);
* a slice of lines is modelled by its contents.  In the snapshot revision a `Change`
  stores the slice `e.lines` itself, so in Go the entry shares the backing array of
  `e.lines` until `e.lines` is reassigned; the model records the contents the entry has
  when it is pushed, which is what an `undo` issued right after the push reads;
* `statusTimeout` (wall-clock time), the screen handle and the file tree are left out.
-/

namespace GoEditor

/-! ## Go primitives -/

/-- A byte of a Go string. -/
abbrev Byte := Fin 256

/-- A Go string: an immutable sequence of bytes. -/
abbrev GoString := List Byte

/-- ASCII text as a Go string (one byte per character). -/
def str (s : String) : GoString := s.toList.map (fun c => Fin.ofNat c.toNat)

/-- Go `len(xs)` as an `int`. -/
def len {α : Type} (xs : List α) : Int := (xs.length : Int)

/-- Index expression `xs[i]`; out of range panics. -/
def index {α : Type} (xs : List α) (i : Int) : Option α :=
  if 0 ≤ i then xs[i.toNat]? else none

/-- Slice expression `xs[lo:hi]`; panics unless `0 ≤ lo ≤ hi ≤ len(xs)`. -/
def slice {α : Type} (xs : List α) (lo hi : Int) : Option (List α) :=
  if 0 ≤ lo ∧ lo ≤ hi ∧ hi ≤ len xs then some ((xs.take hi.toNat).drop lo.toNat) else none

/-- Slice expression `xs[:hi]`. -/
def sliceTo {α : Type} (xs : List α) (hi : Int) : Option (List α) := slice xs 0 hi

/-- Slice expression `xs[lo:]`. -/
def sliceFrom {α : Type} (xs : List α) (lo : Int) : Option (List α) := slice xs lo (len xs)

/-- Assignment `xs[i] = v`; out of range panics. -/
def setIndex {α : Type} (xs : List α) (i : Int) (v : α) : Option (List α) :=
  if 0 ≤ i ∧ i < len xs then some (xs.set i.toNat v) else none

/-- Conversion `string(b)` of a byte `b`: the UTF-8 encoding of the code point `b`
(one byte below 128, two bytes from 128 on). -/
def stringOfByte (b : Byte) : GoString :=
  if b.val < 128 then [b] else [Fin.ofNat (192 + b.val / 64), Fin.ofNat (128 + b.val % 64)]

/-- The constant `maxLineLength`. -/
def maxLineLength : Int := 10000

/-- The constant `maxUndoStack`. -/
def maxUndoStack : Int := 1000

/-- The constant `maxFileSize` (50MB). -/
def maxFileSize : Int := 50 * 1024 * 1024

/-! ## The editor state -/

/-- Completion candidate (`6k4e.go`). -/
structure Completion where
  Text : GoString
  Description : GoString
  deriving DecidableEq, Repr

/-- The fields of `Editor` read or written by the modelled methods.  The type `R` is the
type of the entries of the undo and redo stacks, which differs between revisions. -/
structure Editor (R : Type) where
  lines : List GoString
  cursorX : Int
  cursorY : Int
  mode : GoString
  filename : GoString
  statusMessage : GoString
  isDirty : Bool
  tabSize : Int
  searchTerm : GoString
  undoStack : List R
  redoStack : List R
  commandBuffer : GoString
  showLineNumbers : Bool
  quit : Bool
  treeVisible : Bool
  newFileDir : GoString
  screenHeight : Int
  scrollY : Int
  syntaxHighlight : Bool
  completions : List Completion
  completionIndex : Int
  completionActive : Bool
  isLargeFile : Bool
  /-- The entries `{y, x}` of `searchMatches`. -/
  searchMatches : List (Int × Int)
  currentMatch : Int
  /-- The pending closure `confirmAction func()`, named by a token; `none` is `nil`. -/
  confirmAction : Option Nat
  deriving DecidableEq, Repr

/-- The struct literal of `NewEditor`: one empty line, normal mode, empty stacks (fields
not listed there have Go's zero values; the screen height is a parameter). -/
def newEditor (R : Type) (height : Int) : Editor R :=
  { lines := [[]], cursorX := 0, cursorY := 0, mode := str "normal", filename := [],
    statusMessage := [], isDirty := false, tabSize := 4, searchTerm := [],
    undoStack := [], redoStack := [], commandBuffer := [], showLineNumbers := true,
    quit := false, treeVisible := true, newFileDir := [], screenHeight := height,
    scrollY := 0, syntaxHighlight := false, completions := [], completionIndex := 0,
    completionActive := false, isLargeFile := false, searchMatches := [],
    currentMatch := 0, confirmAction := none }

/-- The cursor invariant of the data model: the document has at least one line,
`0 ≤ cursorY < lineCount` and `0 ≤ cursorX ≤ len(lines[cursorY])`. -/
def Valid {R : Type} (e : Editor R) : Prop :=
  1 ≤ e.lines.length ∧ 0 ≤ e.cursorY ∧ e.cursorY < len e.lines ∧ 0 ≤ e.cursorX ∧
    e.cursorX ≤ len (e.lines.getD e.cursorY.toNat [])

instance {R : Type} (e : Editor R) : Decidable (Valid e) := by
  unfold Valid; infer_instance

/-- Method `SetStatusMessage` (the timeout is not modelled). -/
def SetStatusMessage {R : Type} (e : Editor R) (msg : GoString) : Editor R :=
  { e with statusMessage := msg }

/-! ## Structured-record revision (`5315dbe/2P2Z.go`) -/

namespace Structured

/-- Modelled from the spec: the constants `ActionDelete` and `ActionJoinLines` are used
by the source but declared in a file that is not among the sources; they are the
`DeleteChar` and `JoinLines` variants of the spec's EditRecord. -/
inductive ActionType where
  | ActionDelete
  | ActionJoinLines
  deriving DecidableEq, Repr

/-- Modelled from the spec: the declaration of the struct `Action` is not among the
sources; its fields are the ones the composite literals of `deleteChar` and `joinLines`
name (the Go field `Type` is `type` here). -/
structure Action where
  type : ActionType
  lineNum : Int
  oldLine : GoString
  newLine : GoString
  cursorX : Int
  cursorY : Int
  text : GoString
  deriving DecidableEq, Repr

/-- Method `deleteChar` of `2P2Z.go`. -/
def deleteChar (e : Editor Action) : Option (Editor Action) :=
  if e.cursorY ≥ len e.lines then some e
  else if e.cursorX ≤ 0 then some e
  else do
    let guardLine ← index e.lines e.cursorY
    if e.cursorX > len guardLine then some e
    else do
      let line ← index e.lines e.cursorY
      let left ← sliceTo line (e.cursorX - 1)
      let right ← sliceFrom line e.cursorX
      let lines ← setIndex e.lines e.cursorY (left ++ right)
      let cursorX := e.cursorX - 1
      let newLine ← index lines e.cursorY
      let deleted ← index line cursorX
      some { e with
        lines := lines, cursorX := cursorX, isDirty := true,
        undoStack := e.undoStack ++
          [{ type := ActionType.ActionDelete, lineNum := e.cursorY, oldLine := line,
             newLine := newLine, cursorX := cursorX, cursorY := e.cursorY,
             text := stringOfByte deleted }],
        redoStack := [] }

/-- Method `joinLines` of `2P2Z.go`. -/
def joinLines (e : Editor Action) : Option (Editor Action) :=
  if e.cursorY > 0 then do
    let currentLine ← index e.lines e.cursorY
    let prevLine ← index e.lines (e.cursorY - 1)
    let cursorX := len prevLine
    let lines1 ← setIndex e.lines (e.cursorY - 1) (prevLine ++ currentLine)
    let front ← sliceTo lines1 e.cursorY
    let back ← sliceFrom lines1 (e.cursorY + 1)
    let cursorY := e.cursorY - 1
    some { e with
      lines := front ++ back, cursorX := cursorX, cursorY := cursorY, isDirty := true,
      undoStack := e.undoStack ++
        [{ type := ActionType.ActionJoinLines, lineNum := cursorY, oldLine := currentLine,
           newLine := prevLine ++ currentLine, cursorX := cursorX, cursorY := cursorY,
           text := str "\n" }],
      redoStack := [] }
  else some e

/-- Method `insertRune` of `2P2Z.go`: the body ends after the length guard (what follows
it in the source is a comment). -/
def insertRune (e : Editor Action) (_ch : Int) : Option (Editor Action) := do
  let line ← index e.lines e.cursorY
  if len line ≥ maxLineLength then
    some (SetStatusMessage e (str "Warning: Line length limit reached"))
  else some e

end Structured

/-! ## Snapshot revision (`5315dbe/3IWz.go`) -/

namespace Snapshot

/-- Struct `Change`: a snapshot of the line list and of the cursor. -/
structure Change where
  lines : List GoString
  cursorX : Int
  cursorY : Int
  action : GoString
  deriving DecidableEq, Repr

/-- Method `deleteChar` of `3IWz.go`. -/
def deleteChar (e : Editor Change) : Option (Editor Change) :=
  if e.cursorY ≥ len e.lines then some e
  else if e.cursorX ≤ 0 then some e
  else do
    let guardLine ← index e.lines e.cursorY
    if e.cursorX > len guardLine then some e
    else do
      let line ← index e.lines e.cursorY
      let left ← sliceTo line (e.cursorX - 1)
      let right ← sliceFrom line e.cursorX
      let lines ← setIndex e.lines e.cursorY (left ++ right)
      let cursorX := e.cursorX - 1
      some { e with
        lines := lines, cursorX := cursorX, isDirty := true,
        undoStack := e.undoStack ++
          [{ lines := lines, cursorX := cursorX, cursorY := e.cursorY,
             action := str "delete" }],
        redoStack := [] }

/-- Method `joinLines` of `3IWz.go`. -/
def joinLines (e : Editor Change) : Option (Editor Change) :=
  if e.cursorY > 0 then do
    let currentLine ← index e.lines e.cursorY
    let prevLine ← index e.lines (e.cursorY - 1)
    let cursorX := len prevLine
    let lines1 ← setIndex e.lines (e.cursorY - 1) (prevLine ++ currentLine)
    let front ← sliceTo lines1 e.cursorY
    let back ← sliceFrom lines1 (e.cursorY + 1)
    let lines2 := front ++ back
    let cursorY := e.cursorY - 1
    some { e with
      lines := lines2, cursorX := cursorX, cursorY := cursorY, isDirty := true,
      undoStack := e.undoStack ++
        [{ lines := lines2, cursorX := cursorX, cursorY := cursorY, action := str "join" }],
      redoStack := [] }
  else some e

/-- Method `insertRune` of `3IWz.go`: the body ends after the length guard (what follows
it in the source is a comment). -/
def insertRune (e : Editor Change) (_ch : Int) : Option (Editor Change) := do
  let line ← index e.lines e.cursorY
  if len line ≥ maxLineLength then
    some (SetStatusMessage e (str "Warning: Line length limit reached"))
  else some e

/-- Method `addUndo` of `3IWz.go`. -/
def addUndo (e : Editor Change) (change : Change) : Editor Change :=
  { e with undoStack := e.undoStack ++ [change], redoStack := [] }

/-- Method `undo` of `3IWz.go`. -/
def undo (e : Editor Change) : Option (Editor Change) :=
  if len e.undoStack = 0 then some e
  else do
    let currentState : Change :=
      { lines := [] ++ e.lines, cursorX := e.cursorX, cursorY := e.cursorY,
        action := str "redo" }
    let redoStack := e.redoStack ++ [currentState]
    let change ← index e.undoStack (len e.undoStack - 1)
    let undoStack ← sliceTo e.undoStack (len e.undoStack - 1)
    some { e with
      redoStack := redoStack, undoStack := undoStack, lines := [] ++ change.lines,
      cursorX := change.cursorX, cursorY := change.cursorY }

/-- A state with `maxUndoStack` recorded snapshots: the document `["ab"]`, the cursor at
column 1, and 1000 entries on the undo stack. -/
def fullHistory : Editor Change :=
  { newEditor Change 24 with
    lines := [str "ab"], cursorX := 1,
    undoStack := List.replicate 1000
      { lines := [str "ab"], cursorX := 1, cursorY := 0, action := str "delete" } }

/-- The method `undo` applied `n` times in a row. -/
def undoTimes : Nat → Editor Change → Option (Editor Change)
  | 0, e => some e
  | n + 1, e => (undo e).bind (undoTimes n)

/-- What the operating system and the scanner answer while a file is loaded: whether
`os.Stat` and `os.Open` fail, the size `os.Stat` reports, the lines `scanner.Scan`
yields in order before it returns false, and whether `scanner.Err` is then non-nil. -/
structure FileAnswer where
  statErr : Bool
  size : Int
  openErr : Bool
  scanned : List GoString
  scanErr : Bool
  deriving DecidableEq, Repr

/-- The loop `for scanner.Scan() { e.lines = append(e.lines, scanner.Text()) }`. -/
def scanAll (acc : List GoString) : List GoString → List GoString
  | [] => acc
  | t :: rest => scanAll (acc ++ [t]) rest

/-- The loop of `loadLargeFile`, which leaves once `len(e.lines) > 1000` after an
append. -/
def scanLarge (acc : List GoString) : List GoString → List GoString
  | [] => acc
  | t :: rest => if len (acc ++ [t]) > 1000 then acc ++ [t] else scanLarge (acc ++ [t]) rest

/-- Method `loadLargeFile` of `3IWz.go`; the second component tells whether the error
returned is non-nil.  A line beyond the scanner buffer ends the scan, which is part of
the answer `f.scanned`. -/
def loadLargeFile (e : Editor Change) (f : FileAnswer) : Editor Change × Bool :=
  if f.openErr then (e, true)
  else
    (SetStatusMessage { e with lines := scanLarge [] f.scanned }
      (str "Large file: Only first 1000 lines loaded"), false)

/-- Method `LoadFile` of `3IWz.go`; the second component tells whether the error
returned is non-nil. -/
def LoadFile (e : Editor Change) (f : FileAnswer) : Editor Change × Bool :=
  if f.statErr then (e, true)
  else if f.size > maxFileSize then loadLargeFile { e with isLargeFile := true } f
  else if f.openErr then (e, true)
  else
    let e1 := { e with lines := scanAll [] f.scanned }
    if f.scanErr then (e1, true)
    else ({ e1 with isDirty := false, cursorX := 0, cursorY := 0 }, false)

end Snapshot

/-! ## Command handler (`652bc183/y2WU.go`) and completion (`-60f29191/6k4e.go`)

In this revision `addUndo` is called with a line (a `string`), so the entries of the
history stacks are lines. -/

/-- Modelled from the spec: the method `setStatusMessage` is called by the command
handler but defined in a file that is not among the sources; it reports a transient
status message, as `SetStatusMessage` does. -/
def setStatusMessage {R : Type} (e : Editor R) (msg : GoString) : Editor R :=
  { e with statusMessage := msg }

/-- Modelled from the spec: the method `addUndo` taking a line is called by
`applyCompletion` and by the `replace` command but defined in a file that is not among
the sources; following `record(editRecord)` it pushes onto the undo stack, clears the
redo stack, and evicts the oldest entry if the stack exceeds its cap (`maxUndoStack`,
1000 entries). -/
def addUndo (e : Editor GoString) (line : GoString) : Editor GoString :=
  let stack := e.undoStack ++ [line]
  { e with
    undoStack := if len stack > maxUndoStack then stack.drop 1 else stack,
    redoStack := [] }

/-- Case `"line"` of `handleCommand` when an argument is present (`len(parts) > 1`).
The argument `scan` is the outcome of `fmt.Sscan(parts[1], &lineNum)`: `none` when it
returns an error, `some n` when it stores `n` in `lineNum`. -/
def handleCommandLine {R : Type} (e : Editor R) (scan : Option Int) : Option (Editor R) :=
  match scan with
  | none => some (setStatusMessage e (str "Invalid line number"))
  | some lineNum =>
    if lineNum > 0 ∧ lineNum ≤ len e.lines then do
      let e1 := { e with cursorY := lineNum - 1 }
      let target ← index e1.lines e1.cursorY
      let e2 := if e1.cursorX > len target then { e1 with cursorX := len target } else e1
      let e3 :=
        if e2.cursorY < e2.scrollY then { e2 with scrollY := e2.cursorY }
        else if e2.cursorY ≥ e2.scrollY + e2.screenHeight - 2 then
          { e2 with scrollY := e2.cursorY - (e2.screenHeight - 3) }
        else e2
      some (setStatusMessage e3 (str "Moved to line " ++ str (toString lineNum)))
    else some (setStatusMessage e (str "Line number out of range"))

/-- Function `isWordChar`, applied to `rune(b)` for a byte `b`. -/
def isWordChar (r : Byte) : Bool :=
  (97 ≤ r.val && r.val ≤ 122) || (65 ≤ r.val && r.val ≤ 90) || (48 ≤ r.val && r.val ≤ 57)
    || r.val == 95

/-- The loop `for wordStart > 0 && isWordChar(rune(line[wordStart-1])) { wordStart-- }`
entered with `wordStart = w`, for `w` a natural number. -/
def wordStartLoop (line : GoString) : Nat → Option Int
  | 0 => some 0
  | w + 1 =>
    match index line (w : Int) with
    | none => none
    | some b => if isWordChar b then wordStartLoop line w else some ((w : Int) + 1)

/-- The same loop entered with an `int`: it is left at once when `wordStart ≤ 0`. -/
def findWordStart (line : GoString) (wordStart : Int) : Option Int :=
  if wordStart > 0 then wordStartLoop line wordStart.toNat else some wordStart

/-- Method `applyCompletion` of `6k4e.go`. -/
def applyCompletion (e : Editor GoString) : Option (Editor GoString) :=
  if !e.completionActive || len e.completions = 0 then some e
  else do
    let completion ← index e.completions e.completionIndex
    let line ← index e.lines e.cursorY
    let wordStart ← findWordStart line e.cursorX
    let left ← sliceTo line wordStart
    let right ← sliceFrom line e.cursorX
    let newLine := left ++ completion.Text ++ right
    let undoLine ← index e.lines e.cursorY
    let e1 := addUndo e undoLine
    let lines ← setIndex e1.lines e1.cursorY newLine
    some { e1 with
      lines := lines, cursorX := wordStart + len completion.Text, isDirty := true,
      completionActive := false }

/-! ## Library functions: `strings`, `unicode/utf8`, `path/filepath` -/

/-- `strings.SplitN(s, " ", 2)`: `[s]` when `s` holds no space, else the text before the
first space and the text after it. -/
def splitN2 (s : GoString) : List GoString :=
  if (32 : Byte) ∈ s then
    [s.takeWhile (fun b => b != 32), (s.dropWhile (fun b => b != 32)).tail]
  else [s]

/-- `strings.HasPrefix(s, pre)`. -/
def hasPrefix (s pre : GoString) : Bool := pre.isPrefixOf s

/-- `strings.Index(s, sub)`: the least index at which `sub` starts in `s`; `none` stands
for `-1`. -/
def stringsIndex (sub : GoString) : GoString → Option Nat
  | [] => if sub.isPrefixOf [] then some 0 else none
  | b :: t => if sub.isPrefixOf (b :: t) then some 0 else (stringsIndex sub t).map (· + 1)

/-- `strings.Contains(s, sub)`. -/
def stringsContains (s sub : GoString) : Bool := (stringsIndex sub s).isSome

/-- The size, and the bounds of the second byte, of the UTF-8 sequence a first byte
announces (table `first` of `unicode/utf8`); size 1 for ASCII and for an invalid first
byte. -/
def runeShape (b0 : Nat) : Nat × Nat × Nat :=
  if b0 < 0xC2 then (1, 0, 0)
  else if b0 ≤ 0xDF then (2, 0x80, 0xBF)
  else if b0 = 0xE0 then (3, 0xA0, 0xBF)
  else if b0 = 0xED then (3, 0x80, 0x9F)
  else if b0 ≤ 0xEF then (3, 0x80, 0xBF)
  else if b0 = 0xF0 then (4, 0x90, 0xBF)
  else if b0 ≤ 0xF3 then (4, 0x80, 0xBF)
  else if b0 = 0xF4 then (4, 0x80, 0x8F)
  else (1, 0, 0)

/-- A continuation byte `0x80..0xBF`. -/
def isCont (b : Byte) : Bool := 0x80 ≤ b.val && b.val ≤ 0xBF

/-- The width `utf8.DecodeRuneInString(s)` returns: 0 for the empty string, 1 for ASCII
and for an invalid or truncated sequence, else the length of the sequence. -/
def runeWidth : GoString → Nat
  | [] => 0
  | b0 :: rest =>
    match runeShape b0.val with
    | (sz, lo, hi) =>
      if sz = 1 then 1
      else if rest.length + 1 < sz then 1
      else
        match rest with
        | [] => 1
        | s1 :: r2 =>
          if s1.val < lo || hi < s1.val then 1
          else if sz ≤ 2 then 2
          else
            match r2 with
            | [] => 1
            | s2 :: r3 =>
              if !isCont s2 then 1
              else if sz ≤ 3 then 3
              else
                match r3 with
                | [] => 1
                | s3 :: _ => if !isCont s3 then 1 else 4

/-- `utf8.RuneCountInString(s)`, by repeated decoding; `fuel` bounds the number of
steps and `len(s)` steps are enough, each taking at least one byte. -/
def runeCountLoop : Nat → GoString → Nat
  | 0, _ => 0
  | fuel + 1, s => if s = [] then 0 else 1 + runeCountLoop fuel (s.drop (runeWidth s))

/-- The loop of `strings.Count(s, sub)` for a non-empty `sub`: find the next occurrence,
count it, go on behind it.  `fuel` bounds the number of steps. -/
def countLoop (sub : GoString) : Nat → GoString → Nat
  | 0, _ => 0
  | fuel + 1, s =>
    match stringsIndex sub s with
    | none => 0
    | some i => 1 + countLoop sub fuel (s.drop (i + sub.length))

/-- `strings.Count(s, sub)`: the number of non-overlapping instances of `sub` in `s`, and
one more than the number of runes of `s` when `sub` is empty. -/
def stringsCount (s sub : GoString) : Nat :=
  if sub = [] then runeCountLoop s.length s + 1 else countLoop sub (s.length + 1) s

/-- Replacement of the non-overlapping instances of a non-empty `old`, left to right.
`fuel` bounds the number of steps. -/
def replaceLoop (old new : GoString) : Nat → GoString → GoString
  | 0, s => s
  | fuel + 1, s =>
    match stringsIndex old s with
    | none => s
    | some j => s.take j ++ new ++ replaceLoop old new fuel (s.drop (j + old.length))

/-- The text `new` put after each rune of `s` (replacement of the empty string behind
the first position). -/
def afterEachRune (new : GoString) : Nat → GoString → GoString
  | 0, s => s
  | fuel + 1, s =>
    if s = [] then []
    else s.take (runeWidth s) ++ new ++ afterEachRune new fuel (s.drop (runeWidth s))

/-- `strings.ReplaceAll(s, old, new)`: every non-overlapping instance of `old` replaced
by `new`; an empty `old` matches at the beginning and after each rune. -/
def stringsReplaceAll (s old new : GoString) : GoString :=
  if old = [] then new ++ afterEachRune new s.length s
  else replaceLoop old new (s.length + 1) s

/-- The loop of `filepath.Ext`, run over the reversed path: it walks back from the end,
stops at a separator `/` and returns the suffix from the last dot on. -/
def extLoop : GoString → GoString → GoString
  | [], _ => []
  | b :: rest, acc =>
    if b = 47 then [] else if b = 46 then b :: acc else extLoop rest (b :: acc)

/-- `filepath.Ext(path)` (with `/` as the separator). -/
def filepathExt (path : GoString) : GoString := extLoop path.reverse []

/-- Conversion `string(r)` of a rune: its UTF-8 encoding, `"�"` for an invalid code
point. -/
def stringOfRune (r : Int) : GoString :=
  if r < 0 ∨ r > 0x10FFFF ∨ (0xD800 ≤ r ∧ r ≤ 0xDFFF) then [0xEF, 0xBF, 0xBD]
  else
    let n := r.toNat
    if n < 0x80 then [Fin.ofNat n]
    else if n < 0x800 then [Fin.ofNat (0xC0 + n / 64), Fin.ofNat (0x80 + n % 64)]
    else if n < 0x10000 then
      [Fin.ofNat (0xE0 + n / 4096), Fin.ofNat (0x80 + n / 64 % 64), Fin.ofNat (0x80 + n % 64)]
    else
      [Fin.ofNat (0xF0 + n / 262144), Fin.ofNat (0x80 + n / 4096 % 64),
        Fin.ofNat (0x80 + n / 64 % 64), Fin.ofNat (0x80 + n % 64)]

/-- Verb `%d` of `fmt.Sprintf` for an `int`. -/
def fmtInt (n : Int) : GoString := str (toString n)

/-! ## Key events -/

/-- The values of `ev.Key()` the handlers distinguish; `KeyOther` is any other key. -/
inductive KeyCode where
  | KeyEscape
  | KeyEnter
  | KeyTab
  | KeyBackspace
  | KeyBackspace2
  | KeyRune
  | KeyOther
  deriving DecidableEq, Repr

/-- The event `*tcell.EventKey`: its key and its rune. -/
structure EventKey where
  key : KeyCode
  rune : Int
  deriving DecidableEq, Repr

/-! ## The command handler (`652bc183/y2WU.go` and `652bc183/FsE4.go`) -/

/-- What the command handler obtains from outside its file: the standard library, the
operating system, and the methods of `Editor` that are defined in files that are not
among the sources. -/
structure Env (R : Type) where
  /-- The call `fmt.Sscan(text, &n)` for an `int` `n`: the value stored, `none` for an
  error. -/
  sscan : GoString → Option Int
  /-- The calls `os.Create(name)`, the buffered writes of the lines and `Flush`: the text
  of the first error, `none` when all succeed. -/
  writeFile : GoString → List GoString → Option GoString
  /-- The call `e.getSelectedNode()`: `none` for `nil`, else `node.name` and
  `node.isDir`. -/
  getSelectedNode : Editor R → Option (GoString × Bool)
  /-- The call `os.Remove(name)`: the text of the error, `none` when it succeeds. -/
  remove : GoString → Option GoString
  /-- The method `refreshFileTree`. -/
  refreshFileTree : Editor R → Option (Editor R)
  /-- The call `os.Stat(name)`: the size and the formatted modification time, `none` for
  an error. -/
  stat : GoString → Option (Int × GoString)
  /-- The value `len(strings.Fields(line))`. -/
  fieldsCount : GoString → Int
  /-- The method `LoadFile` of this revision: the new state and the text of the error. -/
  LoadFile : GoString → Editor R → Option (Editor R × Option GoString)
  /-- The method `findMatches`. -/
  findMatches : Editor R → Option (Editor R)
  /-- The method `showHelp`. -/
  showHelp : Editor R → Option (Editor R)

/-- Method `SetFilename`. -/
def SetFilename {R : Type} (e : Editor R) (name : GoString) : Editor R :=
  { e with filename := name }

/-- Method `saveFile` of the command handler: the text of the error returned, `none`
for `nil`.  The editor state is not written. -/
def saveFile {R : Type} (env : Env R) (e : Editor R) : Option GoString :=
  if e.filename = [] then some (str "no filename specified")
  else env.writeFile e.filename e.lines

/-- Method `saveFileAs`. -/
def saveFileAs {R : Type} (env : Env R) (e : Editor R) (filename : GoString) :
    Option GoString :=
  env.writeFile filename e.lines

/-- Case `"saveas"`. -/
def caseSaveas {R : Type} (env : Env R) (e : Editor R) (parts : List GoString) :
    Option (Editor R) :=
  if len parts > 1 then do
    let newFilename ← index parts 1
    match saveFileAs env e newFilename with
    | some err => some (setStatusMessage e (str "Error saving as: " ++ err))
    | none =>
      let e1 := SetFilename e newFilename
      let e2 := setStatusMessage e1 (str "File saved as " ++ newFilename)
      some { e2 with isDirty := false }
  else some (setStatusMessage e (str "Usage: saveas <filename>"))

/-- Case `"line"`. -/
def caseLine {R : Type} (env : Env R) (e : Editor R) (parts : List GoString) :
    Option (Editor R) :=
  if len parts > 1 then do
    let arg ← index parts 1
    handleCommandLine e (env.sscan arg)
  else some (setStatusMessage e (str "Usage: line <number>"))

/-- Case `"w"`. -/
def caseW {R : Type} (env : Env R) (e : Editor R) : Option (Editor R) :=
  match saveFile env e with
  | some err => some (setStatusMessage e (str "Error saving: " ++ err))
  | none => some { setStatusMessage e (str "File saved") with isDirty := false }

/-- Case `"q"`. -/
def caseQ {R : Type} (e : Editor R) : Option (Editor R) :=
  if e.isDirty then some (setStatusMessage e (str "Unsaved changes! Use :q! to force quit"))
  else some { e with quit := true }

/-- Case `"q!"`. -/
def caseQBang {R : Type} (e : Editor R) : Option (Editor R) :=
  some { e with quit := true }

/-- Case `"wq"`. -/
def caseWq {R : Type} (env : Env R) (e : Editor R) : Option (Editor R) :=
  match saveFile env e with
  | none => some { e with quit := true }
  | some err => some (setStatusMessage e (str "Error saving: " ++ err))

/-- Case `"set number"`. -/
def caseSetNumber {R : Type} (e : Editor R) : Option (Editor R) :=
  some (setStatusMessage { e with showLineNumbers := true } (str "Line numbers enabled"))

/-- Case `"set nonumber"`. -/
def caseSetNonumber {R : Type} (e : Editor R) : Option (Editor R) :=
  some (setStatusMessage { e with showLineNumbers := false } (str "Line numbers disabled"))

/-- Case `"rm"`. -/
def caseRm {R : Type} (env : Env R) (e : Editor R) (parts : List GoString) :
    Option (Editor R) :=
  if len parts > 1 then do
    let arg ← index parts 1
    if arg = str "y" then
      match env.getSelectedNode e with
      | some (name, false) =>
        match env.remove name with
        | some err => some (setStatusMessage e (str "Error deleting file: " ++ err))
        | none => env.refreshFileTree (setStatusMessage e (str "Deleted " ++ name))
      | _ => some e
    else if arg = str "n" then some (setStatusMessage e (str "Delete cancelled"))
    else some (setStatusMessage e (str "Invalid confirmation. Use 'rm y' or 'rm n'."))
  else some (setStatusMessage e (str "Confirm delete? (rm y/n)"))

/-- Case `"info"`. -/
def caseInfo {R : Type} (env : Env R) (e : Editor R) : Option (Editor R) :=
  if e.filename ≠ [] then
    match env.stat e.filename with
    | some (size, modTime) =>
      some (setStatusMessage e (str "File: " ++ e.filename ++ str " | Size: " ++ fmtInt size ++
        str " bytes | Modified: " ++ modTime))
    | none => some (setStatusMessage e (str "Could not retrieve file information"))
  else some (setStatusMessage e (str "No file currently open"))

/-- The loop of case `"wc"`: the words and the characters of the lines seen so far. -/
def wcLoop {R : Type} (env : Env R) : List GoString → Int × Int → Int × Int
  | [], acc => acc
  | l :: rest, (wordCount, charCount) =>
    wcLoop env rest (wordCount + env.fieldsCount l, charCount + len l)

/-- Case `"wc"`. -/
def caseWc {R : Type} (env : Env R) (e : Editor R) : Option (Editor R) :=
  match wcLoop env e.lines (0, 0) with
  | (wordCount, charCount) =>
    some (setStatusMessage e (str "Lines: " ++ fmtInt (len e.lines) ++ str " | Words: " ++
      fmtInt wordCount ++ str " | Characters: " ++ fmtInt charCount))

/-- Case `"reload"`. -/
def caseReload {R : Type} (env : Env R) (e : Editor R) : Option (Editor R) :=
  if e.filename ≠ [] then do
    let (e1, err) ← env.LoadFile e.filename e
    match err with
    | some msg => some (setStatusMessage e1 (str "Error reloading file: " ++ msg))
    | none => some { setStatusMessage e1 (str "Reloaded: " ++ e1.filename) with isDirty := false }
  else some (setStatusMessage e (str "No file to reload"))

/-- Case `"set"`.  In `tabSize, err := fmt.Sscan(settingParts[1], &tabSize)` the operand
`&tabSize` is a variable from outside the function, the declared `tabSize` not being in
scope on its own right-hand side; the declared `tabSize` is the number of items
`fmt.Sscan` has scanned: 1 when it succeeds, 0 with an error. -/
def caseSet {R : Type} (env : Env R) (e : Editor R) (parts : List GoString) :
    Option (Editor R) :=
  if len parts > 1 then do
    let arg ← index parts 1
    let settingParts := splitN2 arg
    let settingName ← index settingParts 0
    if settingName = str "tabsize" then
      if len settingParts > 1 then do
        let text ← index settingParts 1
        let (tabSize, err) : Int × Bool :=
          match env.sscan text with
          | some _ => (1, false)
          | none => (0, true)
        if !err ∧ tabSize > 0 then
          some (setStatusMessage { e with tabSize := tabSize }
            (str "Tab size set to " ++ fmtInt tabSize))
        else some (setStatusMessage e (str "Invalid tab size"))
      else some (setStatusMessage e (str "Usage: set tabsize <number>"))
    else if settingName = str "syntax" then
      if len settingParts > 1 then do
        let value ← index settingParts 1
        if value = str "on" then
          some (setStatusMessage { e with syntaxHighlight := true }
            (str "Syntax highlighting enabled"))
        else if value = str "off" then
          some (setStatusMessage { e with syntaxHighlight := false }
            (str "Syntax highlighting disabled"))
        else some (setStatusMessage e (str "Usage: set syntax on|off"))
      else some (setStatusMessage e (str "Usage: set syntax on|off"))
    else some e
  else some e

/-- Case `"find"`. -/
def caseFind {R : Type} (env : Env R) (e : Editor R) (parts : List GoString) :
    Option (Editor R) :=
  if len parts > 1 then do
    let term ← index parts 1
    let e1 ← env.findMatches { e with searchTerm := term }
    if len e1.searchMatches > 0 then
      some (setStatusMessage e1 (str "Found " ++ fmtInt (len e1.searchMatches) ++ str " matches"))
    else some (setStatusMessage e1 (str "No matches found"))
  else some (setStatusMessage e (str "Usage: find <search term>"))

/-- The loop `for i, line := range e.lines` of case `"replace"`, entered at index `i`
with the lines still to visit, the state and the count so far. -/
def replaceLinesLoop (oldText newText : GoString) :
    List GoString → Int → Editor GoString × Int → Option (Editor GoString × Int)
  | [], _, st => some st
  | l :: rest, i, (e, count) =>
    if stringsContains l oldText then do
      let e1 := addUndo e l
      let lines ← setIndex e1.lines i (stringsReplaceAll l oldText newText)
      replaceLinesLoop oldText newText rest (i + 1)
        ({ e1 with lines := lines, isDirty := true }, count + stringsCount l oldText)
    else replaceLinesLoop oldText newText rest (i + 1) (e, count)

/-- Case `"replace"`. -/
def caseReplace (e : Editor GoString) (parts : List GoString) : Option (Editor GoString) :=
  if len parts > 1 then do
    let arg ← index parts 1
    let replaceParts := splitN2 arg
    if len replaceParts = 2 then do
      let oldText ← index replaceParts 0
      let newText ← index replaceParts 1
      let (e1, count) ← replaceLinesLoop oldText newText e.lines 0 (e, 0)
      if count > 0 then
        some (setStatusMessage e1 (str "Replaced " ++ fmtInt count ++ str " occurrences"))
      else some (setStatusMessage e1 (str "No matches found"))
    else some (setStatusMessage e (str "Usage: replace <old> <new>"))
  else some (setStatusMessage e (str "Usage: replace <old> <new>"))

/-- Method `handleCommand` of `y2WU.go`. -/
def handleCommand (env : Env GoString) (e : Editor GoString) : Option (Editor GoString) := do
  let parts := splitN2 e.commandBuffer
  let command ← index parts 0
  if command = str "saveas" then caseSaveas env e parts
  else if command = str "line" then caseLine env e parts
  else if command = str "w" then caseW env e
  else if command = str "q" then caseQ e
  else if command = str "q!" then caseQBang e
  else if command = str "wq" then caseWq env e
  else if command = str "set number" then caseSetNumber e
  else if command = str "set nonumber" then caseSetNonumber e
  else if command = str "rm" then caseRm env e parts
  else if command = str "info" then caseInfo env e
  else if command = str "wc" then caseWc env e
  else if command = str "reload" then caseReload env e
  else if command = str "set" then caseSet env e parts
  else if command = str "find" then caseFind env e parts
  else if command = str "replace" then caseReplace e parts
  else if command = str "help" then env.showHelp e
  else some (setStatusMessage e (str "Unknown command: " ++ e.commandBuffer))

/-- Method `handleCommandMode` of `y2WU.go`. -/
def handleCommandMode (env : Env GoString) (e : Editor GoString) (ev : EventKey) :
    Option (Editor GoString) :=
  match ev.key with
  | KeyCode.KeyEnter => do
    let e1 ← handleCommand env e
    some { e1 with mode := str "normal", commandBuffer := [] }
  | KeyCode.KeyBackspace | KeyCode.KeyBackspace2 =>
    if len e.commandBuffer > 0 then do
      let buf ← sliceTo e.commandBuffer (len e.commandBuffer - 1)
      some (setStatusMessage { e with commandBuffer := buf } (str ":" ++ buf))
    else some e
  | KeyCode.KeyRune =>
    let buf := e.commandBuffer ++ stringOfRune ev.rune
    some (setStatusMessage { e with commandBuffer := buf } (str ":" ++ buf))
  | _ => some e

namespace Short

/-- Method `handleCommand` of `FsE4.go`, the revision of the command handler without the
cases `info`, `wc`, `reload`, `set`, `find`, `replace` and `help`. -/
def handleCommand {R : Type} (env : Env R) (e : Editor R) : Option (Editor R) := do
  let parts := splitN2 e.commandBuffer
  let command ← index parts 0
  if command = str "saveas" then caseSaveas env e parts
  else if command = str "line" then caseLine env e parts
  else if command = str "w" then caseW env e
  else if command = str "q" then caseQ e
  else if command = str "q!" then caseQBang e
  else if command = str "wq" then caseWq env e
  else if command = str "set number" then caseSetNumber e
  else if command = str "set nonumber" then caseSetNonumber e
  else if command = str "rm" then caseRm env e parts
  else some (setStatusMessage e (str "Unknown command: " ++ e.commandBuffer))

/-- Method `handleCommandMode` of `FsE4.go`. -/
def handleCommandMode {R : Type} (env : Env R) (e : Editor R) (ev : EventKey) :
    Option (Editor R) :=
  match ev.key with
  | KeyCode.KeyEnter => do
    let e1 ← handleCommand env e
    some { e1 with mode := str "normal", commandBuffer := [] }
  | KeyCode.KeyBackspace | KeyCode.KeyBackspace2 =>
    if len e.commandBuffer > 0 then do
      let buf ← sliceTo e.commandBuffer (len e.commandBuffer - 1)
      some (setStatusMessage { e with commandBuffer := buf } (str ":" ++ buf))
    else some e
  | KeyCode.KeyRune =>
    let buf := e.commandBuffer ++ stringOfRune ev.rune
    some (setStatusMessage { e with commandBuffer := buf } (str ":" ++ buf))
  | _ => some e

end Short

/-- An environment for the examples: `fmt.Sscan` reads a plain decimal numeral (digits
only), every call of the operating system succeeds, no node is selected, and the methods
from other files leave the state as it is. -/
def plainEnv (R : Type) : Env R :=
  { sscan := fun text =>
      if text ≠ [] ∧ text.all (fun b => 48 ≤ b.val && b.val ≤ 57) then
        some (text.foldl (fun acc b => acc * 10 + ((b.val : Int) - 48)) 0)
      else none,
    writeFile := fun _ _ => none,
    getSelectedNode := fun _ => none,
    remove := fun _ => none,
    refreshFileTree := fun e => some e,
    stat := fun _ => none,
    fieldsCount := fun _ => 0,
    LoadFile := fun _ e => some (e, none),
    findMatches := fun e => some e,
    showHelp := fun e => some e }

/-! ## Completion candidates (`-60f29191/6k4e.go`) -/

/-- The table `keywords` of `getLanguageCompletions`. -/
def keywords : List Completion :=
  [ ⟨str "func", str "Function declaration"⟩, ⟨str "return", str "Return statement"⟩,
    ⟨str "if", str "Conditional statement"⟩, ⟨str "else", str "Else clause"⟩,
    ⟨str "for", str "Loop statement"⟩, ⟨str "while", str "While loop"⟩,
    ⟨str "switch", str "Switch statement"⟩, ⟨str "case", str "Case clause"⟩,
    ⟨str "break", str "Break statement"⟩, ⟨str "continue", str "Continue statement"⟩,
    ⟨str "struct", str "Structure definition"⟩, ⟨str "interface", str "Interface definition"⟩,
    ⟨str "class", str "Class definition"⟩, ⟨str "import", str "Import statement"⟩,
    ⟨str "package", str "Package declaration"⟩, ⟨str "const", str "Constant declaration"⟩,
    ⟨str "var", str "Variable declaration"⟩, ⟨str "type", str "Type definition"⟩,
    ⟨str "map", str "Map data structure"⟩, ⟨str "slice", str "Slice data structure"⟩,
    ⟨str "array", str "Array data structure"⟩, ⟨str "string", str "String type"⟩,
    ⟨str "int", str "Integer type"⟩, ⟨str "float", str "Float type"⟩,
    ⟨str "bool", str "Boolean type"⟩, ⟨str "true", str "Boolean true"⟩,
    ⟨str "false", str "Boolean false"⟩, ⟨str "nil", str "Nil value"⟩ ]

/-- The table `goKeywords` of `getFileTypeCompletions`. -/
def goKeywords : List Completion :=
  [ ⟨str "defer", str "Defer execution"⟩, ⟨str "go", str "Start goroutine"⟩,
    ⟨str "chan", str "Channel type"⟩, ⟨str "select", str "Select statement"⟩,
    ⟨str "make", str "Allocate and initialize"⟩, ⟨str "new", str "Allocate memory"⟩,
    ⟨str "append", str "Append to slice"⟩, ⟨str "len", str "Length function"⟩,
    ⟨str "cap", str "Capacity function"⟩, ⟨str "panic", str "Panic function"⟩,
    ⟨str "recover", str "Recover function"⟩ ]

/-- The table `jsKeywords` of `getFileTypeCompletions`. -/
def jsKeywords : List Completion :=
  [ ⟨str "function", str "Function declaration"⟩, ⟨str "const", str "Constant declaration"⟩,
    ⟨str "let", str "Block-scoped variable"⟩, ⟨str "var", str "Variable declaration"⟩,
    ⟨str "console.log", str "Print to console"⟩, ⟨str "document", str "DOM document"⟩,
    ⟨str "window", str "Browser window"⟩, ⟨str "setTimeout", str "Set timeout"⟩,
    ⟨str "setInterval", str "Set interval"⟩, ⟨str "Promise", str "Promise object"⟩,
    ⟨str "async", str "Async function"⟩, ⟨str "await", str "Await expression"⟩ ]

/-- The loop `for _, k := range table { if strings.HasPrefix(k.Text, pre) { append } }`. -/
def filterByPrefix (table : List Completion) (pre : GoString) : List Completion :=
  table.filter (fun k => hasPrefix k.Text pre)

/-- Method `getLanguageCompletions`. -/
def getLanguageCompletions (pre : GoString) : List Completion :=
  filterByPrefix keywords pre

/-- Method `getFileTypeCompletions`. -/
def getFileTypeCompletions (pre ext : GoString) : List Completion :=
  if ext = str ".go" then filterByPrefix goKeywords pre
  else if ext = str ".js" ∨ ext = str ".ts" then filterByPrefix jsKeywords pre
  else []

/-- Method `getCompletions`; the empty list stands for `nil`. -/
def getCompletions {R : Type} (e : Editor R) : Option (List Completion) := do
  let line ← index e.lines e.cursorY
  let wordStart ← findWordStart line e.cursorX
  let typed ←
    if wordStart < e.cursorX ∧ wordStart < len line then slice line wordStart e.cursorX
    else some []
  if len typed < 2 then some []
  else
    let completions := getLanguageCompletions typed
    if e.filename ≠ [] then
      some (completions ++ getFileTypeCompletions typed (filepathExt e.filename))
    else some completions

/-- Method `showCompletions`. -/
def showCompletions {R : Type} (e : Editor R) : Option (Editor R) := do
  let completions ← getCompletions e
  if len completions = 0 then some e
  else some { e with completions := completions, completionIndex := 0, completionActive := true }

/-! ## Input dispatch (`6a1a9237/EjYC.go`) -/

/-- What the input handlers of `EjYC.go` call from outside the file: methods of `Editor`
defined in other files of that revision, the closure behind `confirmAction`, and the
operating system.  `getCompletions` and `showCompletions` are those of `6k4e.go`. -/
structure Ops (R : Type) where
  handleCommandMode : Editor R → EventKey → Option (Editor R)
  handleSearchMode : Editor R → EventKey → Option (Editor R)
  handleTreeNavigation : Editor R → EventKey → Option (Editor R)
  moveCursor : Editor R → Int → Int → Option (Editor R)
  undo : Editor R → Option (Editor R)
  redo : Editor R → Option (Editor R)
  nextMatch : Editor R → Option (Editor R)
  previousMatch : Editor R → Option (Editor R)
  showHelp : Editor R → Option (Editor R)
  insertNewLine : Editor R → Option (Editor R)
  deleteChar : Editor R → Option (Editor R)
  joinLines : Editor R → Option (Editor R)
  insertRune : Editor R → Int → Option (Editor R)
  refreshFileTree : Editor R → Option (Editor R)
  /-- The function `isIdentChar`, on a rune. -/
  isIdentChar : Int → Bool
  /-- Calling the closure that a token of `confirmAction` names. -/
  invoke : Nat → Editor R → Option (Editor R)
  /-- The call `os.Create(path)` (and `Close`): the text of the error. -/
  osCreate : GoString → Option GoString
  /-- The call `os.Rename(old, new)`: the text of the error. -/
  osRename : GoString → GoString → Option GoString
  /-- The function `filepath.Join` on two elements. -/
  filepathJoin : GoString → GoString → GoString
  /-- The function `filepath.Dir`. -/
  filepathDir : GoString → GoString

/-- The loop `for start > 0 && isIdentChar(rune(line[start-1])) { start-- }` entered with
`start = w`, for `w` a natural number. -/
def identStartLoop (p : Int → Bool) (line : GoString) : Nat → Option Int
  | 0 => some 0
  | w + 1 =>
    match index line (w : Int) with
    | none => none
    | some b => if p (b.val : Int) then identStartLoop p line w else some ((w : Int) + 1)

/-- The same loop entered with an `int`: it is left at once when `start ≤ 0`. -/
def findIdentStart (p : Int → Bool) (line : GoString) (start : Int) : Option Int :=
  if start > 0 then identStartLoop p line start.toNat else some start

/-- Case `tcell.KeyTab` of `handleInsertMode`. -/
def insertTab {R : Type} (ops : Ops R) (e : Editor R) : Option (Editor R) := do
  let completions ← getCompletions e
  if len completions > 0 then do
    let line ← index e.lines e.cursorY
    let start ← findIdentStart ops.isIdentChar line e.cursorX
    let typed ← slice line start e.cursorX
    let first ← index completions 0
    let completion ←
      if len typed > 0 ∧ hasPrefix first.Text typed then sliceFrom first.Text (len typed)
      else some first.Text
    let left ← sliceTo line e.cursorX
    let right ← sliceFrom line e.cursorX
    let lines ← setIndex e.lines e.cursorY (left ++ completion ++ right)
    let e1 := { e with lines := lines, cursorX := e.cursorX + len completion, isDirty := true }
    showCompletions (SetStatusMessage e1 (str "Completed: " ++ first.Text))
  else some e

/-- Method `handleInsertMode`. -/
def handleInsertMode {R : Type} (ops : Ops R) (e : Editor R) (ev : EventKey) :
    Option (Editor R) :=
  match ev.key with
  | KeyCode.KeyEscape =>
    some (SetStatusMessage { e with mode := str "normal" } (str "-- NORMAL MODE --"))
  | KeyCode.KeyTab => insertTab ops e
  | KeyCode.KeyEnter => do
    let e1 ← ops.insertNewLine e
    some (SetStatusMessage e1 (str "-- INSERT MODE --"))
  | KeyCode.KeyBackspace | KeyCode.KeyBackspace2 =>
    if e.cursorX > 0 then ops.deleteChar e
    else if e.cursorY > 0 then ops.joinLines e
    else some e
  | KeyCode.KeyRune => ops.insertRune e ev.rune
  | _ => some e

/-- The regular bindings of `handleNormalMode` (the second `switch`). -/
def normalBindings {R : Type} (ops : Ops R) (e : Editor R) (ev : EventKey) :
    Option (Editor R) :=
  if ev.key = KeyCode.KeyRune then
    if ev.rune = 105 then
      some (SetStatusMessage { e with mode := str "insert" }
        (str "-- INSERT MODE -- (Tab for completions, Esc to exit)"))
    else if ev.rune = 58 then
      some (SetStatusMessage { e with mode := str "command", commandBuffer := [] }
        (str "Enter command (:w = save, :q = quit, :wq = save and quit)"))
    else if ev.rune = 47 then
      some (SetStatusMessage { e with mode := str "search", searchTerm := [] }
        (str "Enter search term (Esc to cancel)"))
    else if ev.rune = 104 then ops.moveCursor e (-1) 0
    else if ev.rune = 108 then ops.moveCursor e 1 0
    else if ev.rune = 106 then ops.moveCursor e 0 1
    else if ev.rune = 107 then ops.moveCursor e 0 (-1)
    else if ev.rune = 117 then ops.undo e
    else if ev.rune = 114 then ops.redo e
    else if ev.rune = 110 then ops.nextMatch e
    else if ev.rune = 78 then ops.previousMatch e
    else if ev.rune = 116 then
      let e1 := { e with treeVisible := !e.treeVisible }
      if e1.treeVisible then
        some (SetStatusMessage e1
          (str "File tree: 'n' new file, 'D' delete, 'r' rename, Enter to open"))
      else some e1
    else if ev.rune = 63 then do
      let e1 ← ops.showHelp e
      some (SetStatusMessage e1 (str "Press any key to exit help"))
    else some e
  else some e

/-- Method `handleNormalMode`: with the file tree visible the runes `j k h l n d r` and
Enter go to `handleTreeNavigation` and `t` toggles the tree; every other key, and every
key with the tree hidden, goes to the regular bindings. -/
def handleNormalMode {R : Type} (ops : Ops R) (e : Editor R) (ev : EventKey) :
    Option (Editor R) :=
  if e.treeVisible then
    if ev.key = KeyCode.KeyRune then
      if ev.rune = 106 ∨ ev.rune = 107 ∨ ev.rune = 104 ∨ ev.rune = 108 ∨ ev.rune = 110 ∨
          ev.rune = 100 ∨ ev.rune = 114 then
        ops.handleTreeNavigation e ev
      else if ev.rune = 116 then some { e with treeVisible := !e.treeVisible }
      else normalBindings ops e ev
    else if ev.key = KeyCode.KeyEnter then ops.handleTreeNavigation e ev
    else normalBindings ops e ev
  else normalBindings ops e ev

/-- Method `handleFilenameMode`. -/
def handleFilenameMode {R : Type} (ops : Ops R) (e : Editor R) (ev : EventKey) :
    Option (Editor R) :=
  match ev.key with
  | KeyCode.KeyEnter => do
    let e1 ←
      if e.commandBuffer ≠ [] then
        let newPath := ops.filepathJoin e.newFileDir e.commandBuffer
        match ops.osCreate newPath with
        | some err => some (SetStatusMessage e (str "Error creating file: " ++ err))
        | none => do
          let e2 := SetFilename e newPath
          let e3 ← ops.refreshFileTree
            { e2 with lines := [[]], cursorX := 0, cursorY := 0, isDirty := false,
                      mode := str "normal", treeVisible := false }
          some (SetStatusMessage e3 (str "Created new file: " ++ newPath))
      else some e
    some { e1 with mode := str "normal", commandBuffer := [], newFileDir := [] }
  | KeyCode.KeyBackspace | KeyCode.KeyBackspace2 =>
    if len e.commandBuffer > 0 then do
      let buf ← sliceTo e.commandBuffer (len e.commandBuffer - 1)
      some (SetStatusMessage { e with commandBuffer := buf } (str "New file name: " ++ buf))
    else some e
  | KeyCode.KeyRune =>
    let buf := e.commandBuffer ++ stringOfRune ev.rune
    some (SetStatusMessage { e with commandBuffer := buf } (str "New file name: " ++ buf))
  | _ => some e

/-- Method `handleRenameMode`. -/
def handleRenameMode {R : Type} (ops : Ops R) (e : Editor R) (ev : EventKey) :
    Option (Editor R) :=
  match ev.key with
  | KeyCode.KeyEnter => do
    let e1 ←
      if e.commandBuffer ≠ [] then
        let oldPath := e.newFileDir
        let newPath := ops.filepathJoin (ops.filepathDir oldPath) e.commandBuffer
        match ops.osRename oldPath newPath with
        | some err => some (SetStatusMessage e (str "Error renaming file: " ++ err))
        | none => ops.refreshFileTree (SetStatusMessage e (str "Renamed to " ++ newPath))
      else some e
    some { e1 with mode := str "normal", commandBuffer := [], newFileDir := [] }
  | KeyCode.KeyBackspace | KeyCode.KeyBackspace2 =>
    if len e.commandBuffer > 0 then do
      let buf ← sliceTo e.commandBuffer (len e.commandBuffer - 1)
      some (SetStatusMessage { e with commandBuffer := buf } (str "New name: " ++ buf))
    else some e
  | KeyCode.KeyRune =>
    let buf := e.commandBuffer ++ stringOfRune ev.rune
    some (SetStatusMessage { e with commandBuffer := buf } (str "New name: " ++ buf))
  | _ => some e

/-- Method `handleConfirmMode`. -/
def handleConfirmMode {R : Type} (ops : Ops R) (e : Editor R) (ev : EventKey) :
    Option (Editor R) :=
  if ev.key = KeyCode.KeyRune then
    if ev.rune = 121 ∨ ev.rune = 89 then do
      let e1 ←
        match e.confirmAction with
        | some action => ops.invoke action e
        | none => some e
      some { e1 with mode := str "normal" }
    else if ev.rune = 110 ∨ ev.rune = 78 then
      some { SetStatusMessage e (str "Operation cancelled") with mode := str "normal" }
    else some e
  else some e

/-- Method `handleInput`. -/
def handleInput {R : Type} (ops : Ops R) (e : Editor R) (ev : EventKey) :
    Option (Editor R) :=
  if ev.key = KeyCode.KeyEscape then
    if e.mode = str "command" ∨ e.mode = str "search" ∨ e.mode = str "filename" ∨
        e.mode = str "rename" ∨ e.mode = str "confirm" then
      some (SetStatusMessage
        { e with mode := str "normal", commandBuffer := [], searchTerm := [],
                 newFileDir := [], confirmAction := none } (str "NORMAL"))
    else if e.mode = str "insert" then
      some (SetStatusMessage { e with mode := str "normal" } (str "NORMAL"))
    else some e
  else if e.mode = str "normal" then handleNormalMode ops e ev
  else if e.mode = str "insert" then handleInsertMode ops e ev
  else if e.mode = str "command" then ops.handleCommandMode e ev
  else if e.mode = str "search" then ops.handleSearchMode e ev
  else if e.mode = str "filename" then handleFilenameMode ops e ev
  else if e.mode = str "rename" then handleRenameMode ops e ev
  else if e.mode = str "confirm" then handleConfirmMode ops e ev
  else some e

/-- Collaborators for the examples: each method from another file only leaves its name
and arguments in the status message, identifier characters are the word characters, the
operating system succeeds, and paths are joined with `/`. -/
def traceOps (R : Type) : Ops R :=
  { handleCommandMode := fun e _ => some (SetStatusMessage e (str "handleCommandMode")),
    handleSearchMode := fun e _ => some (SetStatusMessage e (str "handleSearchMode")),
    handleTreeNavigation := fun e _ => some (SetStatusMessage e (str "handleTreeNavigation")),
    moveCursor := fun e dx dy =>
      some (SetStatusMessage e (str "moveCursor " ++ fmtInt dx ++ str " " ++ fmtInt dy)),
    undo := fun e => some (SetStatusMessage e (str "undo")),
    redo := fun e => some (SetStatusMessage e (str "redo")),
    nextMatch := fun e => some (SetStatusMessage e (str "nextMatch")),
    previousMatch := fun e => some (SetStatusMessage e (str "previousMatch")),
    showHelp := fun e => some (SetStatusMessage e (str "showHelp")),
    insertNewLine := fun e => some (SetStatusMessage e (str "insertNewLine")),
    deleteChar := fun e => some (SetStatusMessage e (str "deleteChar")),
    joinLines := fun e => some (SetStatusMessage e (str "joinLines")),
    insertRune := fun e _ => some (SetStatusMessage e (str "insertRune")),
    refreshFileTree := fun e => some e,
    isIdentChar := fun r =>
      (97 ≤ r && r ≤ 122) || (65 ≤ r && r ≤ 90) || (48 ≤ r && r ≤ 57) || r == 95,
    invoke := fun _ e => some (SetStatusMessage e (str "confirmAction")),
    osCreate := fun _ => none,
    osRename := fun _ _ => none,
    filepathJoin := fun dir name => dir ++ str "/" ++ name,
    filepathDir := fun path => path }

/-! ## Cycling through the candidates (`-60f29191/6k4e.go`) -/

/-- Method `nextCompletion`; `%` is Go's remainder, truncated towards zero. -/
def nextCompletion {R : Type} (e : Editor R) : Editor R :=
  if e.completionActive ∧ len e.completions > 0 then
    { e with completionIndex := (e.completionIndex + 1).tmod (len e.completions) }
  else e

/-- Method `prevCompletion`. -/
def prevCompletion {R : Type} (e : Editor R) : Editor R :=
  if e.completionActive ∧ len e.completions > 0 then
    let e1 := { e with completionIndex := e.completionIndex - 1 }
    if e1.completionIndex < 0 then { e1 with completionIndex := len e1.completions - 1 }
    else e1
  else e

/-- The method `nextCompletion` applied `n` times in a row. -/
def nextCompletionTimes {R : Type} : Nat → Editor R → Editor R
  | 0, e => e
  | n + 1, e => nextCompletionTimes n (nextCompletion e)

/-! ## Saving on an explicit filesystem -/

/-- A filesystem: the content of each path that exists. -/
abbrev Files := GoString → Option GoString

/-- The filesystem with `content` at `path`. -/
def Files.put (fs : Files) (path content : GoString) : Files :=
  fun p => if p = path then some content else fs p

/-- The filesystem without `path` (`os.Remove`, whose error the callers ignore; it is
taken to succeed). -/
def Files.remove (fs : Files) (path : GoString) : Files :=
  fun p => if p = path then none else fs p

/-- Which calls of the operating system fail during one save: `os.Create`, the write
that fails (the number of lines, or of bytes, that reach the file before it), and
`os.Rename`.  The texts of the errors of the operating system are fixed words. -/
structure Faults where
  createFails : Bool
  writeFailsAfter : Option Nat
  renameFails : Bool
  deriving DecidableEq, Repr

/-- The bytes a save writes: each line followed by a newline. -/
def fileText (lines : List GoString) : GoString :=
  (lines.map (fun l => l ++ str "\n")).flatten

namespace Snapshot

/-- Method `writeToFile` of `3IWz.go`: `os.Create`, then one `WriteString` for each line.
A failing write leaves in the file the lines written before it.  The second component is
the text of the error. -/
def writeToFile (fs : Files) (faults : Faults) (filename : GoString)
    (lines : List GoString) : Files × Option GoString :=
  if faults.createFails then (fs, some (str "create failed"))
  else
    match faults.writeFailsAfter with
    | some n =>
      if n < lines.length then
        (fs.put filename (fileText (lines.take n)), some (str "write failed"))
      else (fs.put filename (fileText lines), none)
    | none => (fs.put filename (fileText lines), none)

/-- Method `createBackup` of `3IWz.go`: the text of the error, `none` for `nil`. -/
def createBackup (fs : Files) (e : Editor Change) : Option GoString :=
  if e.filename = [] then some (str "no filename specified")
  else
    match fs (e.filename ++ str ".bak") with
    | none => none
    | some _ => some (str "backup file already exists")

/-- Method `SaveFile` of `3IWz.go`: the state, the filesystem and the text of the error
after the call. -/
def SaveFile (fs : Files) (faults : Faults) (e : Editor Change) :
    Editor Change × Files × Option GoString :=
  if e.filename = [] then (e, fs, some (str "no filename specified"))
  else
    match createBackup fs e with
    | some err => (e, fs, some (str "backup failed: " ++ err))
    | none =>
      let tempFile := e.filename ++ str ".tmp"
      match writeToFile fs faults tempFile e.lines with
      | (fs1, some err) => (e, fs1.remove tempFile, some (str "write failed: " ++ err))
      | (fs1, none) =>
        if faults.renameFails then
          (e, fs1.remove tempFile, some (str "rename failed: rename failed"))
        else
          match fs1 tempFile with
          | some content =>
            ({ e with isDirty := false }, (fs1.remove tempFile).put e.filename content, none)
          | none => (e, fs1.remove tempFile, some (str "rename failed: no such file"))

end Snapshot

/-- The calls `os.Create(name)`, the buffered writes of the lines and `Flush` of
`saveFile` and `saveFileAs` (`y2WU.go`) on a filesystem: `os.Create` truncates the file
`name` itself, and a failing write or flush leaves in it the bytes that had reached it. -/
def writeDirect (fs : Files) (faults : Faults) (name : GoString) (lines : List GoString) :
    Files × Option GoString :=
  if faults.createFails then (fs, some (str "create failed"))
  else
    match faults.writeFailsAfter with
    | some n =>
      if n < (fileText lines).length then
        (fs.put name ((fileText lines).take n), some (str "write failed"))
      else (fs.put name (fileText lines), none)
    | none => (fs.put name (fileText lines), none)

/-- The environment `env` with the file writes of `saveFile` answered by the filesystem
`fs` under `faults`. -/
def envOn {R : Type} (env : Env R) (fs : Files) (faults : Faults) : Env R :=
  { env with writeFile := fun name lines => (writeDirect fs faults name lines).2 }

/-- The filesystem after the method `saveFile` of `y2WU.go`. -/
def saveFileFiles {R : Type} (fs : Files) (faults : Faults) (e : Editor R) : Files :=
  if e.filename = [] then fs else (writeDirect fs faults e.filename e.lines).1

/-! ## Lemmas on the Go primitives -/

@[simp] theorem len_eq_length {α : Type} (xs : List α) : len xs = (xs.length : Int) := rfl

@[simp] theorem index_natCast {α : Type} (xs : List α) (n : Nat) :
    index xs (n : Int) = xs[n]? := by
  simp [index]

theorem index_neg {α : Type} (xs : List α) (i : Int) (h : i < 0) : index xs i = none := by
  simp [index, h]

@[simp] theorem slice_natCast {α : Type} (xs : List α) (a b : Nat) :
    slice xs (a : Int) (b : Int) =
      if a ≤ b ∧ b ≤ xs.length then some ((xs.take b).drop a) else none := by
  simp [slice]

@[simp] theorem sliceTo_natCast {α : Type} (xs : List α) (b : Nat) :
    sliceTo xs (b : Int) = if b ≤ xs.length then some (xs.take b) else none := by
  have h := slice_natCast xs 0 b
  rw [Nat.cast_zero] at h
  rw [sliceTo, h]
  simp

@[simp] theorem sliceFrom_natCast {α : Type} (xs : List α) (a : Nat) :
    sliceFrom xs (a : Int) = if a ≤ xs.length then some (xs.drop a) else none := by
  have h := slice_natCast xs a xs.length
  rw [sliceFrom, len_eq_length, h]
  simp

@[simp] theorem setIndex_natCast {α : Type} (xs : List α) (n : Nat) (v : α) :
    setIndex xs (n : Int) v = if n < xs.length then some (xs.set n v) else none := by
  simp [setIndex]

/-- A valid state seen through natural numbers: row `r`, column `c`, current line `l`. -/
theorem Valid.nat {R : Type} {e : Editor R} (h : Valid e) :
    ∃ r c : Nat, ∃ l : GoString, e.cursorY = (r : Int) ∧ e.cursorX = (c : Int) ∧
      e.lines[r]? = some l ∧ r < e.lines.length ∧ c ≤ l.length := by
  obtain ⟨_, hy0, hy1, hx0, hx1⟩ := h
  obtain ⟨r, hr⟩ := Int.eq_ofNat_of_zero_le hy0
  obtain ⟨c, hc⟩ := Int.eq_ofNat_of_zero_le hx0
  have hr' : r < e.lines.length := by
    rw [hr] at hy1; simpa using hy1
  refine ⟨r, c, e.lines[r], hr, hc, ?_, hr', ?_⟩
  · simp [hr']
  · rw [hr, hc] at hx1
    simp [List.getD, hr'] at hx1
    exact hx1

/-- A state whose cursor is at row `r`, column `c` of a line `l` at least `c` long is
valid. -/
theorem Valid.of_nat {R : Type} {e : Editor R} (r c : Nat) (l : GoString)
    (hy : e.cursorY = (r : Int)) (hx : e.cursorX = (c : Int))
    (hl : e.lines[r]? = some l) (hc : c ≤ l.length) : Valid e := by
  have hr : r < e.lines.length := by
    rcases List.getElem?_eq_some_iff.mp hl with ⟨h, _⟩
    exact h
  refine ⟨by omega, by omega, by simp [hy, hr], by omega, ?_⟩
  simp [hy, hx, List.getD, hl, hc]

/-! ## What `deleteChar` and `joinLines` compute on a valid state -/

/-- The structured `deleteChar` at row `r`, column `k + 1` of the line `l`. -/
theorem structured_deleteChar_eq (e : Editor Structured.Action) (r k : Nat) (l : GoString)
    (hy : e.cursorY = (r : Int)) (hx : e.cursorX = ((k + 1 : Nat) : Int))
    (hl : e.lines[r]? = some l) (hk : k + 1 ≤ l.length) :
    ∃ d, l[k]? = some d ∧ Structured.deleteChar e = some { e with
      lines := e.lines.set r (l.take k ++ l.drop (k + 1)),
      cursorX := (k : Int), isDirty := true,
      undoStack := e.undoStack ++
        [{ type := Structured.ActionType.ActionDelete, lineNum := e.cursorY, oldLine := l,
           newLine := l.take k ++ l.drop (k + 1), cursorX := (k : Int),
           cursorY := e.cursorY, text := stringOfByte d }],
      redoStack := [] } := by
  have hr : r < e.lines.length := (List.getElem?_eq_some_iff.mp hl).1
  have hkl : k < l.length := by omega
  refine ⟨_, List.getElem?_eq_getElem hkl, ?_⟩
  have h1 : ((k + 1 : Nat) : Int) - 1 = (k : Int) := by push_cast; ring
  have h2 : ¬ ((e.lines.length : Int) ≤ (r : Int)) := by omega
  have h3 : ¬ (((k + 1 : Nat) : Int) ≤ 0) := by omega
  have h4 : ¬ ((l.length : Int) < ((k + 1 : Nat) : Int)) := by omega
  have h5 : k ≤ l.length := by omega
  unfold Structured.deleteChar
  rw [hy, hx, h1]
  simp only [ge_iff_le, gt_iff_lt, len_eq_length, h2, h3, if_false, index_natCast, hl,
    Option.bind_eq_bind, Option.some_bind, h4, sliceTo_natCast, h5, if_true,
    sliceFrom_natCast, hk, setIndex_natCast, hr, List.getElem?_set_self hr,
    List.getElem?_eq_getElem hkl]

/-- The snapshot `deleteChar` at row `r`, column `k + 1` of the line `l`. -/
theorem snapshot_deleteChar_eq (e : Editor Snapshot.Change) (r k : Nat) (l : GoString)
    (hy : e.cursorY = (r : Int)) (hx : e.cursorX = ((k + 1 : Nat) : Int))
    (hl : e.lines[r]? = some l) (hk : k + 1 ≤ l.length) :
    Snapshot.deleteChar e = some { e with
      lines := e.lines.set r (l.take k ++ l.drop (k + 1)),
      cursorX := (k : Int), isDirty := true,
      undoStack := e.undoStack ++
        [{ lines := e.lines.set r (l.take k ++ l.drop (k + 1)), cursorX := (k : Int),
           cursorY := e.cursorY, action := str "delete" }],
      redoStack := [] } := by
  have hr : r < e.lines.length := (List.getElem?_eq_some_iff.mp hl).1
  have h1 : ((k + 1 : Nat) : Int) - 1 = (k : Int) := by push_cast; ring
  have h2 : ¬ ((e.lines.length : Int) ≤ (r : Int)) := by omega
  have h3 : ¬ (((k + 1 : Nat) : Int) ≤ 0) := by omega
  have h4 : ¬ ((l.length : Int) < ((k + 1 : Nat) : Int)) := by omega
  have h5 : k ≤ l.length := by omega
  unfold Snapshot.deleteChar
  rw [hy, hx, h1]
  simp only [ge_iff_le, gt_iff_lt, len_eq_length, h2, h3, if_false, index_natCast, hl,
    Option.bind_eq_bind, Option.some_bind, h4, sliceTo_natCast, h5, if_true,
    sliceFrom_natCast, hk, setIndex_natCast, hr]

/-- Both revisions of `deleteChar` return at once when `cursorX ≤ 0`. -/
theorem structured_deleteChar_noop (e : Editor Structured.Action) (hx : e.cursorX ≤ 0) :
    Structured.deleteChar e = some e := by
  unfold Structured.deleteChar
  split
  · rfl
  · simp [hx]

theorem snapshot_deleteChar_noop (e : Editor Snapshot.Change) (hx : e.cursorX ≤ 0) :
    Snapshot.deleteChar e = some e := by
  unfold Snapshot.deleteChar
  split
  · rfl
  · simp [hx]

/-- Removing row `r + 1` after writing `v` at row `r`. -/
theorem take_set_append_drop {α : Type} (xs : List α) (r : Nat) (v : α)
    (h : r + 1 < xs.length) :
    (xs.set r v).take (r + 1) ++ (xs.set r v).drop (r + 2) =
      xs.take r ++ [v] ++ xs.drop (r + 2) := by
  induction xs generalizing r with
  | nil => simp at h
  | cons x xs ih =>
    cases r with
    | zero => simp
    | succ r =>
      have h' : r + 1 < xs.length := by simpa using h
      have := ih r h'
      simpa using this

/-- The structured `joinLines` at row `r + 1`, with `p` the previous line and `c` the
current one. -/
theorem structured_joinLines_eq (e : Editor Structured.Action) (r : Nat) (p c : GoString)
    (hy : e.cursorY = ((r + 1 : Nat) : Int))
    (hp : e.lines[r]? = some p) (hc : e.lines[r + 1]? = some c) :
    Structured.joinLines e = some { e with
      lines := e.lines.take r ++ [p ++ c] ++ e.lines.drop (r + 2),
      cursorX := (p.length : Int), cursorY := (r : Int), isDirty := true,
      undoStack := e.undoStack ++
        [{ type := Structured.ActionType.ActionJoinLines, lineNum := (r : Int), oldLine := c,
           newLine := p ++ c, cursorX := (p.length : Int), cursorY := (r : Int),
           text := str "\n" }],
      redoStack := [] } := by
  have hr : r + 1 < e.lines.length := (List.getElem?_eq_some_iff.mp hc).1
  have h1 : ((r + 1 : Nat) : Int) - 1 = (r : Int) := by push_cast; ring
  have h2 : ((r + 1 : Nat) : Int) + 1 = ((r + 2 : Nat) : Int) := by push_cast; ring
  have h3 : ((r + 1 : Nat) : Int) > 0 := by omega
  have h4 : r < e.lines.length := by omega
  have h5 : r + 1 ≤ e.lines.length := by omega
  have h6 : r + 2 ≤ e.lines.length := by omega
  unfold Structured.joinLines
  rw [hy, h1, h2]
  simp only [h3, if_true, index_natCast, hp, hc, Option.bind_eq_bind, Option.some_bind,
    setIndex_natCast, h4, sliceTo_natCast, List.length_set, h5, sliceFrom_natCast, h6,
    len_eq_length, take_set_append_drop e.lines r (p ++ c) hr]

/-- The snapshot `joinLines` at row `r + 1`. -/
theorem snapshot_joinLines_eq (e : Editor Snapshot.Change) (r : Nat) (p c : GoString)
    (hy : e.cursorY = ((r + 1 : Nat) : Int))
    (hp : e.lines[r]? = some p) (hc : e.lines[r + 1]? = some c) :
    Snapshot.joinLines e = some { e with
      lines := e.lines.take r ++ [p ++ c] ++ e.lines.drop (r + 2),
      cursorX := (p.length : Int), cursorY := (r : Int), isDirty := true,
      undoStack := e.undoStack ++
        [{ lines := e.lines.take r ++ [p ++ c] ++ e.lines.drop (r + 2),
           cursorX := (p.length : Int), cursorY := (r : Int), action := str "join" }],
      redoStack := [] } := by
  have hr : r + 1 < e.lines.length := (List.getElem?_eq_some_iff.mp hc).1
  have h1 : ((r + 1 : Nat) : Int) - 1 = (r : Int) := by push_cast; ring
  have h2 : ((r + 1 : Nat) : Int) + 1 = ((r + 2 : Nat) : Int) := by push_cast; ring
  have h3 : ((r + 1 : Nat) : Int) > 0 := by omega
  have h4 : r < e.lines.length := by omega
  have h5 : r + 1 ≤ e.lines.length := by omega
  have h6 : r + 2 ≤ e.lines.length := by omega
  unfold Snapshot.joinLines
  rw [hy, h1, h2]
  simp only [h3, if_true, index_natCast, hp, hc, Option.bind_eq_bind, Option.some_bind,
    setIndex_natCast, h4, sliceTo_natCast, List.length_set, h5, sliceFrom_natCast, h6,
    len_eq_length, take_set_append_drop e.lines r (p ++ c) hr]

/-- Writing row `r` leaves every other index as it was. -/
theorem index_set_ne {α : Type} (xs : List α) (r : Nat) (v : α) (j : Int)
    (h : j ≠ (r : Int)) : index (xs.set r v) j = index xs j := by
  unfold index
  split
  · rename_i hj
    have : r ≠ j.toNat := by omega
    simp [List.getElem?_set_ne this]
  · rfl

/-- The lines `l[:k] ++ l[k+1:]` are `l` without its entry `k`. -/
theorem take_append_drop_succ {α : Type} (l : List α) (k : Nat) :
    l.take k ++ l.drop (k + 1) = l.eraseIdx k := by
  rw [List.eraseIdx_eq_take_drop_succ]

/-! ## C4: `deleteChar` -/

/-- C4. `deleteChar`, in the structured revision (state `a`) and in the snapshot revision
(state `s`), on a state with a valid cursor.  With `cursorX = 0` the whole state
(document, cursor, dirty flag, undo and redo stacks) is returned unchanged.  Otherwise
the call returns a state in which the current line `l` has become
`l[:cursorX-1] ++ l[cursorX:]`, which is `l` without the byte at `cursorX - 1`, `cursorX`
is one less, `cursorY` is the same, the number of lines is the same and every other line
is unchanged. -/
theorem deleteChar_spec (a : Editor Structured.Action) (s : Editor Snapshot.Change)
    (ha : Valid a) (hs : Valid s) :
    ((a.cursorX = 0 → Structured.deleteChar a = some a) ∧
      (a.cursorX ≠ 0 → ∃ a' l left right, Structured.deleteChar a = some a' ∧
        index a.lines a.cursorY = some l ∧ sliceTo l (a.cursorX - 1) = some left ∧
        sliceFrom l a.cursorX = some right ∧
        index a'.lines a.cursorY = some (left ++ right) ∧
        left ++ right = l.eraseIdx (a.cursorX - 1).toNat ∧
        a'.cursorX = a.cursorX - 1 ∧ a'.cursorY = a.cursorY ∧
        len a'.lines = len a.lines ∧
        ∀ j : Int, j ≠ a.cursorY → index a'.lines j = index a.lines j)) ∧
    ((s.cursorX = 0 → Snapshot.deleteChar s = some s) ∧
      (s.cursorX ≠ 0 → ∃ s' l left right, Snapshot.deleteChar s = some s' ∧
        index s.lines s.cursorY = some l ∧ sliceTo l (s.cursorX - 1) = some left ∧
        sliceFrom l s.cursorX = some right ∧
        index s'.lines s.cursorY = some (left ++ right) ∧
        left ++ right = l.eraseIdx (s.cursorX - 1).toNat ∧
        s'.cursorX = s.cursorX - 1 ∧ s'.cursorY = s.cursorY ∧
        len s'.lines = len s.lines ∧
        ∀ j : Int, j ≠ s.cursorY → index s'.lines j = index s.lines j)) := by
  constructor
  · obtain ⟨r, c, l, hy, hx, hl, hr, hc⟩ := ha.nat
    refine ⟨fun h0 => structured_deleteChar_noop a (by omega), fun hne => ?_⟩
    cases c with
    | zero => exact absurd hx hne
    | succ k =>
      obtain ⟨d, _, hdel⟩ := structured_deleteChar_eq a r k l hy hx hl hc
      have h1 : ((k + 1 : Nat) : Int) - 1 = (k : Int) := by push_cast; ring
      have h5 : k ≤ l.length := by omega
      refine ⟨_, l, l.take k, l.drop (k + 1), hdel, ?_, ?_, ?_, ?_, ?_, ?_, ?_, ?_, ?_⟩
      · simp [hy, hl]
      · simp [hx, h1, h5]
      · simp only [hx, sliceFrom_natCast, hc, if_true]
      · simp [hy, hr]
      · rw [hx, h1, Int.toNat_ofNat, take_append_drop_succ]
      · simp only [hx, h1]
      · rfl
      · simp
      · intro j hj
        exact index_set_ne _ r _ j (by rw [← hy]; exact hj)
  · obtain ⟨r, c, l, hy, hx, hl, hr, hc⟩ := hs.nat
    refine ⟨fun h0 => snapshot_deleteChar_noop s (by omega), fun hne => ?_⟩
    cases c with
    | zero => exact absurd hx hne
    | succ k =>
      have hdel := snapshot_deleteChar_eq s r k l hy hx hl hc
      have h1 : ((k + 1 : Nat) : Int) - 1 = (k : Int) := by push_cast; ring
      have h5 : k ≤ l.length := by omega
      refine ⟨_, l, l.take k, l.drop (k + 1), hdel, ?_, ?_, ?_, ?_, ?_, ?_, ?_, ?_, ?_⟩
      · simp [hy, hl]
      · simp [hx, h1, h5]
      · simp only [hx, sliceFrom_natCast, hc, if_true]
      · simp [hy, hr]
      · rw [hx, h1, Int.toNat_ofNat, take_append_drop_succ]
      · simp only [hx, h1]
      · rfl
      · simp
      · intro j hj
        exact index_set_ne _ r _ j (by rw [← hy]; exact hj)

/-- Witness of C4: the document `["abc"]` with the cursor at column 2, in both
revisions; the call succeeds and moves the cursor to column 1. -/
theorem deleteChar_spec_witness :
    Valid { newEditor Structured.Action 24 with lines := [str "abc"], cursorX := 2 } ∧
    Valid { newEditor Snapshot.Change 24 with lines := [str "abc"], cursorX := 2 } ∧
    (∃ a', Structured.deleteChar
        { newEditor Structured.Action 24 with lines := [str "abc"], cursorX := 2 } = some a' ∧
      index a'.lines 0 = some (str "ac") ∧ a'.cursorX = 1) ∧
    (∃ s', Snapshot.deleteChar
        { newEditor Snapshot.Change 24 with lines := [str "abc"], cursorX := 2 } = some s' ∧
      index s'.lines 0 = some (str "ac") ∧ s'.cursorX = 1) := by
  have h := deleteChar_spec
    { newEditor Structured.Action 24 with lines := [str "abc"], cursorX := 2 }
    { newEditor Snapshot.Change 24 with lines := [str "abc"], cursorX := 2 }
    (by decide) (by decide)
  refine ⟨by decide, by decide, ?_, ?_⟩
  · obtain ⟨a', l, left, right, h1, h2, h3, h4, h5, _, h7, _⟩ := h.1.2 (by decide)
    refine ⟨a', h1, ?_, h7⟩
    have e2 : l = str "abc" := by
      have : index [str "abc"] 0 = some l := h2
      simpa [index] using this.symm
    subst e2
    have e3 : left = str "a" := by
      have : sliceTo (str "abc") 1 = some left := h3
      have h' : sliceTo (str "abc") 1 = some (str "a") := by decide
      rw [h'] at this
      exact (Option.some.inj this).symm
    have e4 : right = str "c" := by
      have : sliceFrom (str "abc") 2 = some right := h4
      have h' : sliceFrom (str "abc") 2 = some (str "c") := by decide
      rw [h'] at this
      exact (Option.some.inj this).symm
    subst e3 e4
    exact h5
  · obtain ⟨s', l, left, right, h1, h2, h3, h4, h5, _, h7, _⟩ := h.2.2 (by decide)
    refine ⟨s', h1, ?_, h7⟩
    have e2 : l = str "abc" := by
      have : index [str "abc"] 0 = some l := h2
      simpa [index] using this.symm
    subst e2
    have e3 : left = str "a" := by
      have : sliceTo (str "abc") 1 = some left := h3
      have h' : sliceTo (str "abc") 1 = some (str "a") := by decide
      rw [h'] at this
      exact (Option.some.inj this).symm
    have e4 : right = str "c" := by
      have : sliceFrom (str "abc") 2 = some right := h4
      have h' : sliceFrom (str "abc") 2 = some (str "c") := by decide
      rw [h'] at this
      exact (Option.some.inj this).symm
    subst e3 e4
    exact h5

/-! ## C3: `joinLines` -/

/-- C3. `joinLines` (structured revision) on a state with a valid cursor.  With
`cursorY = 0` the whole state (document, cursor, dirty flag, both history stacks) is
returned unchanged.  With `cursorY = r > 0` the call returns a state whose document is
the old one with the lines `r - 1` and `r` replaced by the single line
`lines[r-1] ++ lines[r]`, the lines before and after being the same in the same order and
the line count one less, and whose cursor is at row `r - 1`, column `len(lines[r-1])`.
The scenario `["abc","def"]` with the cursor at `(1,0)` gives `["abcdef"]` with the
cursor at `(0,3)`. -/
theorem joinLines_spec (a : Editor Structured.Action) (ha : Valid a) :
    (a.cursorY = 0 → Structured.joinLines a = some a) ∧
    (a.cursorY ≠ 0 → ∃ a' p c, Structured.joinLines a = some a' ∧
      index a.lines (a.cursorY - 1) = some p ∧ index a.lines a.cursorY = some c ∧
      a'.lines = a.lines.take (a.cursorY - 1).toNat ++ [p ++ c] ++
        a.lines.drop (a.cursorY + 1).toNat ∧
      len a'.lines = len a.lines - 1 ∧
      a'.cursorY = a.cursorY - 1 ∧ a'.cursorX = len p) ∧
    (Structured.joinLines
        { newEditor Structured.Action 24 with lines := [str "abc", str "def"], cursorY := 1 }).map
      (fun e => (e.lines, e.cursorY, e.cursorX)) = some ([str "abcdef"], 0, 3) := by
  obtain ⟨r, c, l, hy, hx, hl, hr, hc⟩ := ha.nat
  refine ⟨fun h0 => ?_, fun hne => ?_, by decide⟩
  · unfold Structured.joinLines
    simp [h0]
  · cases r with
    | zero => exact absurd hy hne
    | succ r =>
      obtain ⟨p, hp⟩ : ∃ p, a.lines[r]? = some p :=
        ⟨_, List.getElem?_eq_getElem (by omega)⟩
      have hj := structured_joinLines_eq a r p l hy hp hl
      have h1 : ((r + 1 : Nat) : Int) - 1 = (r : Int) := by push_cast; ring
      have h2 : ((r + 1 : Nat) : Int) + 1 = ((r + 2 : Nat) : Int) := by push_cast; ring
      refine ⟨_, p, l, hj, ?_, ?_, ?_, ?_, ?_, ?_⟩
      · rw [hy, h1, index_natCast, hp]
      · rw [hy, index_natCast, hl]
      · simp only [hy, h1, h2, Int.toNat_ofNat]
      · simp only [len_eq_length, List.length_append, List.length_take, List.length_drop,
          List.length_cons, List.length_nil]
        omega
      · simp only [hy, h1]
      · rfl

/-- Witness of C3: three lines with the cursor on the last one. -/
theorem joinLines_spec_witness :
    Valid { newEditor Structured.Action 24 with
      lines := [str "ab", str "cd", str "ef"], cursorY := 2, cursorX := 1 } ∧
    ∃ a', Structured.joinLines { newEditor Structured.Action 24 with
        lines := [str "ab", str "cd", str "ef"], cursorY := 2, cursorX := 1 } = some a' ∧
      a'.cursorY = 1 ∧ a'.cursorX = 2 ∧ len a'.lines = 2 := by
  have h := joinLines_spec { newEditor Structured.Action 24 with
      lines := [str "ab", str "cd", str "ef"], cursorY := 2, cursorX := 1 } (by decide)
  refine ⟨by decide, ?_⟩
  obtain ⟨a', p, c, h1, h2, _, _, h5, h6, h7⟩ := h.2.1 (by decide)
  refine ⟨a', h1, h6, ?_, h5⟩
  have e2 : p = str "cd" := by
    have h' : index [str "ab", str "cd", str "ef"] (2 - 1) = some (str "cd") := by decide
    have : index [str "ab", str "cd", str "ef"] (2 - 1) = some p := h2
    rw [h'] at this
    exact (Option.some.inj this).symm
  rw [h7, e2]
  decide

/-! ## C2: the cursor invariant is preserved -/

/-- Validity depends on the document and on the cursor only. -/
theorem Valid.congr {R S : Type} {e : Editor R} {e' : Editor S} (h : Valid e)
    (hl : e'.lines = e.lines) (hx : e'.cursorX = e.cursorX) (hy : e'.cursorY = e.cursorY) :
    Valid e' := by
  unfold Valid at *
  rw [hl, hx, hy]
  exact h

/-- The word-start loop entered at a column inside the line ends at a column not beyond
the one it was entered with, without an index out of range. -/
theorem wordStartLoop_le (l : GoString) (n : Nat) (h : n ≤ l.length) :
    ∃ w : Nat, wordStartLoop l n = some (w : Int) ∧ w ≤ n := by
  induction n with
  | zero => exact ⟨0, rfl, le_refl 0⟩
  | succ n ih =>
    obtain ⟨w, hw, hle⟩ := ih (by omega)
    have hn : n < l.length := by omega
    unfold wordStartLoop
    rw [index_natCast, List.getElem?_eq_getElem hn]
    by_cases hb : isWordChar l[n] = true
    · exact ⟨w, by simp [hb, hw], by omega⟩
    · refine ⟨n + 1, ?_, le_refl _⟩
      simp [hb]

theorem findWordStart_le (l : GoString) (c : Nat) (h : c ≤ l.length) :
    ∃ w : Nat, findWordStart l (c : Int) = some (w : Int) ∧ w ≤ c := by
  unfold findWordStart
  by_cases hc : (c : Int) > 0
  · simp only [hc, if_true, Int.toNat_ofNat]
    exact wordStartLoop_le l c h
  · refine ⟨c, ?_, le_refl c⟩
    simp [hc]

/-- The call `applyCompletion` at row `r`, column `c` of the line `l`, with the
candidate `comp` selected. -/
theorem applyCompletion_eq (e : Editor GoString) (r c i : Nat) (l : GoString)
    (comp : Completion) (hy : e.cursorY = (r : Int)) (hx : e.cursorX = (c : Int))
    (hl : e.lines[r]? = some l) (hc : c ≤ l.length) (hact : e.completionActive = true)
    (hi : e.completionIndex = (i : Int)) (hcomp : e.completions[i]? = some comp) :
    ∃ w : Nat, w ≤ c ∧ findWordStart l (c : Int) = some (w : Int) ∧
      applyCompletion e = some { e with
        lines := e.lines.set r (l.take w ++ comp.Text ++ l.drop c),
        cursorX := (w : Int) + len comp.Text, isDirty := true,
        undoStack := (addUndo e l).undoStack, redoStack := [],
        completionActive := false } := by
  obtain ⟨w, hw, hle⟩ := findWordStart_le l c hc
  refine ⟨w, hle, hw, ?_⟩
  have hr : r < e.lines.length := (List.getElem?_eq_some_iff.mp hl).1
  have hne : e.completions ≠ [] := by
    intro h0
    rw [h0] at hcomp
    simp at hcomp
  have hw' : w ≤ l.length := by omega
  unfold applyCompletion
  rw [hy, hx, hi]
  simp [hact, hne, hcomp, hl, hw, hw', hc, addUndo, hr, hy, hx, hi]

/-- The command `line` keeps the document and re-establishes the cursor invariant. -/
theorem handleCommandLine_valid {R : Type} (e : Editor R) (scan : Option Int)
    (h : Valid e) :
    ∃ e', handleCommandLine e scan = some e' ∧ Valid e' ∧ e'.lines = e.lines := by
  obtain ⟨r, c, l, hy, hx, hl, hr, hc⟩ := h.nat
  cases scan with
  | none => exact ⟨_, rfl, h.congr rfl rfl rfl, rfl⟩
  | some n =>
    by_cases hn : n > 0 ∧ n ≤ len e.lines
    · obtain ⟨m, hm⟩ := Int.eq_ofNat_of_zero_le (show 0 ≤ n - 1 by omega)
      have hml : m < e.lines.length := by
        have := hn.2
        rw [len_eq_length] at this
        omega
      obtain ⟨t, ht⟩ : ∃ t, e.lines[m]? = some t := ⟨_, List.getElem?_eq_getElem hml⟩
      simp only [handleCommandLine, hn, and_self, if_true, hm, index_natCast, ht,
        Option.bind_eq_bind, Option.some_bind]
      refine ⟨_, rfl, ?_, ?_⟩
      · by_cases hgt : e.cursorX > len t
        · simp only [hgt, if_true]
          split_ifs <;>
            exact Valid.of_nat m t.length t rfl rfl ht (le_refl _)
        · simp only [hgt, if_false]
          have hct : c ≤ t.length := by
            rw [hx, len_eq_length] at hgt
            omega
          split_ifs <;>
            exact Valid.of_nat m c t rfl hx ht hct
      · split_ifs <;> rfl
    · simp only [handleCommandLine, hn, if_false]
      exact ⟨_, rfl, h.congr rfl rfl rfl, rfl⟩

/-- The structured `deleteChar` returns a valid state on a valid state. -/
theorem structured_deleteChar_valid (a : Editor Structured.Action) (ha : Valid a) :
    ∃ a', Structured.deleteChar a = some a' ∧ Valid a' := by
  obtain ⟨r, c, l, hy, hx, hl, hr, hc⟩ := ha.nat
  cases c with
  | zero => exact ⟨a, structured_deleteChar_noop a (by omega), ha⟩
  | succ k =>
    obtain ⟨d, _, hdel⟩ := structured_deleteChar_eq a r k l hy hx hl hc
    refine ⟨_, hdel, Valid.of_nat r k (l.take k ++ l.drop (k + 1)) hy rfl ?_ ?_⟩
    · simp [hr]
    · simp only [List.length_append, List.length_take, List.length_drop]
      omega

/-- The entry at index `r` of `xs[:r] ++ [v] ++ rest` is `v`. -/
theorem getElem?_take_append_singleton {α : Type} (xs : List α) (r : Nat) (v : α)
    (rest : List α) (h : r ≤ xs.length) : (xs.take r ++ [v] ++ rest)[r]? = some v := by
  have hlen : (xs.take r).length = r := by
    rw [List.length_take]; omega
  rw [List.append_assoc, List.getElem?_append_right (by omega), hlen]
  simp

/-- The structured `joinLines` returns a valid state on a valid state. -/
theorem structured_joinLines_valid (a : Editor Structured.Action) (ha : Valid a) :
    ∃ a', Structured.joinLines a = some a' ∧ Valid a' := by
  obtain ⟨r, c, l, hy, hx, hl, hr, hc⟩ := ha.nat
  cases r with
  | zero =>
    refine ⟨a, ?_, ha⟩
    unfold Structured.joinLines
    simp [hy]
  | succ r =>
    obtain ⟨p, hp⟩ : ∃ p, a.lines[r]? = some p :=
      ⟨_, List.getElem?_eq_getElem (by omega)⟩
    have hj := structured_joinLines_eq a r p l hy hp hl
    refine ⟨_, hj, Valid.of_nat r p.length (p ++ l) rfl rfl ?_ ?_⟩
    · exact getElem?_take_append_singleton a.lines r (p ++ l) _ (by omega)
    · simp

/-- The call `applyCompletion` returns a valid state on a valid state whose selected
candidate exists. -/
theorem applyCompletion_valid (c : Editor GoString) (hc : Valid c)
    (hi0 : 0 ≤ c.completionIndex) (hi1 : c.completionIndex < len c.completions) :
    ∃ c', applyCompletion c = some c' ∧ Valid c' := by
  by_cases hact : c.completionActive = true
  · obtain ⟨r, x, l, hy, hx, hl, hr, hxl⟩ := hc.nat
    obtain ⟨i, hi⟩ := Int.eq_ofNat_of_zero_le hi0
    have hil : i < c.completions.length := by
      rw [hi, len_eq_length] at hi1
      omega
    obtain ⟨comp, hcomp⟩ : ∃ comp, c.completions[i]? = some comp :=
      ⟨_, List.getElem?_eq_getElem hil⟩
    obtain ⟨w, hw, _, happ⟩ := applyCompletion_eq c r x i l comp hy hx hl hxl hact hi hcomp
    refine ⟨_, happ, Valid.of_nat r (w + comp.Text.length)
      (l.take w ++ comp.Text ++ l.drop x) hy ?_ ?_ ?_⟩
    · simp
    · simp [hr]
    · simp only [List.length_append, List.length_take, List.length_drop]
      omega
  · refine ⟨c, ?_, hc⟩
    unfold applyCompletion
    simp [hact]

/-- C2. The cursor invariant `Valid` (at least one line, `0 ≤ cursorY < lineCount`,
`0 ≤ cursorX ≤ len(lines[cursorY])`) is preserved: on a valid state each of `deleteChar`
and `joinLines` (structured revision), the command `line <n>` whatever `fmt.Sscan`
makes of its argument (an error, or any integer `n`), and `applyCompletion` with
`completionActive` and `0 ≤ completionIndex < len(completions)`, returns a state, and
that state is valid. -/
theorem valid_preserved (a : Editor Structured.Action) (c : Editor GoString)
    (scan : Option Int) (ha : Valid a) (hc : Valid c) :
    (∃ a', Structured.deleteChar a = some a' ∧ Valid a') ∧
    (∃ a', Structured.joinLines a = some a' ∧ Valid a') ∧
    (∃ c', handleCommandLine c scan = some c' ∧ Valid c') ∧
    (c.completionActive = true → 0 ≤ c.completionIndex →
      c.completionIndex < len c.completions →
      ∃ c', applyCompletion c = some c' ∧ Valid c') := by
  refine ⟨structured_deleteChar_valid a ha, structured_joinLines_valid a ha, ?_, ?_⟩
  · obtain ⟨c', h1, h2, _⟩ := handleCommandLine_valid c scan hc
    exact ⟨c', h1, h2⟩
  · intro _ hi0 hi1
    exact applyCompletion_valid c hc hi0 hi1

/-- Witness of C2: two lines with the cursor at the end of the second one, and a line
`"x fo"` with the candidate `"for"` selected; the command is `line 1`. -/
theorem valid_preserved_witness :
    Valid { newEditor Structured.Action 24 with
      lines := [str "a", str "bcd"], cursorX := 3, cursorY := 1 } ∧
    Valid { newEditor GoString 24 with
      lines := [str "x fo"], cursorX := 4, completionActive := true,
      completions := [{ Text := str "for", Description := str "Loop statement" }] } ∧
    ∃ c', applyCompletion { newEditor GoString 24 with
      lines := [str "x fo"], cursorX := 4, completionActive := true,
      completions := [{ Text := str "for", Description := str "Loop statement" }] } = some c' ∧
      Valid c' := by
  have h := valid_preserved
    { newEditor Structured.Action 24 with
      lines := [str "a", str "bcd"], cursorX := 3, cursorY := 1 }
    { newEditor GoString 24 with
      lines := [str "x fo"], cursorX := 4, completionActive := true,
      completions := [{ Text := str "for", Description := str "Loop statement" }] }
    (some 1) (by decide) (by decide)
  exact ⟨by decide, by decide, h.2.2.2 rfl (by decide) (by decide)⟩

/-! ## C7: `undo` beyond the recorded history -/

/-- The snapshot `undo` on an empty undo stack returns the state unchanged. -/
theorem snapshot_undo_empty (e : Editor Snapshot.Change) (h : e.undoStack = []) :
    Snapshot.undo e = some e := by
  unfold Snapshot.undo
  simp [h]

/-- The snapshot `undo` on a stack `st ++ [top]` pops `top`, pushes the current document
and cursor on the redo stack and installs the document and cursor of `top`. -/
theorem snapshot_undo_concat (e : Editor Snapshot.Change) (st : List Snapshot.Change)
    (top : Snapshot.Change) (h : e.undoStack = st ++ [top]) :
    Snapshot.undo e = some { e with
      redoStack := e.redoStack ++
        [{ lines := e.lines, cursorX := e.cursorX, cursorY := e.cursorY,
           action := str "redo" }],
      undoStack := st, lines := top.lines, cursorX := top.cursorX,
      cursorY := top.cursorY } := by
  have h1 : ((st.length + 1 : Nat) : Int) - 1 = (st.length : Int) := by push_cast; ring
  have h0 : ¬ (((st.length + 1 : Nat) : Int) = 0) := by omega
  unfold Snapshot.undo
  rw [h]
  simp only [len_eq_length, List.length_append, List.length_singleton, h0, if_false, h1,
    index_natCast, sliceTo_natCast, Option.bind_eq_bind, List.nil_append]
  simp

/-- The snapshot `undo` never fails, and it leaves the undo stack without its last
entry. -/
theorem snapshot_undo_total (e : Editor Snapshot.Change) :
    ∃ e', Snapshot.undo e = some e' ∧ e'.undoStack = e.undoStack.dropLast := by
  rcases List.eq_nil_or_concat e.undoStack with h | ⟨st, top, h⟩
  · exact ⟨e, snapshot_undo_empty e h, by simp [h]⟩
  · rw [List.concat_eq_append] at h
    exact ⟨_, snapshot_undo_concat e st top h, by simp [h]⟩

/-- Repeated `undo` never fails. -/
theorem snapshot_undoTimes_total (n : Nat) (e : Editor Snapshot.Change) :
    ∃ e', Snapshot.undoTimes n e = some e' := by
  induction n generalizing e with
  | zero => exact ⟨e, rfl⟩
  | succ n ih =>
    obtain ⟨e1, h1, _⟩ := snapshot_undo_total e
    obtain ⟨e2, h2⟩ := ih e1
    exact ⟨e2, by simp [Snapshot.undoTimes, h1, h2]⟩

/-- At least as many `undo` as there are entries empty the undo stack. -/
theorem snapshot_undoTimes_empties (m : Nat) (e : Editor Snapshot.Change)
    (hm : e.undoStack.length ≤ m) :
    ∃ e', Snapshot.undoTimes m e = some e' ∧ e'.undoStack = [] := by
  induction m generalizing e with
  | zero =>
    refine ⟨e, rfl, ?_⟩
    exact List.length_eq_zero.mp (by omega)
  | succ m ih =>
    obtain ⟨e1, h1, hst⟩ := snapshot_undo_total e
    have hlen : e1.undoStack.length ≤ m := by
      rw [hst, List.length_dropLast]
      omega
    obtain ⟨e2, h2, h3⟩ := ih e1 hlen
    exact ⟨e2, by simp [Snapshot.undoTimes, h1, h2], h3⟩

/-- C7. `undo` (snapshot revision) with an empty undo stack returns the state unchanged
(document, cursor, undo stack, redo stack) and does not fail.  For a state whose undo
stack has `k` entries and `m ≥ k`: applying `undo` any number of times never fails,
after `m` applications the undo stack is empty, and one more `undo` returns that state
unchanged. -/
theorem undo_beyond_history (e : Editor Snapshot.Change) (m : Nat)
    (hm : e.undoStack.length ≤ m) :
    (e.undoStack = [] → Snapshot.undo e = some e) ∧
    (∀ n : Nat, ∃ e', Snapshot.undoTimes n e = some e') ∧
    ∃ e', Snapshot.undoTimes m e = some e' ∧ e'.undoStack = [] ∧
      Snapshot.undo e' = some e' := by
  refine ⟨snapshot_undo_empty e, fun n => snapshot_undoTimes_total n e, ?_⟩
  obtain ⟨e', h1, h2⟩ := snapshot_undoTimes_empties m e hm
  exact ⟨e', h1, h2, snapshot_undo_empty e' h2⟩

/-- Witness of C7: two recorded snapshots and five calls of `undo`. -/
theorem undo_beyond_history_witness :
    ({ newEditor Snapshot.Change 24 with
        lines := [str "ab"],
        undoStack := [
          { lines := [str "abcd"], cursorX := 4, cursorY := 0, action := str "delete" },
          { lines := [str "abc"], cursorX := 3, cursorY := 0, action := str "delete" }]
      } : Editor Snapshot.Change).undoStack.length ≤ 5 ∧
    ∃ e', Snapshot.undoTimes 5 { newEditor Snapshot.Change 24 with
        lines := [str "ab"],
        undoStack := [
          { lines := [str "abcd"], cursorX := 4, cursorY := 0, action := str "delete" },
          { lines := [str "abc"], cursorX := 3, cursorY := 0, action := str "delete" }]
      } = some e' ∧ e'.undoStack = [] ∧ Snapshot.undo e' = some e' :=
  ⟨by decide, (undo_beyond_history _ 5 (by decide)).2.2⟩

/-! ## C8: recording an edit clears the redo stack -/

/-- In any state, the snapshot `deleteChar` either returns the state as it is or returns
a state with an empty redo stack. -/
theorem snapshot_deleteChar_same_or_cleared (t t' : Editor Snapshot.Change)
    (h : Snapshot.deleteChar t = some t') : t' = t ∨ t'.redoStack = [] := by
  unfold Snapshot.deleteChar at h
  split_ifs at h with h1 h2
  · exact Or.inl (Option.some.inj h).symm
  · exact Or.inl (Option.some.inj h).symm
  · simp only [Option.bind_eq_bind, Option.bind_eq_some] at h
    obtain ⟨g, _, h⟩ := h
    split_ifs at h
    · exact Or.inl (Option.some.inj h).symm
    · simp only [Option.bind_eq_some] at h
      obtain ⟨_, _, _, _, _, _, _, _, h⟩ := h
      right
      rw [← Option.some.inj h]

/-- In any state, the structured `deleteChar` either returns the state as it is or
returns a state with an empty redo stack. -/
theorem structured_deleteChar_same_or_cleared (t t' : Editor Structured.Action)
    (h : Structured.deleteChar t = some t') : t' = t ∨ t'.redoStack = [] := by
  unfold Structured.deleteChar at h
  split_ifs at h with h1 h2
  · exact Or.inl (Option.some.inj h).symm
  · exact Or.inl (Option.some.inj h).symm
  · simp only [Option.bind_eq_bind, Option.bind_eq_some] at h
    obtain ⟨g, _, h⟩ := h
    split_ifs at h
    · exact Or.inl (Option.some.inj h).symm
    · simp only [Option.bind_eq_some] at h
      obtain ⟨_, _, _, _, _, _, _, _, _, _, _, _, h⟩ := h
      right
      rw [← Option.some.inj h]

/-- In any state, the snapshot `joinLines` either returns the state as it is or returns
a state with an empty redo stack. -/
theorem snapshot_joinLines_same_or_cleared (t t' : Editor Snapshot.Change)
    (h : Snapshot.joinLines t = some t') : t' = t ∨ t'.redoStack = [] := by
  unfold Snapshot.joinLines at h
  split_ifs at h
  · simp only [Option.bind_eq_bind, Option.bind_eq_some] at h
    obtain ⟨_, _, _, _, _, _, _, _, _, _, h⟩ := h
    right
    rw [← Option.some.inj h]
  · exact Or.inl (Option.some.inj h).symm

/-- In any state, the structured `joinLines` either returns the state as it is or
returns a state with an empty redo stack. -/
theorem structured_joinLines_same_or_cleared (t t' : Editor Structured.Action)
    (h : Structured.joinLines t = some t') : t' = t ∨ t'.redoStack = [] := by
  unfold Structured.joinLines at h
  split_ifs at h
  · simp only [Option.bind_eq_bind, Option.bind_eq_some] at h
    obtain ⟨_, _, _, _, _, _, _, _, _, _, h⟩ := h
    right
    rw [← Option.some.inj h]
  · exact Or.inl (Option.some.inj h).symm

/-- C8. Every buffer mutation that records an edit clears the redo stack.  On a state
with a valid cursor, `deleteChar` with `cursorX > 0` and `joinLines` with `cursorY > 0`
return a state whose redo stack is empty, in the structured revision (state `a`) and in
the snapshot revision (state `s`).  In any state `t` whatever, `addUndo` leaves the redo
stack empty, and each of the four methods either returns the state as it is (its guard
refused the edit, nothing was recorded) or leaves the redo stack empty. -/
theorem redo_cleared_by_edits (a : Editor Structured.Action) (s t : Editor Snapshot.Change)
    (u : Editor Structured.Action) (ch : Snapshot.Change) (ha : Valid a) (hs : Valid s) :
    (0 < a.cursorX → ∃ a', Structured.deleteChar a = some a' ∧ a'.redoStack = []) ∧
    (0 < a.cursorY → ∃ a', Structured.joinLines a = some a' ∧ a'.redoStack = []) ∧
    (0 < s.cursorX → ∃ s', Snapshot.deleteChar s = some s' ∧ s'.redoStack = []) ∧
    (0 < s.cursorY → ∃ s', Snapshot.joinLines s = some s' ∧ s'.redoStack = []) ∧
    (Snapshot.addUndo t ch).redoStack = [] ∧
    (∀ t', Snapshot.deleteChar t = some t' → t' = t ∨ t'.redoStack = []) ∧
    (∀ t', Snapshot.joinLines t = some t' → t' = t ∨ t'.redoStack = []) ∧
    (∀ u', Structured.deleteChar u = some u' → u' = u ∨ u'.redoStack = []) ∧
    (∀ u', Structured.joinLines u = some u' → u' = u ∨ u'.redoStack = []) := by
  refine ⟨fun hx => ?_, fun hy => ?_, fun hx => ?_, fun hy => ?_, rfl,
    snapshot_deleteChar_same_or_cleared t, snapshot_joinLines_same_or_cleared t,
    structured_deleteChar_same_or_cleared u, structured_joinLines_same_or_cleared u⟩
  · obtain ⟨r, c, l, hy, hc, hl, hr, hcl⟩ := ha.nat
    cases c with
    | zero => omega
    | succ k =>
      obtain ⟨d, _, hdel⟩ := structured_deleteChar_eq a r k l hy hc hl hcl
      exact ⟨_, hdel, rfl⟩
  · obtain ⟨r, c, l, hr0, hc, hl, hr, hcl⟩ := ha.nat
    cases r with
    | zero => omega
    | succ r =>
      obtain ⟨p, hp⟩ : ∃ p, a.lines[r]? = some p :=
        ⟨_, List.getElem?_eq_getElem (by omega)⟩
      exact ⟨_, structured_joinLines_eq a r p l hr0 hp hl, rfl⟩
  · obtain ⟨r, c, l, hy, hc, hl, hr, hcl⟩ := hs.nat
    cases c with
    | zero => omega
    | succ k => exact ⟨_, snapshot_deleteChar_eq s r k l hy hc hl hcl, rfl⟩
  · obtain ⟨r, c, l, hr0, hc, hl, hr, hcl⟩ := hs.nat
    cases r with
    | zero => omega
    | succ r =>
      obtain ⟨p, hp⟩ : ∃ p, s.lines[r]? = some p :=
        ⟨_, List.getElem?_eq_getElem (by omega)⟩
      exact ⟨_, snapshot_joinLines_eq s r p l hr0 hp hl, rfl⟩

/-- Witness of C8: two lines, the cursor at `(1,2)`, a non-empty redo stack. -/
theorem redo_cleared_by_edits_witness :
    Valid { newEditor Structured.Action 24 with
      lines := [str "ab", str "cd"], cursorX := 2, cursorY := 1 } ∧
    Valid { newEditor Snapshot.Change 24 with
      lines := [str "ab", str "cd"], cursorX := 2, cursorY := 1,
      redoStack := [{ lines := [str "ab", str "cde"], cursorX := 3, cursorY := 1,
                      action := str "redo" }] } ∧
    (∃ s', Snapshot.deleteChar { newEditor Snapshot.Change 24 with
      lines := [str "ab", str "cd"], cursorX := 2, cursorY := 1,
      redoStack := [{ lines := [str "ab", str "cde"], cursorX := 3, cursorY := 1,
                      action := str "redo" }] } = some s' ∧ s'.redoStack = []) ∧
    (∃ s', Snapshot.joinLines { newEditor Snapshot.Change 24 with
      lines := [str "ab", str "cd"], cursorX := 2, cursorY := 1,
      redoStack := [{ lines := [str "ab", str "cde"], cursorX := 3, cursorY := 1,
                      action := str "redo" }] } = some s' ∧ s'.redoStack = []) := by
  have h := redo_cleared_by_edits
    { newEditor Structured.Action 24 with
      lines := [str "ab", str "cd"], cursorX := 2, cursorY := 1 }
    { newEditor Snapshot.Change 24 with
      lines := [str "ab", str "cd"], cursorX := 2, cursorY := 1,
      redoStack := [{ lines := [str "ab", str "cde"], cursorX := 3, cursorY := 1,
                      action := str "redo" }] }
    (newEditor Snapshot.Change 24) (newEditor Structured.Action 24)
    { lines := [], cursorX := 0, cursorY := 0, action := [] } (by decide) (by decide)
  exact ⟨by decide, by decide, h.2.2.1 (by decide), h.2.2.2.1 (by decide)⟩

/-! ## C1: `undo` right after an edit (snapshot revision) -/

/-- C1, evaluated on the code.  The snapshot pushed by `deleteChar` and by `joinLines`
is taken after the edit, so an `undo` issued right afterwards installs the edited
document and cursor again.  From `["ab"]` with the cursor at column 1, `deleteChar` then
`undo` ends with `["b"]` and column 0, not with `["ab"]` and column 1; from
`["abc","def"]` with the cursor at `(1,0)`, `joinLines` then `undo` ends with
`["abcdef"]` and the cursor at `(0,3)`, not with the two lines and `(1,0)`. -/
theorem undo_after_edit_keeps_edit :
    ((Snapshot.deleteChar
        { newEditor Snapshot.Change 24 with lines := [str "ab"], cursorX := 1 }).bind
      Snapshot.undo).map (fun e => (e.lines, e.cursorY, e.cursorX)) =
      some ([str "b"], 0, 0) ∧
    ((Snapshot.joinLines
        { newEditor Snapshot.Change 24 with
          lines := [str "abc", str "def"], cursorY := 1 }).bind
      Snapshot.undo).map (fun e => (e.lines, e.cursorY, e.cursorX)) =
      some ([str "abcdef"], 0, 3) := by
  constructor <;> decide

/-! ## C5 and C6: `insertRune` -/

/-- C5, evaluated on the code.  The body of `insertRune` ends after the length guard, so
on `["abc"]` with the cursor at `(0,0)` the call with `'x'` (code point 120) returns the
state as it was, in both revisions: the document is still `["abc"]` and the cursor still
at column 0, where the claim has `["xabc"]` and column 1. -/
theorem insertRune_inserts_nothing :
    Structured.insertRune
        { newEditor Structured.Action 24 with lines := [str "abc"] } 120 =
      some { newEditor Structured.Action 24 with lines := [str "abc"] } ∧
    Snapshot.insertRune
        { newEditor Snapshot.Change 24 with lines := [str "abc"] } 120 =
      some { newEditor Snapshot.Change 24 with lines := [str "abc"] } ∧
    (str "abc" ≠ str "xabc") := by
  refine ⟨by decide, by decide, by decide⟩

/-- C6, evaluated on the code.  On `["abc"]` with the cursor at column 1, `insertRune`
with `'x'` followed by `deleteChar` ends with `["bc"]` and column 0: the call of
`insertRune` adds nothing and `deleteChar` then removes the byte that was already
there. -/
theorem insertRune_then_deleteChar_loses_byte :
    ((Structured.insertRune
        { newEditor Structured.Action 24 with lines := [str "abc"], cursorX := 1 } 120).bind
      Structured.deleteChar).map (fun e => (e.lines, e.cursorY, e.cursorX)) =
      some ([str "bc"], 0, 0) := by
  decide

/-! ## C9: the undo stack and `maxUndoStack` -/

/-- C9, evaluated on the code.  `addUndo`, and with it `deleteChar`, appends to the undo
stack without ever comparing its length with `maxUndoStack`: from an undo stack of 1000
entries both leave 1001 entries, the oldest one still there. -/
theorem undoStack_grows_past_cap :
    maxUndoStack = 1000 ∧
    len Snapshot.fullHistory.undoStack = 1000 ∧
    len (Snapshot.addUndo Snapshot.fullHistory
      { lines := [str "b"], cursorX := 0, cursorY := 0, action := str "delete" }).undoStack
      = 1001 ∧
    (Snapshot.deleteChar Snapshot.fullHistory).map
        (fun e => (len e.undoStack, e.undoStack.head?)) =
      some (1001,
        some { lines := [str "ab"], cursorX := 1, cursorY := 0, action := str "delete" }) := by
  have hlen : Snapshot.fullHistory.undoStack.length = 1000 := by
    simp only [Snapshot.fullHistory, List.length_replicate]
  have hhead : Snapshot.fullHistory.undoStack =
      { lines := [str "ab"], cursorX := 1, cursorY := 0, action := str "delete" } ::
        List.replicate 999
          { lines := [str "ab"], cursorX := 1, cursorY := 0, action := str "delete" } := rfl
  refine ⟨rfl, ?_, ?_, ?_⟩
  · rw [len_eq_length, hlen]
    rfl
  · simp only [Snapshot.addUndo, len_eq_length, List.length_append, List.length_singleton,
      hlen]
    rfl
  · rw [snapshot_deleteChar_eq Snapshot.fullHistory 0 0 (str "ab") rfl rfl rfl (by decide)]
    simp only [Option.map_some', len_eq_length, List.length_append, List.length_singleton,
      hlen]
    rw [hhead]
    rfl

/-! ## C10: `LoadFile` -/

/-- C10, evaluated on the code.  Loading an empty file on the normal-size path returns
no error and leaves a document with no line at all, so the cursor `(0,0)` is not valid
against it; the dirty flag is false and the undo stack is the one from before. -/
theorem LoadFile_empty_file_empty_document :
    (Snapshot.LoadFile (newEditor Snapshot.Change 24)
      { statErr := false, size := 0, openErr := false, scanned := [], scanErr := false }).2
      = false ∧
    (Snapshot.LoadFile (newEditor Snapshot.Change 24)
      { statErr := false, size := 0, openErr := false, scanned := [], scanErr := false }).1.lines
      = [] ∧
    ¬ Valid (Snapshot.LoadFile (newEditor Snapshot.Change 24)
      { statErr := false, size := 0, openErr := false, scanned := [], scanErr := false }).1 := by
  refine ⟨by decide, by decide, by decide⟩

/-! ## C13: the quit gate -/

/-- The command text `q` reaches case `"q"`, in both revisions of the handler. -/
theorem handleCommand_q (env : Env GoString) (e : Editor GoString)
    (h : e.commandBuffer = str "q") :
    handleCommand env e = caseQ e ∧ Short.handleCommand env e = caseQ e := by
  unfold handleCommand Short.handleCommand
  rw [h]
  exact ⟨rfl, rfl⟩

/-- The command text `q!` reaches case `"q!"`, in both revisions of the handler. -/
theorem handleCommand_qBang (env : Env GoString) (e : Editor GoString)
    (h : e.commandBuffer = str "q!") :
    handleCommand env e = caseQBang e ∧ Short.handleCommand env e = caseQBang e := by
  unfold handleCommand Short.handleCommand
  rw [h]
  exact ⟨rfl, rfl⟩

/-- C13. The quit gate, in both revisions of `handleCommand` (`y2WU.go` and `FsE4.go`),
for every state `e` whose command text is `q` and every state `f` whose command text is
`q!`.  After `q`: when the dirty flag was false the quit flag is true; when it was true
the quit flag is what it was and the status is the unsaved-changes warning; so, from a
state whose quit flag is not yet set, the quit flag is set if and only if the dirty flag
was false.  After `q!` the quit flag is true whatever the dirty flag.  Neither command
changes the document or the cursor. -/
theorem quit_gate (env : Env GoString) (e f : Editor GoString)
    (he : e.commandBuffer = str "q") (hf : f.commandBuffer = str "q!") :
    (∃ e', handleCommand env e = some e' ∧ Short.handleCommand env e = some e' ∧
      (e.isDirty = false → e'.quit = true) ∧
      (e.isDirty = true → e'.quit = e.quit ∧
        e'.statusMessage = str "Unsaved changes! Use :q! to force quit") ∧
      (e.quit = false → (e'.quit = true ↔ e.isDirty = false)) ∧
      e'.lines = e.lines ∧ e'.cursorX = e.cursorX ∧ e'.cursorY = e.cursorY) ∧
    (∃ f', handleCommand env f = some f' ∧ Short.handleCommand env f = some f' ∧
      f'.quit = true ∧
      f'.lines = f.lines ∧ f'.cursorX = f.cursorX ∧ f'.cursorY = f.cursorY) := by
  obtain ⟨h1, h2⟩ := handleCommand_q env e he
  obtain ⟨h3, h4⟩ := handleCommand_qBang env f hf
  constructor
  · rw [h1, h2]
    cases hd : e.isDirty
    · refine ⟨{ e with quit := true }, by simp [caseQ, hd], by simp [caseQ, hd], ?_⟩
      simp
    · refine ⟨setStatusMessage e (str "Unsaved changes! Use :q! to force quit"),
        by simp [caseQ, hd], by simp [caseQ, hd], ?_⟩
      simp [setStatusMessage]
  · rw [h3, h4]
    exact ⟨{ f with quit := true }, rfl, rfl, rfl, rfl, rfl, rfl⟩

/-- Witness of C13: a dirty buffer with the command `q`, and one with `q!`. -/
theorem quit_gate_witness :
    (∃ e', handleCommand (plainEnv GoString)
        { newEditor GoString 24 with isDirty := true, commandBuffer := str "q" } = some e' ∧
      e'.quit = false ∧
      e'.statusMessage = str "Unsaved changes! Use :q! to force quit") ∧
    (∃ f', handleCommand (plainEnv GoString)
        { newEditor GoString 24 with isDirty := true, commandBuffer := str "q!" } = some f' ∧
      f'.quit = true) := by
  have h := quit_gate (plainEnv GoString)
    { newEditor GoString 24 with isDirty := true, commandBuffer := str "q" }
    { newEditor GoString 24 with isDirty := true, commandBuffer := str "q!" } rfl rfl
  obtain ⟨⟨e', h1, _, _, h4, _⟩, ⟨f', g1, _, g3, _⟩⟩ := h
  exact ⟨⟨e', h1, (h4 rfl).1, (h4 rfl).2⟩, ⟨f', g1, g3⟩⟩

/-! ## C15 and C16: the `set` commands -/

/-- C15, evaluated on the code.  The verb is the text before the first space, so the
command text `set number` has the verb `set`: the cases `"set number"` and
`"set nonumber"` are never reached.  In `y2WU.go` case `"set"` knows no setting `number`
or `nonumber` and returns the state as it is, `showLineNumbers` included; in `FsE4.go`
the text ends in the default case, with the status `Unknown command: set number`. -/
theorem set_number_changes_nothing (env : Env GoString) :
    handleCommand env
        { newEditor GoString 24 with showLineNumbers := false, commandBuffer := str "set number" } =
      some { newEditor GoString 24 with
        showLineNumbers := false, commandBuffer := str "set number" } ∧
    handleCommand env
        { newEditor GoString 24 with showLineNumbers := true, commandBuffer := str "set nonumber" } =
      some { newEditor GoString 24 with
        showLineNumbers := true, commandBuffer := str "set nonumber" } ∧
    (Short.handleCommand env
        { newEditor GoString 24 with showLineNumbers := false, commandBuffer := str "set number" }).map
        (fun e => (e.showLineNumbers, e.statusMessage)) =
      some (false, str "Unknown command: set number") ∧
    (Short.handleCommand env
        { newEditor GoString 24 with showLineNumbers := true, commandBuffer := str "set nonumber" }).map
        (fun e => (e.showLineNumbers, e.statusMessage)) =
      some (true, str "Unknown command: set nonumber") :=
  ⟨rfl, rfl, rfl, rfl⟩

/-- C16, evaluated on the code.  Case `"tabsize"` assigns to `e.tabSize` the number of
items `fmt.Sscan` has scanned, not the number it has read: `set tabsize 8` leaves
`tabSize = 1` with the status `Tab size set to 1`, and so does `set tabsize 0`, which is
not a positive integer; only a text `fmt.Sscan` rejects leaves `tabSize` as it was, with
the status `Invalid tab size`. -/
theorem set_tabsize_stores_item_count :
    (handleCommand (plainEnv GoString)
        { newEditor GoString 24 with commandBuffer := str "set tabsize 8" }).map
        (fun e => (e.tabSize, e.statusMessage)) = some (1, str "Tab size set to 1") ∧
    (handleCommand (plainEnv GoString)
        { newEditor GoString 24 with commandBuffer := str "set tabsize 0" }).map
        (fun e => (e.tabSize, e.statusMessage)) = some (1, str "Tab size set to 1") ∧
    (handleCommand (plainEnv GoString)
        { newEditor GoString 24 with commandBuffer := str "set tabsize x" }).map
        (fun e => (e.tabSize, e.statusMessage)) = some (4, str "Invalid tab size") ∧
    (plainEnv GoString).sscan (str "8") = some 8 := by
  refine ⟨by decide, by decide, by decide, by decide⟩

/-! ## C17 and C18: Escape -/

/-- C17. Escape in `handleInput`, whatever the collaborators `ops`.  From each of the
modes command, search, filename, rename and confirm the call returns the state with
mode `normal`, `commandBuffer`, `searchTerm` and `newFileDir` empty, `confirmAction`
`nil` and the status `NORMAL`, every other field as it was: no collaborator is called,
so the pending action is not invoked.  From mode insert it returns the state with mode
`normal` and the status `NORMAL`.  In every mode the document, the cursor, the dirty
flag and both history stacks are unchanged. -/
theorem escape_to_normal {R : Type} (ops : Ops R) (e : Editor R) (ev : EventKey)
    (hk : ev.key = KeyCode.KeyEscape) :
    ((e.mode = str "command" ∨ e.mode = str "search" ∨ e.mode = str "filename" ∨
        e.mode = str "rename" ∨ e.mode = str "confirm") →
      handleInput ops e ev = some { e with
        mode := str "normal", commandBuffer := [], searchTerm := [], newFileDir := [],
        confirmAction := none, statusMessage := str "NORMAL" }) ∧
    (e.mode = str "insert" →
      handleInput ops e ev = some { e with mode := str "normal", statusMessage := str "NORMAL" }) ∧
    ∃ e', handleInput ops e ev = some e' ∧ e'.lines = e.lines ∧ e'.cursorX = e.cursorX ∧
      e'.cursorY = e.cursorY ∧ e'.isDirty = e.isDirty ∧ e'.undoStack = e.undoStack ∧
      e'.redoStack = e.redoStack := by
  have hins : ¬ (str "insert" = str "command" ∨ str "insert" = str "search" ∨
      str "insert" = str "filename" ∨ str "insert" = str "rename" ∨
      str "insert" = str "confirm") := by decide
  refine ⟨fun hm => ?_, fun hm => ?_, ?_⟩
  · unfold handleInput
    rw [if_pos hk, if_pos hm]
    rfl
  · unfold handleInput
    rw [if_pos hk, hm, if_neg hins, if_pos rfl]
    rfl
  · unfold handleInput
    rw [if_pos hk]
    split_ifs
    · exact ⟨_, rfl, rfl, rfl, rfl, rfl, rfl, rfl⟩
    · exact ⟨_, rfl, rfl, rfl, rfl, rfl, rfl, rfl⟩
    · exact ⟨_, rfl, rfl, rfl, rfl, rfl, rfl, rfl⟩

/-- Witness of C17: confirm mode with a pending action and some typed text. -/
theorem escape_to_normal_witness :
    handleInput (traceOps GoString)
        { newEditor GoString 24 with
          mode := str "confirm", commandBuffer := str "ab", newFileDir := str "dir",
          confirmAction := some 7, isDirty := true } ⟨KeyCode.KeyEscape, 0⟩ =
      some { newEditor GoString 24 with
        mode := str "normal", commandBuffer := [], searchTerm := [], newFileDir := [],
        confirmAction := none, statusMessage := str "NORMAL", isDirty := true } :=
  (escape_to_normal (traceOps GoString)
    { newEditor GoString 24 with
      mode := str "confirm", commandBuffer := str "ab", newFileDir := str "dir",
      confirmAction := some 7, isDirty := true } ⟨KeyCode.KeyEscape, 0⟩ rfl).1
    (by decide)

/-- C18 as stated fails: from normal mode with the search term `foo`, the key `:` enters
command mode and Escape then returns to normal mode with an empty search term. -/
theorem searchTerm_lost_on_escape :
    ((handleInput (traceOps GoString) { newEditor GoString 24 with searchTerm := str "foo" }
        ⟨KeyCode.KeyRune, 58⟩).bind
      (fun e => handleInput (traceOps GoString) e ⟨KeyCode.KeyEscape, 0⟩)).map
      (fun e => (e.mode, e.searchTerm)) = some (str "normal", []) ∧
    str "foo" ≠ ([] : GoString) :=
  ⟨rfl, by decide⟩

/-- C18, amended.  Entering command mode with `:` from normal mode keeps the search
term; leaving command, filename, rename or confirm mode with Escape yields a
normal-mode state whose search term is empty. -/
theorem escape_clears_searchTerm {R : Type} (ops : Ops R) (e c : Editor R)
    (he : e.mode = str "normal")
    (hc : c.mode = str "command" ∨ c.mode = str "filename" ∨ c.mode = str "rename" ∨
      c.mode = str "confirm") :
    (∃ e1, handleInput ops e ⟨KeyCode.KeyRune, 58⟩ = some e1 ∧ e1.mode = str "command" ∧
      e1.searchTerm = e.searchTerm) ∧
    (∃ c', handleInput ops c ⟨KeyCode.KeyEscape, 0⟩ = some c' ∧ c'.mode = str "normal" ∧
      c'.searchTerm = []) := by
  constructor
  · have hk : ¬ ((⟨KeyCode.KeyRune, 58⟩ : EventKey).key = KeyCode.KeyEscape) := by decide
    unfold handleInput
    rw [if_neg hk, if_pos he]
    unfold handleNormalMode
    cases e.treeVisible
    · exact ⟨_, rfl, rfl, rfl⟩
    · exact ⟨_, rfl, rfl, rfl⟩
  · have hm : c.mode = str "command" ∨ c.mode = str "search" ∨ c.mode = str "filename" ∨
        c.mode = str "rename" ∨ c.mode = str "confirm" := by
      rcases hc with h | h | h | h
      · exact Or.inl h
      · exact Or.inr (Or.inr (Or.inl h))
      · exact Or.inr (Or.inr (Or.inr (Or.inl h)))
      · exact Or.inr (Or.inr (Or.inr (Or.inr h)))
    unfold handleInput
    rw [if_pos rfl, if_pos hm]
    exact ⟨_, rfl, rfl, rfl⟩

/-- Witness of C18 amended: the search term `foo`, and a rename in progress. -/
theorem escape_clears_searchTerm_witness :
    (∃ e1, handleInput (traceOps GoString)
        { newEditor GoString 24 with searchTerm := str "foo" } ⟨KeyCode.KeyRune, 58⟩ = some e1 ∧
      e1.mode = str "command" ∧ e1.searchTerm = str "foo") ∧
    (∃ c', handleInput (traceOps GoString)
        { newEditor GoString 24 with searchTerm := str "foo", mode := str "rename" }
        ⟨KeyCode.KeyEscape, 0⟩ = some c' ∧
      c'.mode = str "normal" ∧ c'.searchTerm = []) :=
  escape_clears_searchTerm (traceOps GoString)
    { newEditor GoString 24 with searchTerm := str "foo" }
    { newEditor GoString 24 with searchTerm := str "foo", mode := str "rename" }
    rfl (by decide)

/-! ## C19: normal-mode key dispatch -/

/-- In normal mode a rune key goes to `handleNormalMode`. -/
theorem handleInput_normal_rune {R : Type} (ops : Ops R) (e : Editor R) (r : Int)
    (hm : e.mode = str "normal") :
    handleInput ops e ⟨KeyCode.KeyRune, r⟩ = handleNormalMode ops e ⟨KeyCode.KeyRune, r⟩ := by
  have hk : ¬ ((⟨KeyCode.KeyRune, r⟩ : EventKey).key = KeyCode.KeyEscape) := by
    simp
  unfold handleInput
  rw [if_neg hk, if_pos hm]

/-- C19 as stated fails: in the state `NewEditor` builds (normal mode, file tree
visible) the rune `h` is handed to `handleTreeNavigation`, whatever the collaborators,
and not to `moveCursor`. -/
theorem tree_visible_h_goes_to_tree :
    (∀ ops : Ops GoString,
      handleInput ops (newEditor GoString 24) ⟨KeyCode.KeyRune, 104⟩ =
        ops.handleTreeNavigation (newEditor GoString 24) ⟨KeyCode.KeyRune, 104⟩) ∧
    handleInput (traceOps GoString) (newEditor GoString 24) ⟨KeyCode.KeyRune, 104⟩ ≠
      (traceOps GoString).moveCursor (newEditor GoString 24) (-1) 0 :=
  ⟨fun _ => rfl, by decide⟩

/-- C19, amended.  Normal-mode key dispatch through `handleInput`, whatever the
collaborators `ops`; each equation says that the one collaborator named is called once on
the state, and nothing else is done.  With the file tree hidden the runes `h`, `j`, `k`,
`l` call `moveCursor` with `(-1,0)`, `(0,1)`, `(0,-1)`, `(1,0)`, the rune `r` calls `redo`
and `n` calls `nextMatch`; with the file tree visible these six runes are handed to
`handleTreeNavigation`.  In both cases `u` calls `undo` and `N` calls
`previousMatch`. -/
theorem normal_mode_dispatch {R : Type} (ops : Ops R) (e : Editor R)
    (hm : e.mode = str "normal") :
    (e.treeVisible = false →
      handleInput ops e ⟨KeyCode.KeyRune, 104⟩ = ops.moveCursor e (-1) 0 ∧
      handleInput ops e ⟨KeyCode.KeyRune, 106⟩ = ops.moveCursor e 0 1 ∧
      handleInput ops e ⟨KeyCode.KeyRune, 107⟩ = ops.moveCursor e 0 (-1) ∧
      handleInput ops e ⟨KeyCode.KeyRune, 108⟩ = ops.moveCursor e 1 0 ∧
      handleInput ops e ⟨KeyCode.KeyRune, 114⟩ = ops.redo e ∧
      handleInput ops e ⟨KeyCode.KeyRune, 110⟩ = ops.nextMatch e) ∧
    (e.treeVisible = true →
      handleInput ops e ⟨KeyCode.KeyRune, 104⟩ =
        ops.handleTreeNavigation e ⟨KeyCode.KeyRune, 104⟩ ∧
      handleInput ops e ⟨KeyCode.KeyRune, 106⟩ =
        ops.handleTreeNavigation e ⟨KeyCode.KeyRune, 106⟩ ∧
      handleInput ops e ⟨KeyCode.KeyRune, 107⟩ =
        ops.handleTreeNavigation e ⟨KeyCode.KeyRune, 107⟩ ∧
      handleInput ops e ⟨KeyCode.KeyRune, 108⟩ =
        ops.handleTreeNavigation e ⟨KeyCode.KeyRune, 108⟩ ∧
      handleInput ops e ⟨KeyCode.KeyRune, 114⟩ =
        ops.handleTreeNavigation e ⟨KeyCode.KeyRune, 114⟩ ∧
      handleInput ops e ⟨KeyCode.KeyRune, 110⟩ =
        ops.handleTreeNavigation e ⟨KeyCode.KeyRune, 110⟩) ∧
    handleInput ops e ⟨KeyCode.KeyRune, 117⟩ = ops.undo e ∧
    handleInput ops e ⟨KeyCode.KeyRune, 78⟩ = ops.previousMatch e := by
  refine ⟨fun ht => ?_, fun ht => ?_, ?_, ?_⟩
  · simp only [handleInput_normal_rune ops e _ hm]
    unfold handleNormalMode
    rw [ht]
    exact ⟨rfl, rfl, rfl, rfl, rfl, rfl⟩
  · simp only [handleInput_normal_rune ops e _ hm]
    unfold handleNormalMode
    rw [ht]
    exact ⟨rfl, rfl, rfl, rfl, rfl, rfl⟩
  · rw [handleInput_normal_rune ops e _ hm]
    unfold handleNormalMode
    cases e.treeVisible
    · rfl
    · rfl
  · rw [handleInput_normal_rune ops e _ hm]
    unfold handleNormalMode
    cases e.treeVisible
    · rfl
    · rfl

/-- Witness of C19 amended: normal mode with the file tree hidden. -/
theorem normal_mode_dispatch_witness :
    handleInput (traceOps GoString) { newEditor GoString 24 with treeVisible := false }
        ⟨KeyCode.KeyRune, 104⟩ =
      (traceOps GoString).moveCursor { newEditor GoString 24 with treeVisible := false } (-1) 0 ∧
    handleInput (traceOps GoString) { newEditor GoString 24 with treeVisible := false }
        ⟨KeyCode.KeyRune, 117⟩ =
      (traceOps GoString).undo { newEditor GoString 24 with treeVisible := false } := by
  have h := normal_mode_dispatch (traceOps GoString)
    { newEditor GoString 24 with treeVisible := false } rfl
  exact ⟨(h.1 rfl).1, h.2.2.1⟩

/-! ## C20: Tab in insert mode -/

/-- C20, evaluated on the code.  In insert mode on the line `x fo` with the cursor at its
end, `getCompletions` returns the one candidate `for`; the Tab key writes `x for` and
moves the cursor to column 5, but records nothing: the undo stack is still empty and the
redo stack still holds its entry. -/
theorem insert_tab_records_nothing :
    getCompletions ({ newEditor GoString 24 with
        lines := [str "x fo"], cursorX := 4, mode := str "insert",
        redoStack := [str "x fo!"] } : Editor GoString) =
      some [{ Text := str "for", Description := str "Loop statement" }] ∧
    (handleInput (traceOps GoString)
        { newEditor GoString 24 with
          lines := [str "x fo"], cursorX := 4, mode := str "insert",
          redoStack := [str "x fo!"] } ⟨KeyCode.KeyTab, 0⟩).map
        (fun e => (e.lines, e.cursorX, e.undoStack, e.redoStack)) =
      some ([str "x for"], 5, [], [str "x fo!"]) := by
  refine ⟨by decide, by decide⟩

/-! ## C14: the dirty flag -/

/-- C14, evaluated on the code.  `undo` installs the document of the popped snapshot and
never writes `isDirty`: from the clean state `["c"]` with the snapshot `["ac"]` on the
undo stack it returns the document `["ac"]` with the dirty flag still false. -/
theorem undo_leaves_dirty_flag_unset :
    (Snapshot.undo
        { newEditor Snapshot.Change 24 with
          lines := [str "c"], isDirty := false,
          undoStack := [{ lines := [str "ac"], cursorX := 1, cursorY := 0,
                          action := str "delete" }] }).map
        (fun e => (e.lines, e.isDirty)) = some ([str "ac"], false) ∧
    [str "ac"] ≠ [str "c"] := by
  refine ⟨by decide, by decide⟩

/-! ## C11: the command `line <n>` -/

/-- Splitting `verb ++ " " ++ arg` at the first space, for a verb without a space. -/
theorem splitN2_verb (verb arg : GoString) (h : (32 : Byte) ∉ verb) :
    splitN2 (verb ++ 32 :: arg) = [verb, arg] := by
  have hmem : (32 : Byte) ∈ verb ++ 32 :: arg := by simp
  have htake : ∀ v : GoString, (32 : Byte) ∉ v →
      (v ++ 32 :: arg).takeWhile (fun b => b != 32) = v ∧
      (v ++ 32 :: arg).dropWhile (fun b => b != 32) = 32 :: arg := by
    intro v
    induction v with
    | nil => intro _; simp
    | cons b v ih =>
      intro hv
      have hb : b ≠ 32 := fun hb => hv (by simp [hb])
      have hv' : (32 : Byte) ∉ v := fun hm => hv (by simp [hm])
      obtain ⟨h1, h2⟩ := ih hv'
      simp [List.takeWhile_cons, List.dropWhile_cons, hb, h1, h2]
  obtain ⟨h1, h2⟩ := htake verb h
  unfold splitN2
  rw [if_pos hmem, h1, h2]
  rfl

/-- The command text `line <arg>` reaches case `"line"` with the argument `arg`, in both
revisions of the handler. -/
theorem handleCommand_line (env : Env GoString) (e : Editor GoString) (arg : GoString)
    (h : e.commandBuffer = str "line " ++ arg) :
    handleCommand env e = handleCommandLine e (env.sscan arg) ∧
    Short.handleCommand env e = handleCommandLine e (env.sscan arg) := by
  have hs : splitN2 (str "line " ++ arg) = [str "line", arg] :=
    splitN2_verb (str "line") arg (by decide)
  unfold handleCommand Short.handleCommand
  rw [h, hs]
  exact ⟨rfl, rfl⟩

/-- The command `line` with a number inside the document. -/
theorem handleCommandLine_in_range {R : Type} (e : Editor R) (n : Int)
    (h1 : 0 < n) (h2 : n ≤ len e.lines) :
    ∃ l e', index e.lines (n - 1) = some l ∧ handleCommandLine e (some n) = some e' ∧
      e'.lines = e.lines ∧ e'.cursorY = n - 1 ∧ e'.cursorX = min e.cursorX (len l) ∧
      e'.statusMessage = str "Moved to line " ++ fmtInt n := by
  obtain ⟨m, hm⟩ := Int.eq_ofNat_of_zero_le (show 0 ≤ n - 1 by omega)
  have hml : m < e.lines.length := by
    rw [len_eq_length] at h2
    omega
  obtain ⟨t, ht⟩ : ∃ t, e.lines[m]? = some t := ⟨_, List.getElem?_eq_getElem hml⟩
  have hn : n > 0 ∧ n ≤ len e.lines := ⟨h1, h2⟩
  refine ⟨t, ?_⟩
  simp only [handleCommandLine, hn, and_self, if_true, hm, index_natCast, ht,
    Option.bind_eq_bind, Option.some_bind]
  refine ⟨_, trivial, rfl, ?_, ?_, ?_, ?_⟩
  · split_ifs <;> rfl
  · split_ifs <;> rfl
  · by_cases hgt : e.cursorX > len t
    · simp only [hgt, if_true]
      have : min e.cursorX (len t) = len t := min_eq_right (le_of_lt hgt)
      rw [this]
      split_ifs <;> rfl
    · simp only [hgt, if_false]
      have : min e.cursorX (len t) = e.cursorX := min_eq_left (not_lt.mp hgt)
      rw [this]
      split_ifs <;> rfl
  · split_ifs <;> rfl

/-- The command `line` with a number outside the document. -/
theorem handleCommandLine_out_of_range {R : Type} (e : Editor R) (n : Int)
    (h : n ≤ 0 ∨ len e.lines < n) :
    handleCommandLine e (some n) = some (setStatusMessage e (str "Line number out of range")) := by
  have hn : ¬ (n > 0 ∧ n ≤ len e.lines) := by
    rintro ⟨h1, h2⟩
    rcases h with h | h <;> omega
  simp only [handleCommandLine, hn, if_false]

/-- C11. The command `line <n>` in both revisions of `handleCommand`: for every state
whose command text is `line ` followed by an argument that `fmt.Sscan` reads as the
integer `n`, the command returns a state with the same document.  If
`1 ≤ n ≤ lineCount`, then `cursorY = n - 1` and `cursorX = min(old cursorX,
len(lines[n-1]))`; otherwise the cursor is unchanged and the status is
`Line number out of range`.  With five lines, `line 3` sets row 2 and `line 9` leaves the
cursor where it was. -/
theorem line_command (env : Env GoString) (e : Editor GoString) (arg : GoString) (n : Int)
    (hbuf : e.commandBuffer = str "line " ++ arg) (hscan : env.sscan arg = some n) :
    (∃ e', handleCommand env e = some e' ∧ Short.handleCommand env e = some e' ∧
      e'.lines = e.lines ∧
      (1 ≤ n ∧ n ≤ len e.lines → e'.cursorY = n - 1 ∧
        ∃ l, index e.lines (n - 1) = some l ∧ e'.cursorX = min e.cursorX (len l)) ∧
      (n ≤ 0 ∨ len e.lines < n → e'.cursorX = e.cursorX ∧ e'.cursorY = e.cursorY ∧
        e'.statusMessage = str "Line number out of range")) ∧
    (handleCommand (plainEnv GoString)
        { newEditor GoString 24 with
          lines := [str "a", str "b", str "c", str "d", str "e"], cursorY := 4,
          commandBuffer := str "line 3" }).map (fun s => (s.cursorY, s.cursorX)) =
      some (2, 0) ∧
    (handleCommand (plainEnv GoString)
        { newEditor GoString 24 with
          lines := [str "a", str "b", str "c", str "d", str "e"], cursorY := 4,
          commandBuffer := str "line 9" }).map
        (fun s => (s.cursorY, s.cursorX, s.statusMessage)) =
      some (4, 0, str "Line number out of range") := by
  obtain ⟨hc1, hc2⟩ := handleCommand_line env e arg hbuf
  refine ⟨?_, by decide, by decide⟩
  rw [hc1, hc2, hscan]
  by_cases hr : 0 < n ∧ n ≤ len e.lines
  · obtain ⟨l, e', hl, he', h1, h2, h3, _⟩ := handleCommandLine_in_range e n hr.1 hr.2
    refine ⟨e', he', he', h1, fun _ => ⟨h2, l, hl, h3⟩, fun ho => ?_⟩
    rcases ho with ho | ho <;> omega
  · have ho : n ≤ 0 ∨ len e.lines < n := by
      by_cases h0 : 0 < n
      · exact Or.inr (not_le.mp (fun h => hr ⟨h0, h⟩))
      · exact Or.inl (not_lt.mp h0)
    refine ⟨_, handleCommandLine_out_of_range e n ho, handleCommandLine_out_of_range e n ho,
      rfl, fun hi => ?_, fun _ => ⟨rfl, rfl, rfl⟩⟩
    exact absurd ⟨by omega, hi.2⟩ hr

/-- Witness of C11: three lines, the cursor at the end of the first, and `line 2`. -/
theorem line_command_witness :
    ∃ e', handleCommand (plainEnv GoString)
        { newEditor GoString 24 with
          lines := [str "abcd", str "ef", str "g"], cursorX := 4,
          commandBuffer := str "line 2" } = some e' ∧
      e'.cursorY = 1 ∧ e'.lines = [str "abcd", str "ef", str "g"] := by
  have h := (line_command (plainEnv GoString)
    { newEditor GoString 24 with
      lines := [str "abcd", str "ef", str "g"], cursorX := 4,
      commandBuffer := str "line 2" } (str "2") 2 rfl (by decide)).1
  obtain ⟨e', h1, _, h3, h4, _⟩ := h
  exact ⟨e', h1, (h4 (by decide)).1, h3⟩

/-! ## C12: the command `replace <old> <new>` -/

/-- A found index is the least position at which `sub` starts. -/
theorem stringsIndex_some (sub s : GoString) (j : Nat) (h : stringsIndex sub s = some j) :
    sub <+: s.drop j ∧ j + sub.length ≤ s.length ∧ ∀ i, i < j → ¬ sub <+: s.drop i := by
  induction s generalizing j with
  | nil =>
    unfold stringsIndex at h
    split_ifs at h with hp
    · have hj : j = 0 := by
        have := Option.some.inj h
        omega
      subst hj
      have hpre : sub <+: [] := List.isPrefixOf_iff_prefix.mp hp
      refine ⟨by simpa using hpre, ?_, fun i hi => by omega⟩
      have := hpre.length_le
      simpa using this
  | cons b t ih =>
    unfold stringsIndex at h
    split_ifs at h with hp
    · have hj : j = 0 := by
        have := Option.some.inj h
        omega
      subst hj
      have hpre : sub <+: b :: t := List.isPrefixOf_iff_prefix.mp hp
      refine ⟨by simpa using hpre, ?_, fun i hi => by omega⟩
      have := hpre.length_le
      simpa using this
    · cases hrec : stringsIndex sub t with
      | none => simp [hrec] at h
      | some k =>
        simp only [hrec, Option.map_some', Option.some.injEq] at h
        subst h
        obtain ⟨h1, h2, h3⟩ := ih k hrec
        refine ⟨by simpa using h1, by simp only [List.length_cons]; omega, ?_⟩
        intro i hi
        cases i with
        | zero =>
          intro hpre
          exact hp (List.isPrefixOf_iff_prefix.mpr (by simpa using hpre))
        | succ i =>
          have := h3 i (by omega)
          simpa using this

/-- When no index is found, `sub` starts nowhere in `s`. -/
theorem stringsIndex_none (sub s : GoString) (h : stringsIndex sub s = none) :
    ∀ i, ¬ sub <+: s.drop i := by
  induction s with
  | nil =>
    unfold stringsIndex at h
    split_ifs at h with hp
    intro i hpre
    exact hp (List.isPrefixOf_iff_prefix.mpr (by simpa using hpre))
  | cons b t ih =>
    unfold stringsIndex at h
    split_ifs at h with hp
    have hrec : stringsIndex sub t = none := by
      cases hr : stringsIndex sub t with
      | none => rfl
      | some k => simp [hr] at h
    intro i
    cases i with
    | zero =>
      intro hpre
      exact hp (List.isPrefixOf_iff_prefix.mpr (by simpa using hpre))
    | succ i =>
      have := ih hrec i
      simpa using this

/-- `strings.Index` finds the leftmost instance: the index `j` is returned exactly when
`sub` starts at `j`, fits into `s`, and starts at no earlier position. -/
theorem stringsIndex_iff (sub s : GoString) (j : Nat) :
    stringsIndex sub s = some j ↔
      (sub <+: s.drop j ∧ j + sub.length ≤ s.length ∧ ∀ i, i < j → ¬ sub <+: s.drop i) := by
  constructor
  · exact stringsIndex_some sub s j
  · rintro ⟨h1, _, h3⟩
    cases hidx : stringsIndex sub s with
    | none => exact absurd h1 (stringsIndex_none sub s hidx j)
    | some k =>
      obtain ⟨k1, _, k3⟩ := stringsIndex_some sub s k hidx
      have : k = j := by
        rcases Nat.lt_trichotomy k j with hlt | heq | hgt
        · exact absurd k1 (h3 k hlt)
        · exact heq
        · exact absurd h1 (k3 j hgt)
      rw [this]

/-- The replacement loop does not depend on the fuel once it exceeds the length. -/
theorem replaceLoop_fuel (old new : GoString) (hold : old ≠ []) (fuel fuel' : Nat)
    (s : GoString) (h : s.length < fuel) (h' : s.length < fuel') :
    replaceLoop old new fuel s = replaceLoop old new fuel' s := by
  induction fuel generalizing s fuel' with
  | zero => omega
  | succ f ih =>
    cases fuel' with
    | zero => omega
    | succ f' =>
      unfold replaceLoop
      cases hidx : stringsIndex old s with
      | none => rfl
      | some j =>
        obtain ⟨_, hlen, _⟩ := stringsIndex_some old s j hidx
        have hpos : 0 < old.length := List.length_pos.mpr hold
        have hd : (s.drop (j + old.length)).length < s.length := by
          rw [List.length_drop]; omega
        simp only
        rw [ih f' (s.drop (j + old.length)) (by omega) (by omega)]

/-- The counting loop does not depend on the fuel once it exceeds the length. -/
theorem countLoop_fuel (sub : GoString) (hsub : sub ≠ []) (fuel fuel' : Nat)
    (s : GoString) (h : s.length < fuel) (h' : s.length < fuel') :
    countLoop sub fuel s = countLoop sub fuel' s := by
  induction fuel generalizing s fuel' with
  | zero => omega
  | succ f ih =>
    cases fuel' with
    | zero => omega
    | succ f' =>
      unfold countLoop
      cases hidx : stringsIndex sub s with
      | none => rfl
      | some j =>
        obtain ⟨_, hlen, _⟩ := stringsIndex_some sub s j hidx
        have hpos : 0 < sub.length := List.length_pos.mpr hsub
        have hd : (s.drop (j + sub.length)).length < s.length := by
          rw [List.length_drop]; omega
        simp only
        rw [ih f' (s.drop (j + sub.length)) (by omega) (by omega)]

/-- `strings.ReplaceAll` on a string without an instance of `old`. -/
theorem stringsReplaceAll_none (s old new : GoString) (hold : old ≠ [])
    (h : stringsIndex old s = none) : stringsReplaceAll s old new = s := by
  unfold stringsReplaceAll
  rw [if_neg hold]
  unfold replaceLoop
  rw [h]

/-- `strings.ReplaceAll` on a string whose leftmost instance of `old` is at `j`: the text
before it, `new`, and the replacement of what follows the instance. -/
theorem stringsReplaceAll_some (s old new : GoString) (hold : old ≠ []) (j : Nat)
    (h : stringsIndex old s = some j) :
    stringsReplaceAll s old new =
      s.take j ++ new ++ stringsReplaceAll (s.drop (j + old.length)) old new := by
  obtain ⟨_, hlen, _⟩ := stringsIndex_some old s j h
  have hpos : 0 < old.length := List.length_pos.mpr hold
  have hd : (s.drop (j + old.length)).length < s.length := by
    rw [List.length_drop]; omega
  unfold stringsReplaceAll
  rw [if_neg hold, if_neg hold]
  conv_lhs => unfold replaceLoop
  rw [h]
  simp only
  rw [replaceLoop_fuel old new hold s.length ((s.drop (j + old.length)).length + 1) _ hd
    (by omega)]

/-- `strings.Count` on a string without an instance of `sub`. -/
theorem stringsCount_none (s sub : GoString) (hsub : sub ≠ [])
    (h : stringsIndex sub s = none) : stringsCount s sub = 0 := by
  unfold stringsCount
  rw [if_neg hsub]
  unfold countLoop
  rw [h]

/-- `strings.Count` on a string whose leftmost instance of `sub` is at `j`. -/
theorem stringsCount_some (s sub : GoString) (hsub : sub ≠ []) (j : Nat)
    (h : stringsIndex sub s = some j) :
    stringsCount s sub = 1 + stringsCount (s.drop (j + sub.length)) sub := by
  obtain ⟨_, hlen, _⟩ := stringsIndex_some sub s j h
  have hpos : 0 < sub.length := List.length_pos.mpr hsub
  have hd : (s.drop (j + sub.length)).length < s.length := by
    rw [List.length_drop]; omega
  unfold stringsCount
  rw [if_neg hsub, if_neg hsub]
  conv_lhs => unfold countLoop
  rw [h]
  simp only
  rw [countLoop_fuel sub hsub s.length ((s.drop (j + sub.length)).length + 1) _ hd
    (by omega)]

/-- Writing the entry right behind `done`. -/
theorem set_append_cons {α : Type} (done rest : List α) (l v : α) :
    (done ++ l :: rest).set done.length v = done ++ v :: rest := by
  induction done with
  | nil => rfl
  | cons d ds ih => simp [ih]

/-- A line without an instance of a non-empty `old` is left alone and counts zero. -/
theorem not_contains (l old new : GoString) (hold : old ≠ [])
    (h : stringsContains l old = false) :
    stringsReplaceAll l old new = l ∧ stringsCount l old = 0 := by
  have hidx : stringsIndex old l = none := by
    unfold stringsContains at h
    cases hi : stringsIndex old l with
    | none => rfl
    | some j => simp [hi] at h
  exact ⟨stringsReplaceAll_none l old new hold hidx, stringsCount_none l old hold hidx⟩

/-- The loop of case `"replace"`, entered behind the lines `done` already visited: it
ends with every remaining line replaced and with the instances counted. -/
theorem replaceLinesLoop_spec (old new : GoString) (hold : old ≠ [])
    (rest done : List GoString) (e : Editor GoString) (count : Int)
    (h : e.lines = done ++ rest) :
    ∃ e', replaceLinesLoop old new rest (done.length : Int) (e, count) =
        some (e', count + (rest.map (fun l => (stringsCount l old : Int))).sum) ∧
      e'.lines = done ++ rest.map (fun l => stringsReplaceAll l old new) ∧
      e'.cursorX = e.cursorX ∧ e'.cursorY = e.cursorY := by
  induction rest generalizing done e count with
  | nil => exact ⟨e, by simp [replaceLinesLoop], by simpa using h, rfl, rfl⟩
  | cons l rest ih =>
    have hnext : ((done.length : Nat) : Int) + 1 = (((done ++ [stringsReplaceAll l old new]).length : Nat) : Int) := by
      simp
    have hnext' : ((done.length : Nat) : Int) + 1 = (((done ++ [l]).length : Nat) : Int) := by
      simp
    unfold replaceLinesLoop
    by_cases hc : stringsContains l old = true
    · have hlt : done.length < (done ++ l :: rest).length := by simp
      simp only [hc, if_true, addUndo, h, setIndex_natCast, hlt, Option.bind_eq_bind,
        Option.some_bind, set_append_cons, hnext]
      obtain ⟨e', h1, h2, h3, h4⟩ := ih (done ++ [stringsReplaceAll l old new])
        { addUndo e l with
          lines := done ++ stringsReplaceAll l old new :: rest, isDirty := true }
        (count + (stringsCount l old : Int)) (by simp)
      simp only [addUndo] at h1
      refine ⟨e', ?_, ?_, h3, h4⟩
      · rw [h1]
        simp only [List.map_cons, List.sum_cons]
        rw [add_assoc]
      · rw [h2]
        simp
    · have hc' : stringsContains l old = false := by
        cases hb : stringsContains l old
        · rfl
        · exact absurd hb hc
      obtain ⟨hr, hz⟩ := not_contains l old new hold hc'
      simp only [hc', Bool.false_eq_true, if_false, hnext']
      obtain ⟨e', h1, h2, h3, h4⟩ := ih (done ++ [l]) e count (by simp [h])
      refine ⟨e', ?_, ?_, h3, h4⟩
      · rw [h1]
        simp [hz]
      · rw [h2]
        simp [hr]

/-- The command text `replace <old> <new>` reaches case `"replace"` with the parts
`old` and `new`. -/
theorem handleCommand_replace (env : Env GoString) (e : Editor GoString)
    (old new : GoString) (hsp : (32 : Byte) ∉ old)
    (hbuf : e.commandBuffer = str "replace " ++ old ++ 32 :: new) :
    handleCommand env e = caseReplace e [str "replace", old ++ 32 :: new] ∧
    splitN2 (old ++ 32 :: new) = [old, new] := by
  have hb : e.commandBuffer = str "replace" ++ 32 :: (old ++ 32 :: new) := by
    rw [hbuf]
    rfl
  have hs : splitN2 (str "replace" ++ 32 :: (old ++ 32 :: new)) =
      [str "replace", old ++ 32 :: new] :=
    splitN2_verb (str "replace") _ (by decide)
  refine ⟨?_, splitN2_verb old new hsp⟩
  unfold handleCommand
  rw [hb, hs]
  rfl

/-- C12. The command `replace <old> <new>` of `handleCommand` (`y2WU.go`) with a
non-empty `<old>` (which, being the text before the first space of the argument, holds
no space).  The command returns a state in which each line is `strings.ReplaceAll` of
the old line, the line count is the same and a line that does not contain `<old>` is
unchanged; the status reports the sum over all lines of `strings.Count`, as
`Replaced <n> occurrences` when it is positive and `No matches found` when it is zero.
Both library functions go left to right over non-overlapping instances: without an
instance the line is kept and counts zero, and with the leftmost instance at `j` the
result is the text before `j`, then `<new>`, then the replacement of what follows the
instance, which counts one more than that rest.  `["foo bar","bar baz"]` with
`replace bar qux` gives `["foo qux","qux baz"]` and the count 2. -/
theorem replace_command (env : Env GoString) (e : Editor GoString) (old new : GoString)
    (hold : old ≠ []) (hsp : (32 : Byte) ∉ old)
    (hbuf : e.commandBuffer = str "replace " ++ old ++ 32 :: new) :
    (∃ e', handleCommand env e = some e' ∧
      e'.lines = e.lines.map (fun l => stringsReplaceAll l old new) ∧
      len e'.lines = len e.lines ∧
      (∀ (i : Int) (l : GoString), index e.lines i = some l → stringsContains l old = false →
        index e'.lines i = some l) ∧
      e'.statusMessage =
        (if (e.lines.map (fun l => (stringsCount l old : Int))).sum > 0 then
          str "Replaced " ++ fmtInt (e.lines.map (fun l => (stringsCount l old : Int))).sum ++
            str " occurrences"
        else str "No matches found")) ∧
    (∀ s : GoString, stringsIndex old s = none →
      stringsReplaceAll s old new = s ∧ stringsCount s old = 0) ∧
    (∀ (s : GoString) (j : Nat), stringsIndex old s = some j →
      stringsReplaceAll s old new =
        s.take j ++ new ++ stringsReplaceAll (s.drop (j + old.length)) old new ∧
      stringsCount s old = 1 + stringsCount (s.drop (j + old.length)) old) ∧
    (∀ (s : GoString) (j : Nat), stringsIndex old s = some j ↔
      (old <+: s.drop j ∧ j + old.length ≤ s.length ∧ ∀ i, i < j → ¬ old <+: s.drop i)) ∧
    (handleCommand env
        { newEditor GoString 24 with
          lines := [str "foo bar", str "bar baz"],
          commandBuffer := str "replace bar qux" }).map (fun s => (s.lines, s.statusMessage)) =
      some ([str "foo qux", str "qux baz"], str "Replaced 2 occurrences") := by
  refine ⟨?_, fun s h => ⟨stringsReplaceAll_none s old new hold h, stringsCount_none s old hold h⟩,
    fun s j h => ⟨stringsReplaceAll_some s old new hold j h, stringsCount_some s old hold j h⟩,
    fun s j => stringsIndex_iff old s j, rfl⟩
  obtain ⟨hcase, hsplit⟩ := handleCommand_replace env e old new hsp hbuf
  obtain ⟨e1, hloop, hlines, _, _⟩ := replaceLinesLoop_spec old new hold e.lines [] e 0 (by simp)
  have hrun : handleCommand env e = some (setStatusMessage e1
      (if (e.lines.map (fun l => (stringsCount l old : Int))).sum > 0 then
        str "Replaced " ++ fmtInt (e.lines.map (fun l => (stringsCount l old : Int))).sum ++
          str " occurrences"
      else str "No matches found")) := by
    rw [hcase]
    unfold caseReplace
    have hl : replaceLinesLoop old new e.lines 0 (e, 0) =
        some (e1, (e.lines.map (fun l => (stringsCount l old : Int))).sum) := by
      have := hloop
      simp only [List.length_nil, Nat.cast_zero, zero_add] at this
      exact this
    have h1 : index [str "replace", old ++ 32 :: new] 1 = some (old ++ 32 :: new) := rfl
    have h2 : index [old, new] 0 = some old := rfl
    have h3 : index [old, new] 1 = some new := rfl
    have h4 : len [str "replace", old ++ 32 :: new] > 1 := by
      show ((2 : Nat) : Int) > 1
      decide
    have h5 : len [old, new] = 2 := rfl
    simp only [h4, if_true, h1, Option.bind_eq_bind, Option.some_bind, hsplit, h5, h2, h3, hl]
    split_ifs <;> rfl
  refine ⟨_, hrun, ?_, ?_, ?_, rfl⟩
  · simpa [setStatusMessage] using hlines
  · simp [setStatusMessage, hlines]
  · intro i l hi hc
    have hrep := (not_contains l old new hold hc).1
    show index (setStatusMessage e1 _).lines i = some l
    have : (setStatusMessage e1
      (if (e.lines.map (fun l => (stringsCount l old : Int))).sum > 0 then
        str "Replaced " ++ fmtInt (e.lines.map (fun l => (stringsCount l old : Int))).sum ++
          str " occurrences"
      else str "No matches found")).lines = e.lines.map (fun l => stringsReplaceAll l old new) := by
      simpa [setStatusMessage] using hlines
    rw [this]
    unfold index at hi ⊢
    split_ifs at hi ⊢ with h0
    rw [List.getElem?_map, hi]
    simp [hrep]

/-- Witness of C12: the instance `aa` in `aaa`, replaced by `b`. -/
theorem replace_command_witness :
    ∃ e', handleCommand (plainEnv GoString)
        { newEditor GoString 24 with
          lines := [str "aaa", str "xy"], commandBuffer := str "replace aa b" } = some e' ∧
      e'.lines = [str "ba", str "xy"] := by
  obtain ⟨e', h1, h2, _⟩ := (replace_command (plainEnv GoString)
    { newEditor GoString 24 with
      lines := [str "aaa", str "xy"], commandBuffer := str "replace aa b" }
    (str "aa") (str "b") (by decide) (by decide) rfl).1
  refine ⟨e', h1, ?_⟩
  rw [h2]
  decide

/-! ## C29: what `undo` moves between the stacks -/

/-- C29. `undo` (snapshot revision) on a state whose undo stack is not empty returns a
state whose undo stack is the old one without its top entry (one entry less, the others
in the same order) and whose redo stack is the old one with one entry pushed on top, the
old entries unchanged below; the pushed entry holds the document and the cursor that were
current right before the call. -/
theorem undo_moves_one_entry (e : Editor Snapshot.Change) (h : e.undoStack ≠ []) :
    ∃ e' top, Snapshot.undo e = some e' ∧
      e.undoStack = e'.undoStack ++ [top] ∧
      e'.undoStack.length + 1 = e.undoStack.length ∧
      e'.redoStack = e.redoStack ++
        [{ lines := e.lines, cursorX := e.cursorX, cursorY := e.cursorY,
           action := str "redo" }] ∧
      e'.redoStack.length = e.redoStack.length + 1 := by
  rcases List.eq_nil_or_concat e.undoStack with h0 | ⟨st, top, hst⟩
  · exact absurd h0 h
  · rw [List.concat_eq_append] at hst
    refine ⟨_, top, snapshot_undo_concat e st top hst, hst, ?_, rfl, ?_⟩
    · simp [hst]
    · simp

/-- Witness of C29: two snapshots on the undo stack, one on the redo stack. -/
theorem undo_moves_one_entry_witness :
    ∃ e', Snapshot.undo
        { newEditor Snapshot.Change 24 with
          lines := [str "c"],
          undoStack := [
            { lines := [str "abc"], cursorX := 3, cursorY := 0, action := str "delete" },
            { lines := [str "ac"], cursorX := 1, cursorY := 0, action := str "delete" }],
          redoStack := [
            { lines := [str "x"], cursorX := 0, cursorY := 0, action := str "redo" }] } =
        some e' ∧
      e'.undoStack.length = 1 ∧ e'.redoStack.length = 2 := by
  obtain ⟨e', top, h1, _, h3, _, h5⟩ := undo_moves_one_entry
    { newEditor Snapshot.Change 24 with
      lines := [str "c"],
      undoStack := [
        { lines := [str "abc"], cursorX := 3, cursorY := 0, action := str "delete" },
        { lines := [str "ac"], cursorX := 1, cursorY := 0, action := str "delete" }],
      redoStack := [
        { lines := [str "x"], cursorX := 0, cursorY := 0, action := str "redo" }] }
    (by decide)
  refine ⟨e', h1, ?_, h5⟩
  have : e'.undoStack.length + 1 = 2 := h3
  omega

/-! ## C26: the large-file load -/

/-- The loop of `loadLargeFile` keeps the lines up to the 1001st. -/
theorem scanLarge_eq (acc xs : List GoString) (h : acc.length ≤ 1000) :
    Snapshot.scanLarge acc xs = acc ++ xs.take (1001 - acc.length) := by
  induction xs generalizing acc with
  | nil => simp [Snapshot.scanLarge]
  | cons t rest ih =>
    unfold Snapshot.scanLarge
    have hsplit : 1001 - acc.length = (1000 - acc.length) + 1 := by omega
    by_cases hfull : acc.length = 1000
    · have hgt : len (acc ++ [t]) > 1000 := by
        simp only [len_eq_length, List.length_append, List.length_singleton, hfull]
        decide
      rw [if_pos hgt, hsplit, hfull]
      simp
    · have hgt : ¬ len (acc ++ [t]) > 1000 := by
        simp only [len_eq_length, List.length_append, List.length_singleton]
        omega
      rw [if_neg hgt, ih (acc ++ [t]) (by simp; omega), hsplit]
      have : 1001 - (acc ++ [t]).length = 1000 - acc.length := by
        simp only [List.length_append, List.length_singleton]
        omega
      rw [this]
      simp

/-- When the file opens, `loadLargeFile` leaves the first 1001 scanned lines and its
status message. -/
theorem loadLargeFile_lines (e : Editor Snapshot.Change) (f : Snapshot.FileAnswer)
    (h : f.openErr = false) :
    (Snapshot.loadLargeFile e f).1.lines = f.scanned.take 1001 ∧
    (Snapshot.loadLargeFile e f).1.statusMessage =
      str "Large file: Only first 1000 lines loaded" := by
  have hs := scanLarge_eq [] f.scanned (Nat.zero_le _)
  rw [List.length_nil, Nat.sub_zero, List.nil_append] at hs
  simp only [Snapshot.loadLargeFile, h, SetStatusMessage, Bool.false_eq_true, if_false, hs,
    and_self]

/-- C26, evaluated on the code.  The loop of `loadLargeFile` leaves once the document
holds more than 1000 lines, which is after the 1001st line has been appended: for a file
of 1500 lines the document is the first 1001 lines, not the first 1000 that the status
message announces. -/
theorem loadLargeFile_keeps_1001_lines :
    (Snapshot.loadLargeFile (newEditor Snapshot.Change 24)
      { statErr := false, size := 60000000, openErr := false,
        scanned := List.replicate 1500 (str "x"), scanErr := false }).1.lines =
      (List.replicate 1500 (str "x")).take 1001 ∧
    (Snapshot.loadLargeFile (newEditor Snapshot.Change 24)
      { statErr := false, size := 60000000, openErr := false,
        scanned := List.replicate 1500 (str "x"), scanErr := false }).1.lines.length = 1001 ∧
    (Snapshot.loadLargeFile (newEditor Snapshot.Change 24)
      { statErr := false, size := 60000000, openErr := false,
        scanned := List.replicate 1500 (str "x"), scanErr := false }).1.statusMessage =
      str "Large file: Only first 1000 lines loaded" := by
  have h : (Snapshot.loadLargeFile (newEditor Snapshot.Change 24)
      { statErr := false, size := 60000000, openErr := false,
        scanned := List.replicate 1500 (str "x"), scanErr := false }).1.lines =
      (List.replicate 1500 (str "x")).take 1001 := by
    exact (loadLargeFile_lines _ _ rfl).1
  refine ⟨h, ?_, (loadLargeFile_lines _ _ rfl).2⟩
  rw [h, List.length_take, List.length_replicate]
  decide

/-! ## C27: the record pushed by the structured `deleteChar` -/

/-- C27, evaluated on the code.  The record's `text` is `string(line[cursorX])`, the
conversion of a byte to a string, which is the UTF-8 encoding of the code point with
that number: for a byte from 128 on it is two bytes, not the byte deleted.  On the line
`"é"` (bytes `C3 A9`) with the cursor at column 2, `deleteChar` pushes a record with
`oldLine = C3 A9`, `newLine = C3`, `cursorX = 1` and `text = C2 A9`, so that
`newLine[:cursorX] ++ text ++ newLine[cursorX:]` is `C3 C2 A9` and not `oldLine`. -/
theorem deleteChar_record_text_not_deleted_byte :
    (Structured.deleteChar
        { newEditor Structured.Action 24 with lines := [[0xC3, 0xA9]], cursorX := 2 }).map
        (fun e => e.undoStack) =
      some [{ type := Structured.ActionType.ActionDelete, lineNum := 0,
              oldLine := [0xC3, 0xA9], newLine := [0xC3], cursorX := 1, cursorY := 0,
              text := [0xC2, 0xA9] }] ∧
    ([0xC3] : GoString).take 1 ++ [0xC2, 0xA9] ++ ([0xC3] : GoString).drop 1 ≠ [0xC3, 0xA9] ∧
    stringOfByte 0xA9 = [0xC2, 0xA9] := by
  refine ⟨by decide, by decide, by decide⟩

/-! ## C22: cycling through the candidates -/

/-- The method `nextCompletion` on an active popup with an index that is not negative. -/
theorem nextCompletion_eq {R : Type} (e : Editor R) (hact : e.completionActive = true)
    (hk : 0 < len e.completions) (hi0 : 0 ≤ e.completionIndex) :
    nextCompletion e =
      { e with completionIndex := (e.completionIndex + 1) % len e.completions } := by
  unfold nextCompletion
  rw [if_pos ⟨hact, hk⟩, Int.tmod_eq_emod (by omega) (le_of_lt hk)]

/-- The method `prevCompletion` on an active popup with an index in range. -/
theorem prevCompletion_eq {R : Type} (e : Editor R) (hact : e.completionActive = true)
    (hk : 0 < len e.completions) (hi0 : 0 ≤ e.completionIndex)
    (hi1 : e.completionIndex < len e.completions) :
    prevCompletion e =
      { e with completionIndex :=
          (e.completionIndex - 1 + len e.completions) % len e.completions } := by
  unfold prevCompletion
  rw [if_pos ⟨hact, hk⟩]
  by_cases h0 : e.completionIndex - 1 < 0
  · have hz : e.completionIndex = 0 := by omega
    have hm : (e.completionIndex - 1 + len e.completions) % len e.completions =
        len e.completions - 1 := by
      rw [hz]
      have : (0 : Int) - 1 + len e.completions = len e.completions - 1 := by ring
      rw [this]
      exact Int.emod_eq_of_lt (by omega) (by omega)
    simp only [h0, if_true, hm]
  · have hm : (e.completionIndex - 1 + len e.completions) % len e.completions =
        e.completionIndex - 1 := by
      rw [Int.add_emod_self]
      exact Int.emod_eq_of_lt (by omega) (by omega)
    simp only [h0, if_false, hm]

/-- The index after `n` calls of `nextCompletion`. -/
theorem nextCompletionTimes_index {R : Type} (n : Nat) (e : Editor R)
    (hact : e.completionActive = true) (hk : 0 < len e.completions)
    (hi0 : 0 ≤ e.completionIndex) (hi1 : e.completionIndex < len e.completions) :
    (nextCompletionTimes n e).completionIndex =
      (e.completionIndex + (n : Int)) % len e.completions := by
  induction n generalizing e with
  | zero =>
    simp only [nextCompletionTimes, Nat.cast_zero, add_zero]
    exact (Int.emod_eq_of_lt hi0 hi1).symm
  | succ n ih =>
    have hn := nextCompletion_eq e hact hk hi0
    have hk0 : len e.completions ≠ 0 := by omega
    have h1 : (nextCompletion e).completionActive = true := by rw [hn]; exact hact
    have h2 : (nextCompletion e).completions = e.completions := by rw [hn]
    have h3 : (nextCompletion e).completionIndex =
        (e.completionIndex + 1) % len e.completions := by rw [hn]
    simp only [nextCompletionTimes]
    rw [ih (nextCompletion e) h1 (by rw [h2]; exact hk)
      (by rw [h3]; exact Int.emod_nonneg _ hk0)
      (by rw [h3, h2]; exact Int.emod_lt_of_pos _ hk), h2, h3]
    simp only [Int.emod_add_emod, Nat.cast_add, Nat.cast_one]
    congr 1
    ring

/-- C22. For a state with the popup active, `k > 0` candidates and
`0 ≤ completionIndex < k`: `nextCompletion` changes the index to
`(completionIndex + 1) mod k` and `prevCompletion` to `(completionIndex - 1 + k) mod k`,
and nothing else; both indices lie in `[0, k)`; at index `k - 1` `nextCompletion` gives
0; `k` calls of `nextCompletion` return to the starting index; `prevCompletion` after
`nextCompletion` gives back the starting state.  For a state `f` whose popup is not
active or whose candidate list is empty, both calls return `f` itself. -/
theorem completion_index_wraps {R : Type} (e f : Editor R)
    (hact : e.completionActive = true) (hk : 0 < len e.completions)
    (hi0 : 0 ≤ e.completionIndex) (hi1 : e.completionIndex < len e.completions)
    (hf : f.completionActive = false ∨ f.completions = []) :
    nextCompletion e =
      { e with completionIndex := (e.completionIndex + 1) % len e.completions } ∧
    prevCompletion e =
      { e with completionIndex :=
          (e.completionIndex - 1 + len e.completions) % len e.completions } ∧
    (0 ≤ (nextCompletion e).completionIndex ∧
      (nextCompletion e).completionIndex < len e.completions) ∧
    (0 ≤ (prevCompletion e).completionIndex ∧
      (prevCompletion e).completionIndex < len e.completions) ∧
    (e.completionIndex = len e.completions - 1 → (nextCompletion e).completionIndex = 0) ∧
    (nextCompletionTimes e.completions.length e).completionIndex = e.completionIndex ∧
    prevCompletion (nextCompletion e) = e ∧
    nextCompletion f = f ∧ prevCompletion f = f := by
  have hk0 : len e.completions ≠ 0 := by omega
  have hn := nextCompletion_eq e hact hk hi0
  have hp := prevCompletion_eq e hact hk hi0 hi1
  refine ⟨hn, hp, ?_, ?_, ?_, ?_, ?_, ?_, ?_⟩
  · rw [hn]
    exact ⟨Int.emod_nonneg _ hk0, Int.emod_lt_of_pos _ hk⟩
  · rw [hp]
    exact ⟨Int.emod_nonneg _ hk0, Int.emod_lt_of_pos _ hk⟩
  · intro hlast
    rw [hn]
    show (e.completionIndex + 1) % len e.completions = 0
    rw [hlast, Int.sub_add_cancel, Int.emod_self]
  · rw [nextCompletionTimes_index _ e hact hk hi0 hi1]
    show (e.completionIndex + len e.completions) % len e.completions = e.completionIndex
    rw [Int.add_emod_self]
    exact Int.emod_eq_of_lt hi0 hi1
  · have h1 : (nextCompletion e).completionActive = true := by rw [hn]; exact hact
    have h2 : (nextCompletion e).completions = e.completions := by rw [hn]
    have h3 : (nextCompletion e).completionIndex =
        (e.completionIndex + 1) % len e.completions := by rw [hn]
    have hback : ((e.completionIndex + 1) % len e.completions - 1 + len e.completions) %
        len e.completions = e.completionIndex := by
      rw [Int.add_emod_self, Int.sub_eq_add_neg, Int.emod_add_emod,
        ← Int.sub_eq_add_neg, Int.add_sub_cancel]
      exact Int.emod_eq_of_lt hi0 hi1
    have hsame : ∀ j, j = e.completionIndex → { e with completionIndex := j } = e := by
      intro j hj
      subst hj
      rfl
    rw [prevCompletion_eq (nextCompletion e) h1 (by rw [h2]; exact hk)
      (by rw [h3]; exact Int.emod_nonneg _ hk0)
      (by rw [h3, h2]; exact Int.emod_lt_of_pos _ hk), h2, h3, hn]
    exact hsame _ hback
  · unfold nextCompletion
    rcases hf with hf | hf
    · simp [hf]
    · simp [hf, len]
  · unfold prevCompletion
    rcases hf with hf | hf
    · simp [hf]
    · simp [hf, len]

/-- Witness of C22: three candidates, the index at the last one; `f` has no popup. -/
theorem completion_index_wraps_witness :
    (nextCompletion { newEditor GoString 24 with
        completionActive := true, completionIndex := 2,
        completions := [⟨str "for", []⟩, ⟨str "format", []⟩, ⟨str "func", []⟩] }).completionIndex
      = 0 ∧
    (prevCompletion { newEditor GoString 24 with
        completionActive := true, completionIndex := 2,
        completions := [⟨str "for", []⟩, ⟨str "format", []⟩, ⟨str "func", []⟩] }).completionIndex
      = 1 := by
  have h := completion_index_wraps
    { newEditor GoString 24 with
        completionActive := true, completionIndex := 2,
        completions := [⟨str "for", []⟩, ⟨str "format", []⟩, ⟨str "func", []⟩] }
    (newEditor GoString 24) rfl (by decide) (by decide) (by decide) (Or.inl rfl)
  refine ⟨?_, ?_⟩
  · rw [h.1]; decide
  · rw [h.2.1]; decide

/-! ## C24: confirm mode -/

/-- In confirm mode a rune key goes to `handleConfirmMode`. -/
theorem handleInput_confirm_rune {R : Type} (ops : Ops R) (e : Editor R) (r : Int)
    (hm : e.mode = str "confirm") :
    handleInput ops e ⟨KeyCode.KeyRune, r⟩ = handleConfirmMode ops e ⟨KeyCode.KeyRune, r⟩ := by
  have hk : ¬ ((⟨KeyCode.KeyRune, r⟩ : EventKey).key = KeyCode.KeyEscape) := by
    simp
  have n1 : ¬ (e.mode = str "normal") := by rw [hm]; decide
  have n2 : ¬ (e.mode = str "insert") := by rw [hm]; decide
  have n3 : ¬ (e.mode = str "command") := by rw [hm]; decide
  have n4 : ¬ (e.mode = str "search") := by rw [hm]; decide
  have n5 : ¬ (e.mode = str "filename") := by rw [hm]; decide
  have n6 : ¬ (e.mode = str "rename") := by rw [hm]; decide
  unfold handleInput
  rw [if_neg hk, if_neg n1, if_neg n2, if_neg n3, if_neg n4, if_neg n5, if_neg n6, if_pos hm]

/-- C24 as stated fails, on two counts.  In confirm mode with the pending action 7, the
rune `Y`, which is a rune other than `y` and `n`, calls the pending action and changes
the mode to normal; and the rune `n` changes the mode to normal but leaves
`confirmAction` holding the action 7. -/
theorem confirm_mode_Y_acts_and_n_keeps_action :
    (handleInput (traceOps GoString)
        { newEditor GoString 24 with mode := str "confirm", confirmAction := some 7 }
        ⟨KeyCode.KeyRune, 89⟩).map (fun e => (e.mode, e.statusMessage)) =
      some (str "normal", str "confirmAction") ∧
    (handleInput (traceOps GoString)
        { newEditor GoString 24 with mode := str "confirm", confirmAction := some 7 }
        ⟨KeyCode.KeyRune, 110⟩).map (fun e => (e.mode, e.confirmAction)) =
      some (str "normal", some 7) ∧
    str "normal" ≠ str "confirm" := by
  refine ⟨rfl, rfl, by decide⟩

/-- C24, amended.  In confirm mode with the pending action `a`, through `handleInput`
and whatever the collaborators `ops`: the runes `y` and `Y` call the pending action once
on the state and set the mode of the state it returns to normal; the runes `n` and `N`
call nothing, report `Operation cancelled` and set the mode to normal; after any of
these four keys the mode is normal; every other rune returns the state unchanged, the
mode and the pending action with it.  For the four keys the states are compared with the
field `confirmAction` set aside (it is set to `none` on both sides), so nothing is said
on the value of that field after them. -/
theorem confirm_mode_keys {R : Type} (ops : Ops R) (e : Editor R) (a : Nat) (r : Int)
    (hm : e.mode = str "confirm") (ha : e.confirmAction = some a) :
    (r = 121 ∨ r = 89 →
      (handleInput ops e ⟨KeyCode.KeyRune, r⟩).map (fun x => { x with confirmAction := none }) =
        (ops.invoke a e).map
          (fun e1 => { e1 with mode := str "normal", confirmAction := none })) ∧
    (r = 110 ∨ r = 78 →
      (handleInput ops e ⟨KeyCode.KeyRune, r⟩).map (fun x => { x with confirmAction := none }) =
        some { e with
          statusMessage := str "Operation cancelled", mode := str "normal",
          confirmAction := none }) ∧
    (r = 121 ∨ r = 89 ∨ r = 110 ∨ r = 78 →
      ∀ e', handleInput ops e ⟨KeyCode.KeyRune, r⟩ = some e' → e'.mode = str "normal") ∧
    (r ≠ 121 ∧ r ≠ 89 ∧ r ≠ 110 ∧ r ≠ 78 →
      handleInput ops e ⟨KeyCode.KeyRune, r⟩ = some e) := by
  rw [handleInput_confirm_rune ops e r hm]
  unfold handleConfirmMode
  refine ⟨?_, ?_, ?_, ?_⟩
  · intro hr
    simp only [if_true, hr, ha]
    cases ops.invoke a e <;> rfl
  · intro hr
    have hny : ¬ (r = 121 ∨ r = 89) := by omega
    simp only [if_true, hr, hny, if_false]
    rfl
  · intro hr e' he'
    by_cases hy : r = 121 ∨ r = 89
    · simp only [if_true, hy, ha] at he'
      cases hinv : ops.invoke a e with
      | none =>
        rw [hinv] at he'
        cases he'
      | some e1 =>
        rw [hinv] at he'
        cases he'
        rfl
    · have hn : r = 110 ∨ r = 78 := by omega
      simp only [if_true, hy, hn, if_false] at he'
      cases he'
      rfl
  · intro hr
    have hny : ¬ (r = 121 ∨ r = 89) := by omega
    have hnn : ¬ (r = 110 ∨ r = 78) := by omega
    simp only [if_true, hny, hnn, if_false]

/-- Witness of C24 amended: the pending action 7 and the keys `y`, `N` and `x`. -/
theorem confirm_mode_keys_witness :
    (handleInput (traceOps GoString)
        { newEditor GoString 24 with mode := str "confirm", confirmAction := some 7 }
        ⟨KeyCode.KeyRune, 121⟩).map (fun x => { x with confirmAction := none }) =
      some { newEditor GoString 24 with
        mode := str "normal", confirmAction := none, statusMessage := str "confirmAction" } ∧
    (handleInput (traceOps GoString)
        { newEditor GoString 24 with mode := str "confirm", confirmAction := some 7 }
        ⟨KeyCode.KeyRune, 78⟩).map (fun x => { x with confirmAction := none }) =
      some { newEditor GoString 24 with
        mode := str "normal", confirmAction := none,
        statusMessage := str "Operation cancelled" } ∧
    handleInput (traceOps GoString)
        { newEditor GoString 24 with mode := str "confirm", confirmAction := some 7 }
        ⟨KeyCode.KeyRune, 120⟩ =
      some { newEditor GoString 24 with mode := str "confirm", confirmAction := some 7 } :=
  ⟨(confirm_mode_keys (traceOps GoString)
      { newEditor GoString 24 with mode := str "confirm", confirmAction := some 7 } 7 121
      rfl rfl).1 (Or.inl rfl),
   (confirm_mode_keys (traceOps GoString)
      { newEditor GoString 24 with mode := str "confirm", confirmAction := some 7 } 7 78
      rfl rfl).2.1 (Or.inr rfl),
   (confirm_mode_keys (traceOps GoString)
      { newEditor GoString 24 with mode := str "confirm", confirmAction := some 7 } 7 120
      rfl rfl).2.2.2 (by decide)⟩

/-! ## C25: saving and the file on disk -/

/-- The method `writeToFile` touches no path but the one it is given. -/
theorem writeToFile_other (fs : Files) (faults : Faults) (filename : GoString)
    (lines : List GoString) (p : GoString) (hp : p ≠ filename) :
    (Snapshot.writeToFile fs faults filename lines).1 p = fs p := by
  unfold Snapshot.writeToFile
  cases faults.createFails
  · cases faults.writeFailsAfter with
    | none => simp [Files.put, hp]
    | some n =>
      by_cases hn : n < lines.length
      · simp [Files.put, hp, hn]
      · simp [Files.put, hp, hn]
  · simp

/-- The method `SaveFile` of `3IWz.go` is atomic: when it returns an error after the
backup check, the target file is as before, the temporary file does not exist and the
editor state (the dirty flag with it) is unchanged. -/
theorem snapshot_SaveFile_failure_atomic (fs : Files) (faults : Faults)
    (e : Editor Snapshot.Change) (err : GoString) (hf : e.filename ≠ [])
    (hb : Snapshot.createBackup fs e = none)
    (h : (Snapshot.SaveFile fs faults e).2.2 = some err) :
    (Snapshot.SaveFile fs faults e).2.1 e.filename = fs e.filename ∧
    (Snapshot.SaveFile fs faults e).2.1 (e.filename ++ str ".tmp") = none ∧
    (Snapshot.SaveFile fs faults e).1 = e := by
  have hne : e.filename ≠ e.filename ++ str ".tmp" := by
    intro heq
    have hlen := congrArg List.length heq
    rw [List.length_append] at hlen
    have : (str ".tmp").length = 4 := by decide
    omega
  have hother := writeToFile_other fs faults (e.filename ++ str ".tmp") e.lines e.filename hne
  unfold Snapshot.SaveFile at h ⊢
  rw [if_neg hf, hb] at h ⊢
  simp only at h ⊢
  rcases hw : Snapshot.writeToFile fs faults (e.filename ++ str ".tmp") e.lines with
    ⟨fs1, werr⟩
  rw [hw] at h hother
  simp only at hother
  cases werr with
  | some w =>
    simp only [Files.remove, hne, if_false, if_true, hother, and_self]
  | none =>
    simp only at h ⊢
    cases hr : faults.renameFails with
    | true =>
      simp only [Files.remove, hne, if_false, if_true, hother, and_self]
    | false =>
      rw [hr] at h
      simp only [Bool.false_eq_true, if_false] at h ⊢
      cases ht : fs1 (e.filename ++ str ".tmp") with
      | none =>
        simp only [Files.remove, hne, if_false, if_true, hother, and_self]
      | some content =>
        rw [ht] at h
        simp at h

/-- C25, evaluated on the code.  The file `a.txt` holds `old\n`, the editor holds the
line `new` with the dirty flag set, and the write fails before any byte reaches the file.
The command `w` (`saveFile` of `y2WU.go`, which opens the target itself with `os.Create`
and uses no temporary file) reports `Error saving: write failed` and keeps the dirty
flag, but the file `a.txt` is now empty: its old content is lost.  `SaveFile` of
`3IWz.go` on the same filesystem and failure leaves `a.txt` holding `old\n`, leaves no
`a.txt.tmp`, and keeps the dirty flag. -/
theorem w_command_failed_write_truncates_target :
    (handleCommand
        (envOn (plainEnv GoString) (Files.put (fun _ => none) (str "a.txt") (str "old\n"))
          { createFails := false, writeFailsAfter := some 0, renameFails := false })
        { newEditor GoString 24 with
          filename := str "a.txt", lines := [str "new"], isDirty := true,
          commandBuffer := str "w" }).map (fun e => (e.statusMessage, e.isDirty)) =
      some (str "Error saving: write failed", true) ∧
    saveFileFiles (Files.put (fun _ => none) (str "a.txt") (str "old\n"))
        { createFails := false, writeFailsAfter := some 0, renameFails := false }
        { newEditor GoString 24 with
          filename := str "a.txt", lines := [str "new"], isDirty := true,
          commandBuffer := str "w" } (str "a.txt") = some [] ∧
    Files.put (fun _ => none) (str "a.txt") (str "old\n") (str "a.txt") = some (str "old\n") ∧
    (Snapshot.SaveFile (Files.put (fun _ => none) (str "a.txt") (str "old\n"))
        { createFails := false, writeFailsAfter := some 0, renameFails := false }
        { newEditor Snapshot.Change 24 with
          filename := str "a.txt", lines := [str "new"], isDirty := true }).2.1 (str "a.txt") =
      some (str "old\n") ∧
    (Snapshot.SaveFile (Files.put (fun _ => none) (str "a.txt") (str "old\n"))
        { createFails := false, writeFailsAfter := some 0, renameFails := false }
        { newEditor Snapshot.Change 24 with
          filename := str "a.txt", lines := [str "new"], isDirty := true }).2.1
        (str "a.txt.tmp") = none ∧
    (Snapshot.SaveFile (Files.put (fun _ => none) (str "a.txt") (str "old\n"))
        { createFails := false, writeFailsAfter := some 0, renameFails := false }
        { newEditor Snapshot.Change 24 with
          filename := str "a.txt", lines := [str "new"], isDirty := true }).1.isDirty = true ∧
    (Snapshot.SaveFile (Files.put (fun _ => none) (str "a.txt") (str "old\n"))
        { createFails := false, writeFailsAfter := some 0, renameFails := false }
        { newEditor Snapshot.Change 24 with
          filename := str "a.txt", lines := [str "new"], isDirty := true }).2.2 =
      some (str "write failed: write failed") := by
  refine ⟨by rfl, by rfl, by rfl, by rfl, by rfl, by rfl, by rfl⟩

/-! ## C21: the completion candidates -/

/-- The word-start loop entered at column `n` inside the line ends at the start `w` of
the maximal run of word characters that ends at `n`: every byte in `[w, n)` is a word
character, and `w` is 0 or the byte before `w` is not a word character. -/
theorem wordStartLoop_spec (l : GoString) (n : Nat) (h : n ≤ l.length) :
    ∃ w : Nat, wordStartLoop l n = some (w : Int) ∧ w ≤ n ∧
      (∀ i b, w ≤ i → i < n → l[i]? = some b → isWordChar b = true) ∧
      (w = 0 ∨ ∃ b, l[w - 1]? = some b ∧ isWordChar b = false) := by
  induction n with
  | zero =>
    refine ⟨0, rfl, le_refl 0, ?_, Or.inl rfl⟩
    intro i b _ hi
    omega
  | succ n ih =>
    obtain ⟨w, hw, hle, hrun, hmax⟩ := ih (by omega)
    have hn : n < l.length := by omega
    unfold wordStartLoop
    rw [index_natCast, List.getElem?_eq_getElem hn]
    by_cases hb : isWordChar l[n] = true
    · refine ⟨w, by simp [hb, hw], by omega, ?_, hmax⟩
      intro i b hwi hi hib
      by_cases hin : i < n
      · exact hrun i b hwi hin hib
      · have hieq : i = n := by omega
        subst hieq
        rw [List.getElem?_eq_getElem hn] at hib
        cases hib
        exact hb
    · refine ⟨n + 1, by simp [hb], le_refl _, ?_, Or.inr ⟨l[n], ?_, ?_⟩⟩
      · intro i b hwi hi
        omega
      · rw [Nat.add_sub_cancel]
        exact List.getElem?_eq_getElem hn
      · simpa using hb

/-- The word start that `getCompletions` and `applyCompletion` compute from the column
`c` of the line `l`. -/
theorem findWordStart_spec (l : GoString) (c : Nat) (h : c ≤ l.length) :
    ∃ w : Nat, findWordStart l (c : Int) = some (w : Int) ∧ w ≤ c ∧
      (∀ i b, w ≤ i → i < c → l[i]? = some b → isWordChar b = true) ∧
      (w = 0 ∨ ∃ b, l[w - 1]? = some b ∧ isWordChar b = false) := by
  unfold findWordStart
  by_cases hc : (c : Int) > 0
  · simp only [hc, if_true, Int.toNat_ofNat]
    exact wordStartLoop_spec l c h
  · have hc0 : c = 0 := by omega
    subst hc0
    refine ⟨0, by simp, le_refl 0, ?_, Or.inl rfl⟩
    intro i b _ hi
    omega

/-- Every byte of `l[w:c]` is a byte of `l` at an index in `[w, c)`. -/
theorem mem_slice_index {α : Type} (l : List α) (w c : Nat) (b : α)
    (hb : b ∈ (l.take c).drop w) : ∃ i, w ≤ i ∧ i < c ∧ l[i]? = some b := by
  obtain ⟨j, hj, hjb⟩ := List.getElem_of_mem hb
  rw [List.getElem_drop, List.getElem_take] at hjb
  rw [List.length_drop, List.length_take] at hj
  refine ⟨w + j, by omega, by omega, ?_⟩
  rw [← hjb]
  exact List.getElem?_eq_getElem _

/-- What `getCompletions` returns at row `r`, column `c` of the line `l`, with `w` the
word start. -/
theorem getCompletions_eq {R : Type} (e : Editor R) (r c w : Nat) (l : GoString)
    (hy : e.cursorY = (r : Int)) (hx : e.cursorX = (c : Int))
    (hl : e.lines[r]? = some l) (hc : c ≤ l.length) (hwc : w ≤ c)
    (hw : findWordStart l (c : Int) = some (w : Int)) :
    getCompletions e =
      if len ((l.take c).drop w) < 2 then some []
      else if e.filename ≠ [] then
        some (getLanguageCompletions ((l.take c).drop w) ++
          getFileTypeCompletions ((l.take c).drop w) (filepathExt e.filename))
      else some (getLanguageCompletions ((l.take c).drop w)) := by
  unfold getCompletions
  rw [hy, hx]
  simp only [index_natCast, hl, Option.bind_eq_bind, Option.some_bind, hw]
  by_cases hlt : w < c
  · have h1 : (w : Int) < (c : Int) ∧ (w : Int) < len l := by
      rw [len_eq_length]
      constructor <;> omega
    rw [if_pos h1, slice_natCast, if_pos ⟨hwc, hc⟩]
    rfl
  · have h1 : ¬ ((w : Int) < (c : Int) ∧ (w : Int) < len l) := by
      intro h
      omega
    have hwe : w = c := by omega
    have hnil : (l.take c).drop w = [] := by
      rw [hwe]
      simp
    rw [if_neg h1, hnil]

/-- Every candidate that `filterByPrefix` keeps starts with the typed text. -/
theorem filterByPrefix_hasPrefix (table : List Completion) (pre : GoString) (k : Completion)
    (hk : k ∈ filterByPrefix table pre) : hasPrefix k.Text pre = true := by
  unfold filterByPrefix at hk
  exact (List.mem_filter.mp hk).2

/-- C21. On a state with a valid cursor, at row `r` and column `c` of the line `l`, let
`pre = l[w:c]` be the maximal run of word characters of `l` ending at column `c` (every
byte of `pre` is a word character, and `w` is 0 or the byte before `w` is not one).
`getCompletions` returns; when `len(pre) < 2` it returns the empty list; otherwise it
returns the table `keywords` filtered to the entries whose `Text` starts with `pre`, in
the order of the table, followed when a filename is set by the table of the extension of
the filename (`goKeywords` for `.go`, `jsKeywords` for `.js` and `.ts`, nothing
otherwise) filtered in the same way.  Every candidate returned starts with `pre`. -/
theorem getCompletions_spec {R : Type} (e : Editor R) (h : Valid e) :
    ∃ (r c w : Nat) (l pre : GoString),
      e.cursorY = (r : Int) ∧ e.cursorX = (c : Int) ∧ e.lines[r]? = some l ∧
      w ≤ c ∧ c ≤ l.length ∧ pre = (l.take c).drop w ∧
      (∀ b ∈ pre, isWordChar b = true) ∧
      (w = 0 ∨ ∃ b, l[w - 1]? = some b ∧ isWordChar b = false) ∧
      (len pre < 2 → getCompletions e = some []) ∧
      (2 ≤ len pre →
        getCompletions e = some
          (keywords.filter (fun k => hasPrefix k.Text pre) ++
            (if e.filename = [] then []
             else if filepathExt e.filename = str ".go" then
               goKeywords.filter (fun k => hasPrefix k.Text pre)
             else if filepathExt e.filename = str ".js" ∨ filepathExt e.filename = str ".ts" then
               jsKeywords.filter (fun k => hasPrefix k.Text pre)
             else []))) ∧
      (∃ out, getCompletions e = some out ∧ ∀ k ∈ out, hasPrefix k.Text pre = true) := by
  obtain ⟨r, c, l, hy, hx, hl, _, hc⟩ := h.nat
  obtain ⟨w, hw, hwc, hrun, hmax⟩ := findWordStart_spec l c hc
  have hget := getCompletions_eq e r c w l hy hx hl hc hwc hw
  refine ⟨r, c, w, l, (l.take c).drop w, hy, hx, hl, hwc, hc, rfl, ?_, hmax, ?_, ?_, ?_⟩
  · intro b hb
    obtain ⟨i, hwi, hic, hib⟩ := mem_slice_index l w c b hb
    exact hrun i b hwi hic hib
  · intro hshort
    rw [hget, if_pos hshort]
  · intro hlong
    have hnot : ¬ (len ((l.take c).drop w) < 2) := by omega
    rw [hget, if_neg hnot]
    by_cases hf : e.filename = []
    · simp [hf, getLanguageCompletions, filterByPrefix]
    · simp only [ne_eq, hf, not_false_eq_true, if_true, if_false, getLanguageCompletions,
        filterByPrefix, getFileTypeCompletions]
  · rw [hget]
    by_cases hshort : len ((l.take c).drop w) < 2
    · rw [if_pos hshort]
      exact ⟨[], rfl, fun k hk => absurd hk (List.not_mem_nil k)⟩
    · rw [if_neg hshort]
      by_cases hf : e.filename ≠ []
      · rw [if_pos hf]
        refine ⟨_, rfl, ?_⟩
        intro k hk
        rcases List.mem_append.mp hk with hk1 | hk2
        · exact filterByPrefix_hasPrefix _ _ k hk1
        · unfold getFileTypeCompletions at hk2
          split_ifs at hk2
          · exact filterByPrefix_hasPrefix _ _ k hk2
          · exact filterByPrefix_hasPrefix _ _ k hk2
          · exact absurd hk2 (List.not_mem_nil k)
      · rw [if_neg hf]
        exact ⟨_, rfl, fun k hk => filterByPrefix_hasPrefix _ _ k hk⟩

/-- Witness of C21: on the line `x fo` with the cursor at its end the typed text is `fo`
and the candidates are `for` alone; with the filename `a.go` the typed text `go` gives
`go` from the table of the extension; the single typed byte `f` gives nothing. -/
theorem getCompletions_spec_witness :
    (∃ (r c w : Nat) (l pre : GoString),
      ({ newEditor GoString 24 with lines := [str "x fo"], cursorX := 4 } :
        Editor GoString).cursorY = (r : Int) ∧
      ({ newEditor GoString 24 with lines := [str "x fo"], cursorX := 4 } :
        Editor GoString).cursorX = (c : Int) ∧
      ({ newEditor GoString 24 with lines := [str "x fo"], cursorX := 4 } :
        Editor GoString).lines[r]? = some l ∧
      w ≤ c ∧ c ≤ l.length ∧ pre = (l.take c).drop w ∧
      (∀ b ∈ pre, isWordChar b = true) ∧
      (w = 0 ∨ ∃ b, l[w - 1]? = some b ∧ isWordChar b = false)) ∧
    getCompletions { newEditor GoString 24 with lines := [str "x fo"], cursorX := 4 } =
      some [⟨str "for", str "Loop statement"⟩] ∧
    getCompletions { newEditor GoString 24 with
        lines := [str "x go"], cursorX := 4, filename := str "a.go" } =
      some [⟨str "go", str "Start goroutine"⟩] ∧
    getCompletions { newEditor GoString 24 with lines := [str "x f"], cursorX := 3 } =
      some [] := by
  obtain ⟨r, c, w, l, pre, h1, h2, h3, h4, h5, h6, h7, h8, _⟩ :=
    getCompletions_spec
      ({ newEditor GoString 24 with lines := [str "x fo"], cursorX := 4 } : Editor GoString)
      (by decide)
  exact ⟨⟨r, c, w, l, pre, h1, h2, h3, h4, h5, h6, h7, h8⟩, by rfl, by rfl, by rfl⟩

/-! ## C23: applying the selected candidate -/

/-- Writing row `r` leaves the other rows as they are. -/
theorem getElem?_set_other {α : Type} (xs : List α) (r j : Nat) (v : α) (h : j ≠ r) :
    (xs.set r v)[j]? = xs[j]? := by
  rw [List.getElem?_set]
  simp [Ne.symm h]

/-- What `addUndo` leaves on the undo stack: the old entries and the new one on top,
without the oldest entry once the cap is exceeded. -/
theorem addUndo_undoStack (e : Editor GoString) (l : GoString) :
    (len e.undoStack < maxUndoStack →
      (addUndo e l).undoStack = e.undoStack ++ [l] ∧
      (addUndo e l).undoStack.length = e.undoStack.length + 1) ∧
    (maxUndoStack ≤ len e.undoStack →
      (addUndo e l).undoStack = e.undoStack.drop 1 ++ [l] ∧
      (addUndo e l).undoStack.length = e.undoStack.length) := by
  have hcap : maxUndoStack = 1000 := rfl
  constructor
  · intro hlt
    have hnot : ¬ (len (e.undoStack ++ [l]) > maxUndoStack) := by
      rw [len_eq_length] at *
      rw [List.length_append, List.length_singleton]
      push_cast
      omega
    have hs : (addUndo e l).undoStack = e.undoStack ++ [l] := by
      simp only [addUndo, hnot, if_false]
    rw [hs]
    exact ⟨rfl, by simp⟩
  · intro hge
    have hfull : len (e.undoStack ++ [l]) > maxUndoStack := by
      rw [len_eq_length] at *
      rw [List.length_append, List.length_singleton]
      push_cast
      omega
    have hpos : 1 ≤ e.undoStack.length := by
      rw [len_eq_length, hcap] at hge
      omega
    have hs : (addUndo e l).undoStack = e.undoStack.drop 1 ++ [l] := by
      simp only [addUndo, hfull, if_true]
      exact List.drop_append_of_le_length hpos
    rw [hs]
    refine ⟨rfl, ?_⟩
    rw [List.length_append, List.length_drop, List.length_singleton]
    omega

/-- C23. On a state `e` with a valid cursor at row `r`, column `c` of the line `l`, the
popup active and `0 ≤ completionIndex < len(completions)`, with `w` the start of the
maximal run of word characters of `l` ending at `c` and `comp` the selected candidate:
`applyCompletion` returns a state in which row `r` is `l[:w] ++ comp.Text ++ l[c:]`, every
other row and the number of rows are as before, `cursorX = w + len(comp.Text)`, `cursorY`
is unchanged, the popup is closed, and one record, the old line `l`, has been pushed on
the undo stack through `addUndo`: below the cap the stack is the old one followed by `l`,
one entry longer, and at the cap it is the old one without its oldest entry followed by
`l`; the redo stack is empty.  On a state `f` whose popup is not active or whose
candidate list is empty it returns `f` unchanged. -/
theorem applyCompletion_spec (e f : Editor GoString) (h : Valid e)
    (hact : e.completionActive = true) (hi0 : 0 ≤ e.completionIndex)
    (hi1 : e.completionIndex < len e.completions)
    (hf : f.completionActive = false ∨ f.completions = []) :
    (∃ (r c w : Nat) (l : GoString) (comp : Completion) (e' : Editor GoString),
      e.cursorY = (r : Int) ∧ e.cursorX = (c : Int) ∧ e.lines[r]? = some l ∧
      index e.completions e.completionIndex = some comp ∧
      w ≤ c ∧ c ≤ l.length ∧
      (∀ b ∈ (l.take c).drop w, isWordChar b = true) ∧
      (w = 0 ∨ ∃ b, l[w - 1]? = some b ∧ isWordChar b = false) ∧
      applyCompletion e = some e' ∧
      e'.lines[r]? = some (l.take w ++ comp.Text ++ l.drop c) ∧
      (∀ j, j ≠ r → e'.lines[j]? = e.lines[j]?) ∧
      e'.lines.length = e.lines.length ∧
      e'.cursorX = (w : Int) + len comp.Text ∧
      e'.cursorY = e.cursorY ∧
      e'.completionActive = false ∧
      e'.undoStack =
        (if len (e.undoStack ++ [l]) > maxUndoStack then (e.undoStack ++ [l]).drop 1
         else e.undoStack ++ [l]) ∧
      (len e.undoStack < maxUndoStack →
        e'.undoStack = e.undoStack ++ [l] ∧
        e'.undoStack.length = e.undoStack.length + 1) ∧
      (maxUndoStack ≤ len e.undoStack →
        e'.undoStack = e.undoStack.drop 1 ++ [l] ∧
        e'.undoStack.length = e.undoStack.length) ∧
      e'.redoStack = []) ∧
    applyCompletion f = some f := by
  constructor
  · obtain ⟨r, c, l, hy, hx, hl, hr, hc⟩ := h.nat
    obtain ⟨i, hi⟩ := Int.eq_ofNat_of_zero_le hi0
    have hil : i < e.completions.length := by
      rw [hi, len_eq_length] at hi1
      omega
    have hcomp : e.completions[i]? = some e.completions[i] := List.getElem?_eq_getElem hil
    obtain ⟨w, hwc, hw, happ⟩ :=
      applyCompletion_eq e r c i l e.completions[i] hy hx hl hc hact hi hcomp
    obtain ⟨w', hw', _, hrun, hmax⟩ := findWordStart_spec l c hc
    have hww : w' = w := by
      rw [hw] at hw'
      have := Option.some.inj hw'
      omega
    subst hww
    refine ⟨r, c, w', l, e.completions[i], _, hy, hx, hl, ?_, hwc, hc, ?_, hmax, happ,
      ?_, ?_, ?_, rfl, rfl, rfl, rfl, (addUndo_undoStack e l).1, (addUndo_undoStack e l).2,
      rfl⟩
    · rw [hi, index_natCast]
      exact hcomp
    · intro b hb
      obtain ⟨j, hwj, hjc, hjb⟩ := mem_slice_index l w' c b hb
      exact hrun j b hwj hjc hjb
    · exact List.getElem?_set_self hr
    · intro j hj
      exact getElem?_set_other e.lines r j _ hj
    · exact List.length_set _ _ _
  · unfold applyCompletion
    rcases hf with hf | hf
    · simp [hf]
    · simp [hf, len]

/-- Witness of C23: the line `x fo bar` with the cursor after `fo` and the candidate
`for` selected becomes `x for bar` with the cursor at column 5, and the old line is the
one record on the undo stack. -/
theorem applyCompletion_spec_witness :
    (applyCompletion { newEditor GoString 24 with
        lines := [str "x fo bar", str "y"], cursorX := 4, completionActive := true,
        completions := [⟨str "for", str "Loop statement"⟩] }).map
        (fun e => (e.lines, e.cursorX, e.cursorY, e.completionActive, e.undoStack)) =
      some ([str "x for bar", str "y"], 5, 0, false, [str "x fo bar"]) ∧
    applyCompletion (newEditor GoString 24) = some (newEditor GoString 24) :=
  ⟨by rfl,
   (applyCompletion_spec
      { newEditor GoString 24 with
        lines := [str "x fo bar", str "y"], cursorX := 4, completionActive := true,
        completions := [⟨str "for", str "Loop statement"⟩] }
      (newEditor GoString 24) (by decide) rfl (by decide) (by decide) (Or.inl rfl)).2⟩

/-! ## C28: no index out of range under the cursor invariant -/

/-- C28. A method of the model returns `none` exactly when one of the index, slice or
assignment expressions it evaluates is out of range.  On a state with a valid cursor
`deleteChar` and `joinLines` (structured revision), `getCompletions`, and
`applyCompletion` with `0 ≤ completionIndex < len(completions)`, all return a result;
and when `cursorX > 0` the byte that `deleteChar` reads after decrementing `cursorX`,
`line[cursorX - 1]` of the old column, exists. -/
theorem index_safety (a : Editor Structured.Action) (c : Editor GoString)
    (ha : Valid a) (hc : Valid c) :
    (∃ a', Structured.deleteChar a = some a') ∧
    (∃ a', Structured.joinLines a = some a') ∧
    (∃ out, getCompletions c = some out) ∧
    (0 ≤ c.completionIndex → c.completionIndex < len c.completions →
      ∃ c', applyCompletion c = some c') ∧
    (0 < a.cursorX →
      ∃ l d, index a.lines a.cursorY = some l ∧ index l (a.cursorX - 1) = some d) := by
  refine ⟨?_, ?_, ?_, ?_, ?_⟩
  · obtain ⟨a', h, _⟩ := structured_deleteChar_valid a ha
    exact ⟨a', h⟩
  · obtain ⟨a', h, _⟩ := structured_joinLines_valid a ha
    exact ⟨a', h⟩
  · obtain ⟨r, x, l, hy, hx, hl, _, hxl⟩ := hc.nat
    obtain ⟨w, hw, hwx, _, _⟩ := findWordStart_spec l x hxl
    rw [getCompletions_eq c r x w l hy hx hl hxl hwx hw]
    split_ifs
    · exact ⟨_, rfl⟩
    · exact ⟨_, rfl⟩
    · exact ⟨_, rfl⟩
  · intro hi0 hi1
    obtain ⟨c', h, _⟩ := applyCompletion_valid c hc hi0 hi1
    exact ⟨c', h⟩
  · intro hpos
    obtain ⟨r, x, l, hy, hx, hl, _, hxl⟩ := ha.nat
    have hx0 : 0 < x := by omega
    have hlt : x - 1 < l.length := by omega
    refine ⟨l, l[x - 1], ?_, ?_⟩
    · rw [hy, index_natCast]
      exact hl
    · have hcast : a.cursorX - 1 = ((x - 1 : Nat) : Int) := by omega
      rw [hcast, index_natCast]
      exact List.getElem?_eq_getElem hlt

/-- Witness of C28: the cursor at the end of the last line, and a candidate selected. -/
theorem index_safety_witness :
    (∃ a', Structured.deleteChar { newEditor Structured.Action 24 with
      lines := [str "a", str "bcd"], cursorX := 3, cursorY := 1 } = some a') ∧
    (∃ out, getCompletions { newEditor GoString 24 with
      lines := [str "x fo"], cursorX := 4, completionActive := true,
      completions := [⟨str "for", str "Loop statement"⟩] } = some out) := by
  have h := index_safety
    { newEditor Structured.Action 24 with
      lines := [str "a", str "bcd"], cursorX := 3, cursorY := 1 }
    { newEditor GoString 24 with
      lines := [str "x fo"], cursorX := 4, completionActive := true,
      completions := [⟨str "for", str "Loop statement"⟩] }
    (by decide) (by decide)
  exact ⟨h.1, h.2.2.1⟩

end GoEditor
